import Mathlib

/-!
Shallow embedding of `src/Processors/Formats/Impl/DWARFBlockInputFormat.cpp`
(the DWARF block input format: unit decoder `parseEntries`, filename table
builder `parseFilenameTable`, the worker-pool scheduler of
`initializeIfNeeded`, and the consumer-facing `generate`).

Conventions of the embedding:
* machine integers are `Nat` with explicit `% 2 ^ 64` / `% 2 ^ 32` at the
  points where the C++ stores into a fixed-width integer;
* the DWARF byte stream is a `List Nat` (one `Nat` per byte, each < 256 for
  well-formed inputs; reads are bounds-checked exactly like llvm's
  `DataExtractor`, which reports an error past the end of the section);
* fallible code returns `Except Err`;
* the C++ `std::vector` DIE stack is a Lean `List` whose HEAD is the TOP of
  the stack (`push_back` = cons, `pop_back` = tail, iterating from
  `size - 1` down to `0` = iterating the Lean list left to right);
* column builders are plain Lean lists, appended at the right end, exactly
  in the order the C++ calls `insertValue` / `insertData` / `insertDefault`.

Code of the surrounding project that is not part of the source file
(llvm's `DWARFFormValue` extraction, `getAsReference`, the `.debug_line`
prologue parser, the column containers) is modelled from the spec; each
such definition carries a doc comment starting with `Modelled from the
spec:`.
-/

namespace DWARFBlockInputFormat

/-! ## DWARF constants (the numeric codes of the llvm enums used by the source) -/

def DW_FORM_addr : Nat := 0x01
def DW_FORM_block2 : Nat := 0x03
def DW_FORM_block4 : Nat := 0x04
def DW_FORM_data2 : Nat := 0x05
def DW_FORM_data4 : Nat := 0x06
def DW_FORM_data8 : Nat := 0x07
def DW_FORM_string : Nat := 0x08
def DW_FORM_block : Nat := 0x09
def DW_FORM_block1 : Nat := 0x0a
def DW_FORM_data1 : Nat := 0x0b
def DW_FORM_flag : Nat := 0x0c
def DW_FORM_sdata : Nat := 0x0d
def DW_FORM_strp : Nat := 0x0e
def DW_FORM_udata : Nat := 0x0f
def DW_FORM_ref_addr : Nat := 0x10
def DW_FORM_ref1 : Nat := 0x11
def DW_FORM_ref2 : Nat := 0x12
def DW_FORM_ref4 : Nat := 0x13
def DW_FORM_ref8 : Nat := 0x14
def DW_FORM_ref_udata : Nat := 0x15
def DW_FORM_indirect : Nat := 0x16
def DW_FORM_sec_offset : Nat := 0x17
def DW_FORM_exprloc : Nat := 0x18
def DW_FORM_flag_present : Nat := 0x19
def DW_FORM_strx : Nat := 0x1a
def DW_FORM_addrx : Nat := 0x1b
def DW_FORM_ref_sup4 : Nat := 0x1c
def DW_FORM_strp_sup : Nat := 0x1d
def DW_FORM_data16 : Nat := 0x1e
def DW_FORM_line_strp : Nat := 0x1f
def DW_FORM_ref_sig8 : Nat := 0x20
def DW_FORM_implicit_const : Nat := 0x21
def DW_FORM_loclistx : Nat := 0x22
def DW_FORM_rnglistx : Nat := 0x23
def DW_FORM_ref_sup8 : Nat := 0x24
def DW_FORM_strx1 : Nat := 0x25
def DW_FORM_strx2 : Nat := 0x26
def DW_FORM_strx3 : Nat := 0x27
def DW_FORM_strx4 : Nat := 0x28
def DW_FORM_addrx1 : Nat := 0x29
def DW_FORM_addrx2 : Nat := 0x2a
def DW_FORM_addrx3 : Nat := 0x2b
def DW_FORM_addrx4 : Nat := 0x2c
def DW_FORM_GNU_addr_index : Nat := 0x1f01
def DW_FORM_GNU_str_index : Nat := 0x1f02
def DW_FORM_GNU_ref_alt : Nat := 0x1f20
def DW_FORM_GNU_strp_alt : Nat := 0x1f21
def DW_FORM_LLVM_addrx_offset : Nat := 0x2001

def DW_AT_name : Nat := 0x03
def DW_AT_stmt_list : Nat := 0x10
def DW_AT_language : Nat := 0x13
def DW_AT_decl_file : Nat := 0x3a
def DW_AT_decl_line : Nat := 0x3b
def DW_AT_encoding : Nat := 0x3e
def DW_AT_call_file : Nat := 0x58
def DW_AT_linkage_name : Nat := 0x6e

def DW_TAG_compile_unit : Nat := 0x11
def DW_TAG_subprogram : Nat := 0x2e

/-! ## Byte-level primitives

Modelled after llvm's `DataExtractor` with `IsLittleEndian = true` and
`AddressSize = 8`, which is how the source constructs its extractors.
All reads are bounds-checked: reading past the end of the section fails
(`none`), which the source turns into a `CANNOT_PARSE_DWARF` exception. -/

/-- Read one byte; fails past the end of the section. -/
def getByte (bytes : List Nat) (offset : Nat) : Option Nat :=
  bytes.get? offset

/-- Little-endian fixed-width read of `n` bytes starting at `offset`.
Returns the value and the new offset. -/
def getFixed (bytes : List Nat) (offset n : Nat) : Option (Nat × Nat) :=
  if offset + n ≤ bytes.length then
    some ((List.range n).foldr (fun i acc => acc * 256 + (bytes.getD (offset + i) 0)) 0,
      offset + n)
  else
    none

/-- Unsigned LEB128 decoder (llvm `getULEB128`): reads bytes while the high
bit is set; the accumulated value is truncated to 64 bits as llvm does.
The `fuel` argument only bounds the recursion; `getULEB` supplies enough. -/
def getULEBAux (bytes : List Nat) : Nat → Nat → Nat → Nat → Option (Nat × Nat)
  | 0, _, _, _ => none
  | fuel + 1, offset, shift, acc =>
    match getByte bytes offset with
    | none => none
    | some b =>
      let acc' := acc + (b % 128) * 2 ^ shift
      if b < 128 then some (acc' % 2 ^ 64, offset + 1)
      else getULEBAux bytes fuel (offset + 1) (shift + 7) acc'

/-- Unsigned LEB128 at `offset`; returns `(value mod 2^64, new offset)`. -/
def getULEB (bytes : List Nat) (offset : Nat) : Option (Nat × Nat) :=
  getULEBAux bytes (bytes.length + 1 - offset) offset 0 0

/-- Signed LEB128 (llvm `getSLEB128`), with the result represented as the
64-bit two's-complement unsigned value (that is what `getRawUValue` sees). -/
def getSLEBAux (bytes : List Nat) : Nat → Nat → Nat → Nat → Option (Nat × Nat)
  | 0, _, _, _ => none
  | fuel + 1, offset, shift, acc =>
    match getByte bytes offset with
    | none => none
    | some b =>
      let acc' := acc + (b % 128) * 2 ^ shift
      if b < 128 then
        let v := if b % 128 < 64 then acc' else acc' + (2 ^ 64 - 2 ^ (shift + 7) % 2 ^ 64 % 2 ^ 64)
        some (v % 2 ^ 64, offset + 1)
      else getSLEBAux bytes fuel (offset + 1) (shift + 7) acc'

/-- Signed LEB128 at `offset`. -/
def getSLEB (bytes : List Nat) (offset : Nat) : Option (Nat × Nat) :=
  getSLEBAux bytes (bytes.length + 1 - offset) offset 0 0

/-- Read a NUL-terminated byte string starting at `offset`; returns the bytes
before the NUL and the offset just past the NUL. Fails if no NUL is found
before the end of the section. -/
def getCStrAux (bytes : List Nat) : Nat → Nat → List Nat → Option (List Nat × Nat)
  | 0, _, _ => none
  | fuel + 1, offset, acc =>
    match getByte bytes offset with
    | none => none
    | some 0 => some (acc, offset + 1)
    | some b => getCStrAux bytes fuel (offset + 1) (acc ++ [b])

/-- NUL-terminated string read. -/
def getCStr (bytes : List Nat) (offset : Nat) : Option (List Nat × Nat) :=
  getCStrAux bytes (bytes.length + 1 - offset) offset []

/-- Byte list rendered as a string, the way `insertData(data, size)` stores
raw bytes into a string column. -/
def bytesToString (bs : List Nat) : String :=
  String.mk (bs.map Char.ofNat)

/-! ## Data model -/

/-- The exception kinds thrown by the source (`CANNOT_PARSE_DWARF`,
`LOGICAL_ERROR`), plus the `std::out_of_range` raised by
`column_name_to_idx.at(name)` on an unknown column name. -/
inductive Err where
  | cannotParseDwarf (msg : String)
  | logicalError (msg : String)
  | unknownColumnName (name : String)
deriving DecidableEq, Repr

/-- One attribute declaration of an abbreviation
(llvm `DWARFAbbreviationDeclaration::AttributeSpec`): the attribute code,
the declared form, and the implicit-const value when the form is
`DW_FORM_implicit_const`. -/
structure AttrSpec where
  attr : Nat
  form : Nat
  implicitConstValue : Int := 0
deriving DecidableEq, Repr

/-- One abbreviation declaration: tag, has-children flag, attribute list. -/
structure Abbrev where
  tag : Nat
  hasChildren : Bool
  attrs : List AttrSpec
deriving DecidableEq, Repr

/-- Entry of the unit's DIE ancestor stack (`UnitState::StackEntry`). -/
structure StackEntry where
  offset : Nat
  tag : Nat
deriving DecidableEq, Repr

/-- Modelled from the spec: the result of llvm's `.debug_line` prologue
parser (`DWARFDebugLine::Prologue`), which is external to the source file.
The spec needs only the DWARF version and the `FileNames` entries; a
`none` entry stands for a filename whose decoding failed (the source
inserts the literal string `<error>` for it). -/
structure Prologue where
  version : Nat
  fileNames : List (Option String)
deriving DecidableEq, Repr

/-- The sections the embedded decoder reads. `line` is `none` when the input
has no `.debug_line` section; when present it maps a section offset to the
parsed prologue (`none` result = prologue parse failure). -/
structure Env where
  info : List Nat
  strSection : List Nat
  lineStrSection : List Nat
  line : Option (List (Nat × Prologue))
deriving DecidableEq, Repr

/-- Per-compilation-unit decoding state (`DWARFBlockInputFormat::UnitState`).
The abbreviation table is pre-extracted at construction (the llvm call is
not thread safe, so the source does it during initialization); it is an
association list from abbreviation code to declaration. -/
structure UnitState where
  unitOffset : Nat
  endOffset : Nat
  offset : Nat
  stack : List StackEntry
  abbrevs : List (Nat × Abbrev)
  filename_table : Option (List String) := none
  filename_table_size : Nat := 0
  unit_name : String := ""
deriving DecidableEq, Repr

/-- End-of-unit test (`UnitState::eof`). -/
def UnitState.eof (u : UnitState) : Bool :=
  u.offset == u.endOffset

/-- The value of one extracted attribute (llvm `DWARFFormValue` after
`extractValue`): the resolved form (after `DW_FORM_indirect`), the raw
unsigned 64-bit value, the block payload for block forms, and the
C-string payload for string forms (`none` = `getAsCString` failed). -/
structure FormValue where
  form : Nat
  rawU : Nat := 0
  block : List Nat := []
  cstr : Option String := none
deriving DecidableEq, Repr

/-! ## Form classes

These lists are exactly the case lists of the `switch (val.getForm())`
in `parseEntries` (source lines 407-538). -/

def intClassForms : List Nat :=
  [DW_FORM_data2, DW_FORM_data4, DW_FORM_data8, DW_FORM_data1, DW_FORM_sdata,
   DW_FORM_udata, DW_FORM_data16, DW_FORM_flag, DW_FORM_flag_present,
   DW_FORM_loclistx, DW_FORM_rnglistx, DW_FORM_sec_offset, DW_FORM_implicit_const]

def addrClassForms : List Nat :=
  [DW_FORM_addr, DW_FORM_addrx, DW_FORM_addrx1, DW_FORM_addrx2, DW_FORM_addrx3,
   DW_FORM_addrx4, DW_FORM_GNU_addr_index, DW_FORM_LLVM_addrx_offset]

def blockClassForms : List Nat :=
  [DW_FORM_block2, DW_FORM_block4, DW_FORM_block, DW_FORM_block1, DW_FORM_exprloc]

def strClassForms : List Nat :=
  [DW_FORM_string, DW_FORM_strp, DW_FORM_strx, DW_FORM_strp_sup, DW_FORM_line_strp,
   DW_FORM_strx1, DW_FORM_strx2, DW_FORM_strx3, DW_FORM_strx4,
   DW_FORM_GNU_str_index, DW_FORM_GNU_strp_alt]

def refClassForms : List Nat :=
  [DW_FORM_ref_addr, DW_FORM_ref1, DW_FORM_ref2, DW_FORM_ref4, DW_FORM_ref8,
   DW_FORM_ref_udata, DW_FORM_ref_sup4, DW_FORM_ref_sig8, DW_FORM_ref_sup8,
   DW_FORM_GNU_ref_alt]

/-- The reference forms whose wire value is relative to the start of the
enclosing unit (DWARF `DW_FORM_ref1..8`, `DW_FORM_ref_udata`). -/
def unitRelativeRefForms : List Nat :=
  [DW_FORM_ref1, DW_FORM_ref2, DW_FORM_ref4, DW_FORM_ref8, DW_FORM_ref_udata]

/-! ## Form-value extraction

Modelled from the spec: the underlying DWARF primitive decoder
(llvm `DWARFFormValue::extractValue` and its accessors) is an external
library ("form extraction ... assumed available as a library", spec section 1).
The byte widths follow the DWARF standard with the parameters the source
fixes: little-endian, 8-byte addresses, DWARF32 (4-byte section offsets).
Unsupported position-indexed forms fail to extract, which the source maps
to `CANNOT_PARSE_DWARF`. -/

/-- How a given form's payload is laid out on the wire: fixed-width,
LEB128, inline C string, 4-byte pointer into `.debug_str` /
`.debug_line_str`, length-counted block, zero-width, indirection, or
unsupported (position-indexed forms this embedding does not carry). -/
inductive FormKind where
  | fixed (n : Nat)
  | uleb
  | sleb
  | inlineStr
  | strpStr
  | lineStrpStr
  | blockFixed (n : Nat)
  | blockUleb
  | flagPresentKind
  | implicitKind
  | indirectKind
  | unsupported
deriving DecidableEq, Repr

/-- The wire layout of each form, with the parameters the source fixes:
little-endian, 8-byte addresses, DWARF32 (4-byte section offsets). -/
def formKind (form : Nat) : FormKind :=
  if form = DW_FORM_flag_present then .flagPresentKind
  else if form = DW_FORM_implicit_const then .implicitKind
  else if form = DW_FORM_data1 ∨ form = DW_FORM_ref1 ∨ form = DW_FORM_flag then .fixed 1
  else if form = DW_FORM_data2 ∨ form = DW_FORM_ref2 then .fixed 2
  else if form = DW_FORM_data4 ∨ form = DW_FORM_ref4 ∨ form = DW_FORM_sec_offset ∨
      form = DW_FORM_ref_addr ∨ form = DW_FORM_ref_sup4 ∨ form = DW_FORM_GNU_ref_alt then
    .fixed 4
  else if form = DW_FORM_data8 ∨ form = DW_FORM_ref8 ∨ form = DW_FORM_ref_sig8 ∨
      form = DW_FORM_ref_sup8 ∨ form = DW_FORM_addr then
    .fixed 8
  else if form = DW_FORM_udata ∨ form = DW_FORM_ref_udata ∨ form = DW_FORM_loclistx ∨
      form = DW_FORM_rnglistx then
    .uleb
  else if form = DW_FORM_sdata then .sleb
  else if form = DW_FORM_data16 then .fixed 16
  else if form = DW_FORM_string then .inlineStr
  else if form = DW_FORM_strp then .strpStr
  else if form = DW_FORM_line_strp then .lineStrpStr
  else if form = DW_FORM_block1 then .blockFixed 1
  else if form = DW_FORM_block2 then .blockFixed 2
  else if form = DW_FORM_block4 then .blockFixed 4
  else if form = DW_FORM_block ∨ form = DW_FORM_exprloc then .blockUleb
  else if form = DW_FORM_indirect then .indirectKind
  else .unsupported

/-- Modelled from the spec: extraction of a single attribute value at a
cursor, advancing the cursor. `DW_FORM_indirect` reads a ULEB form code and
restarts on that form, so the resolved `FormValue.form` can differ from the
declared form. `fuel` bounds the indirect chain; each indirection consumes
at least one byte. -/
def extractValue (env : Env) (implicitConstValue : Int) :
    Nat → Nat → Nat → Option (FormValue × Nat)
  | 0, _, _ => none
  | fuel + 1, form, offset =>
    match formKind form with
    | .flagPresentKind => some ({ form := form, rawU := 1 }, offset)
    | .implicitKind =>
      some ({ form := form, rawU := (implicitConstValue % (2 ^ 64 : Int)).toNat }, offset)
    | .fixed n =>
      (getFixed env.info offset n).map fun (v, o) => ({ form := form, rawU := v }, o)
    | .uleb =>
      (getULEB env.info offset).map fun (v, o) => ({ form := form, rawU := v }, o)
    | .sleb =>
      (getSLEB env.info offset).map fun (v, o) => ({ form := form, rawU := v }, o)
    | .inlineStr =>
      (getCStr env.info offset).map fun (bs, o) =>
        ({ form := form, cstr := some (bytesToString bs) }, o)
    | .strpStr =>
      match getFixed env.info offset 4 with
      | none => none
      | some (v, o) =>
        some ({ form := form, rawU := v,
                cstr := (getCStr env.strSection v).map fun (bs, _) => bytesToString bs }, o)
    | .lineStrpStr =>
      match getFixed env.info offset 4 with
      | none => none
      | some (v, o) =>
        some ({ form := form, rawU := v,
                cstr := (getCStr env.lineStrSection v).map fun (bs, _) => bytesToString bs }, o)
    | .blockFixed k =>
      match getFixed env.info offset k with
      | none => none
      | some (n, o) =>
        if o + n ≤ env.info.length then
          some ({ form := form, rawU := n, block := (env.info.drop o).take n }, o + n)
        else none
    | .blockUleb =>
      match getULEB env.info offset with
      | none => none
      | some (n, o) =>
        if o + n ≤ env.info.length then
          some ({ form := form, rawU := n, block := (env.info.drop o).take n }, o + n)
        else none
    | .indirectKind =>
      match getULEB env.info offset with
      | none => none
      | some (f, o) => extractValue env implicitConstValue fuel f o
    | .unsupported => none

/-- Modelled from the spec: llvm `DWARFFormValue::getAsSectionOffset`, used
for the `DW_AT_stmt_list` value; section-offset-class forms expose their
raw value as a section offset. -/
def getAsSectionOffset (fv : FormValue) : Option Nat :=
  if fv.form = DW_FORM_sec_offset ∨ fv.form = DW_FORM_data4 ∨ fv.form = DW_FORM_data8 then
    some fv.rawU
  else none

/-- Modelled from the spec: llvm `DWARFFormValue::getAsAddress`; `DW_FORM_addr`
carries the address directly, the indexed address forms resolve through
`.debug_addr`, which this embedding does not carry (they yield `none`, and
the source then stores 0 via `value_or(0)`). -/
def getAsAddress (fv : FormValue) : Option Nat :=
  if fv.form = DW_FORM_addr then some fv.rawU else none

/-- Modelled from the spec: llvm `DWARFFormValue::getAsBlock`:
the payload of block/exprloc forms. -/
def getAsBlock (fv : FormValue) : Option (List Nat) :=
  if fv.form ∈ blockClassForms then some fv.block else none

/-- Modelled from the spec: llvm `DWARFFormValue::getAsReference`, which the
spec describes as: "For references, the target offset is always normalized
to be `.debug_info`-absolute, even when the wire form is unit-relative."
Unit-relative forms add the enclosing unit's `.debug_info` offset; the other
reference forms carry an absolute value. -/
def getAsReference (u : UnitState) (fv : FormValue) : Option Nat :=
  if fv.form ∈ unitRelativeRefForms then some ((u.unitOffset + fv.rawU) % 2 ^ 64)
  else if fv.form ∈ refClassForms then some fv.rawU
  else none

/-- Modelled from the spec: llvm `dwarf::LanguageString` with the `DW_LANG_`
text stripped (spec section 4.C); only the entries the development
exercises are listed, every other code yields the empty string exactly like
`LanguageString` does for unassigned codes. -/
def languageString (code : Nat) : String :=
  if code = 0x01 then "C89"
  else if code = 0x02 then "C"
  else if code = 0x04 then "C_plus_plus"
  else ""

/-- Modelled from the spec: llvm `dwarf::AttributeEncodingString` with the
`DW_ATE_` text stripped (spec section 4.C). -/
def attributeEncodingString (code : Nat) : String :=
  if code = 0x05 then "signed"
  else if code = 0x08 then "unsigned_char"
  else ""

/-! ## Columns -/

/-- The `DwarfColumn` enum of the source. -/
def COL_OFFSET : Nat := 0
def COL_SIZE : Nat := 1
def COL_TAG : Nat := 2
def COL_UNIT_NAME : Nat := 3
def COL_UNIT_OFFSET : Nat := 4
def COL_ANCESTOR_TAGS : Nat := 5
def COL_ANCESTOR_OFFSETS : Nat := 6
def COL_NAME : Nat := 7
def COL_LINKAGE_NAME : Nat := 8
def COL_DECL_FILE : Nat := 9
def COL_DECL_LINE : Nat := 10
def COL_ATTR_NAME : Nat := 11
def COL_ATTR_FORM : Nat := 12
def COL_ATTR_INT : Nat := 13
def COL_ATTR_STR : Nat := 14
def COL_COUNT : Nat := 15

/-- The column names of the fixed schema, in `DwarfColumn` order
(`getHeaderForDWARF`). -/
def columnNames : List String :=
  ["offset", "size", "tag", "unit_name", "unit_offset",
   "ancestor_tags", "ancestor_offsets",
   "name", "linkage_name", "decl_file", "decl_line",
   "attr_name", "attr_form", "attr_int", "attr_str"]

/-- The name-to-index map (`getColumnNameToIdx`); `none` corresponds to the
`std::out_of_range` thrown by `std::unordered_map::at`. -/
def columnNameToIdx (name : String) : Option Nat :=
  if name = "offset" then some COL_OFFSET
  else if name = "size" then some COL_SIZE
  else if name = "tag" then some COL_TAG
  else if name = "unit_name" then some COL_UNIT_NAME
  else if name = "unit_offset" then some COL_UNIT_OFFSET
  else if name = "ancestor_tags" then some COL_ANCESTOR_TAGS
  else if name = "ancestor_offsets" then some COL_ANCESTOR_OFFSETS
  else if name = "name" then some COL_NAME
  else if name = "linkage_name" then some COL_LINKAGE_NAME
  else if name = "decl_file" then some COL_DECL_FILE
  else if name = "decl_line" then some COL_DECL_LINE
  else if name = "attr_name" then some COL_ATTR_NAME
  else if name = "attr_form" then some COL_ATTR_FORM
  else if name = "attr_int" then some COL_ATTR_INT
  else if name = "attr_str" then some COL_ATTR_STR
  else none

/-- Which columns the consumer requested (the source's
`std::array<bool, COL_COUNT> need`). -/
structure Need where
  offset : Bool := false
  size : Bool := false
  tag : Bool := false
  unit_name : Bool := false
  unit_offset : Bool := false
  ancestor_tags : Bool := false
  ancestor_offsets : Bool := false
  name : Bool := false
  linkage_name : Bool := false
  decl_file : Bool := false
  decl_line : Bool := false
  attr_name : Bool := false
  attr_form : Bool := false
  attr_int : Bool := false
  attr_str : Bool := false
deriving DecidableEq, Repr

/-- Setting `need[i] = true` by column index. -/
def setNeed (n : Need) (i : Nat) : Need :=
  if i = COL_OFFSET then { n with offset := true }
  else if i = COL_SIZE then { n with size := true }
  else if i = COL_TAG then { n with tag := true }
  else if i = COL_UNIT_NAME then { n with unit_name := true }
  else if i = COL_UNIT_OFFSET then { n with unit_offset := true }
  else if i = COL_ANCESTOR_TAGS then { n with ancestor_tags := true }
  else if i = COL_ANCESTOR_OFFSETS then { n with ancestor_offsets := true }
  else if i = COL_NAME then { n with name := true }
  else if i = COL_LINKAGE_NAME then { n with linkage_name := true }
  else if i = COL_DECL_FILE then { n with decl_file := true }
  else if i = COL_DECL_LINE then { n with decl_line := true }
  else if i = COL_ATTR_NAME then { n with attr_name := true }
  else if i = COL_ATTR_FORM then { n with attr_form := true }
  else if i = COL_ATTR_INT then { n with attr_int := true }
  else if i = COL_ATTR_STR then { n with attr_str := true }
  else n

/-- The `need` computation at the top of `parseEntries` (source lines
303-305): every requested header name is resolved through the map, and an
unknown name throws. -/
def computeNeed : List String → Need → Except Err Need
  | [], n => .ok n
  | name :: rest, n =>
    match columnNameToIdx name with
    | none => .error (.unknownColumnName name)
    | some i => computeNeed rest (setNeed n i)

/-- The owner-column propagation rules (source lines 308-312): requesting
any of `attr_form` / `attr_int` / `attr_str` forces `attr_name` on, and
requesting `ancestor_offsets` forces `ancestor_tags` on. -/
def applyForcing (n : Need) : Need :=
  let n1 := if n.attr_form || n.attr_int || n.attr_str then { n with attr_name := true } else n
  if n1.ancestor_offsets then { n1 with ancestor_tags := true } else n1

/-- Conditional append: `if (need[COL]) col->insert(x)`. -/
def app {α : Type} (c : Bool) (l : List α) (x : α) : List α :=
  if c then l ++ [x] else l

/-- The column builders of `parseEntries` (source lines 314-328), as plain
lists. Dictionary-encoded builders hold the dictionary indices; `col_attr_str`
holds the strings themselves (the source's per-chunk low-cardinality column). -/
structure Builders where
  col_offset : List Nat := []
  col_size : List Nat := []
  col_tag : List Nat := []
  col_ancestor_tags : List Nat := []
  col_ancestor_dwarf_offsets : List Nat := []
  col_ancestor_array_offsets : List Nat := []
  col_name : List String := []
  col_linkage_name : List String := []
  col_decl_file : List Nat := []
  col_decl_line : List Nat := []
  col_attr_name : List Nat := []
  col_attr_form : List Nat := []
  col_attr_int : List Nat := []
  col_attr_str : List String := []
  col_attr_offsets : List Nat := []
deriving DecidableEq, Repr

/-- The in-flight state while decoding one DIE: unit, builders, and the
one-shot "still needed" flags of the convenience columns. -/
structure PState where
  unit : UnitState
  b : Builders
  need_name : Bool
  need_linkage_name : Bool
  need_decl_file : Bool
  need_decl_line : Bool
deriving DecidableEq, Repr

/-! ## Filename table (`parseFilenameTable`) -/

/-- The filename table builder (`DWARFBlockInputFormat::parseFilenameTable`):
looks up the `.debug_line` prologue at the given offset; index 0 of the dict
is the empty string, DWARF version at most 4 reserves index 1 as a second
empty entry, then every prologue filename follows (a failed entry becomes
the literal string `<error>`); `filename_table_size` is the dict size minus
one. The prologue parse itself is llvm code, modelled by `Env.line`. -/
def parseFilenameTable (env : Env) (unit : UnitState) (off : Nat) :
    Except Err UnitState :=
  match env.line with
  | none => .error (.cannotParseDwarf ("There are DW_AT_stmt_list but no .debug_line section"))
  | some prologues =>
    match prologues.lookup off with
    | none => .error (.cannotParseDwarf ("Failed to parse .debug_line unit prologue"))
    | some p =>
      let col : List String :=
        [""] ++ (if p.version ≤ 4 then [""] else [])
          ++ p.fileNames.map (fun e => e.getD ("<error>"))
      .ok { unit with filename_table := some col, filename_table_size := col.length - 1 }

/-- The `DW_AT_stmt_list` hook inside the attribute loop (source lines
399-405): on the first `DW_AT_stmt_list` of the unit, extract the value as a
section offset and build the filename table; a value with no section-offset
interpretation is ignored. -/
def maybeParseFilenameTable (env : Env) (a : AttrSpec) (fv : FormValue)
    (u : UnitState) : Except Err UnitState :=
  if a.attr = DW_AT_stmt_list ∧ u.filename_table = none then
    match getAsSectionOffset fv with
    | some off => parseFilenameTable env u off
    | none => .ok u
  else .ok u

/-! ## Attribute projection (the `switch (val.getForm())` of `parseEntries`) -/

/-- The integer projection class (source lines 409-453): raw value into
`attr_int`; `DW_AT_decl_line` fills the convenience column (truncated to
32 bits); `DW_AT_decl_file` / `DW_AT_call_file` with a raw value inside the
filename table stringify through `filename_table[raw + 1]` and fill the
`decl_file` convenience column with index `raw + 1`; `DW_AT_language` and
`DW_AT_encoding` stringify through the enum name tables. -/
def projectInt (need : Need) (a : AttrSpec) (fv : FormValue) (st : PState) : PState :=
  let b1 := { st.b with col_attr_int := app need.attr_int st.b.col_attr_int fv.rawU }
  let b2 := if a.attr = DW_AT_decl_line ∧ st.need_decl_line then
      { b1 with col_decl_line := b1.col_decl_line ++ [fv.rawU % 2 ^ 32] }
    else b1
  let ndl := if a.attr = DW_AT_decl_line then false else st.need_decl_line
  if (a.attr = DW_AT_decl_file ∨ a.attr = DW_AT_call_file) ∧
      fv.rawU < st.unit.filename_table_size then
    let idx := fv.rawU + 1
    let b3 := if a.attr = DW_AT_decl_file ∧ st.need_decl_file then
        { b2 with col_decl_file := b2.col_decl_file ++ [idx] }
      else b2
    let ndf := if a.attr = DW_AT_decl_file then false else st.need_decl_file
    let tbl := st.unit.filename_table.getD []
    let b4 := { b3 with col_attr_str := app need.attr_str b3.col_attr_str (tbl.getD idx ("")) }
    { st with b := b4, need_decl_line := ndl, need_decl_file := ndf }
  else
    let b3 :=
      if need.attr_str then
        if a.attr = DW_AT_language then
          { b2 with col_attr_str := b2.col_attr_str ++ [languageString fv.rawU] }
        else if a.attr = DW_AT_encoding then
          { b2 with col_attr_str := b2.col_attr_str ++ [attributeEncodingString fv.rawU] }
        else
          { b2 with col_attr_str := b2.col_attr_str ++ [""] }
      else b2
    { st with b := b3, need_decl_line := ndl }

/-- The address projection class (source lines 455-467): resolved address
(0 if none) into `attr_int`, default into `attr_str`. -/
def projectAddr (need : Need) (fv : FormValue) (st : PState) : PState :=
  let b1 := { st.b with
    col_attr_int := app need.attr_int st.b.col_attr_int ((getAsAddress fv).getD 0) }
  let b2 := { b1 with col_attr_str := app need.attr_str b1.col_attr_str ("") }
  { st with b := b2 }

/-- The block projection class (source lines 469-480): raw bytes into
`attr_str`, default into `attr_int`. -/
def projectBlock (need : Need) (fv : FormValue) (st : PState) : PState :=
  let slice := (getAsBlock fv).getD []
  let b1 := { st.b with
    col_attr_str := app need.attr_str st.b.col_attr_str (bytesToString slice) }
  let b2 := { b1 with col_attr_int := app need.attr_int b1.col_attr_int 0 }
  { st with b := b2 }

/-- The string projection class (source lines 482-515): a failed C-string
resolution throws; `DW_AT_name` fills the `name` convenience column once and
always captures the compile-unit name; `DW_AT_linkage_name` fills
`linkage_name` once; the string goes into `attr_str`, default into
`attr_int`. -/
def projectStr (need : Need) (a : AttrSpec) (fv : FormValue) (tag : Nat)
    (st : PState) : Except Err PState :=
  match fv.cstr with
  | none => .error (.cannotParseDwarf ("Error parsing string attribute"))
  | some s =>
    let st1 :=
      if a.attr = DW_AT_name then
        let b := if st.need_name then { st.b with col_name := st.b.col_name ++ [s] } else st.b
        let u := if tag = DW_TAG_compile_unit then { st.unit with unit_name := s } else st.unit
        { st with b := b, unit := u, need_name := false }
      else st
    let st2 :=
      if a.attr = DW_AT_linkage_name ∧ st1.need_linkage_name then
        { st1 with
          b := { st1.b with col_linkage_name := st1.b.col_linkage_name ++ [s] },
          need_linkage_name := false }
      else st1
    let b1 := { st2.b with col_attr_str := app need.attr_str st2.b.col_attr_str s }
    let b2 := { b1 with col_attr_int := app need.attr_int b1.col_attr_int 0 }
    .ok { st2 with b := b2 }

/-- The reference projection class (source lines 517-533): the
`.debug_info`-absolute target offset (`getAsReference().value_or(0)`) into
`attr_int`, default into `attr_str`. -/
def projectRef (need : Need) (fv : FormValue) (st : PState) : PState :=
  let b1 := { st.b with
    col_attr_int := app need.attr_int st.b.col_attr_int ((getAsReference st.unit fv).getD 0) }
  let b2 := { b1 with col_attr_str := app need.attr_str b1.col_attr_str ("") }
  { st with b := b2 }

/-- The fallback projection (source lines 535-537): defaults into both. -/
def projectDefault (need : Need) (st : PState) : PState :=
  let b1 := { st.b with col_attr_int := app need.attr_int st.b.col_attr_int 0 }
  let b2 := { b1 with col_attr_str := app need.attr_str b1.col_attr_str ("") }
  { st with b := b2 }

/-- The five projection classes of the value switch (source lines 407-538),
dispatching on the extracted form `val.getForm()`, which can differ from the
declared form under `DW_FORM_indirect`. -/
def projectValue (need : Need) (a : AttrSpec) (fv : FormValue) (tag : Nat)
    (st : PState) : Except Err PState :=
  if fv.form ∈ intClassForms then .ok (projectInt need a fv st)
  else if fv.form ∈ addrClassForms then .ok (projectAddr need fv st)
  else if fv.form ∈ blockClassForms then .ok (projectBlock need fv st)
  else if fv.form ∈ strClassForms then projectStr need a fv tag st
  else if fv.form ∈ refClassForms then .ok (projectRef need fv st)
  else .ok (projectDefault need st)

/-- The cursor advance plus the `attr_name` / `attr_form` appends of the
attribute step (source lines 388-397): the attribute name and the DECLARED
form `attr.Form` are recorded. -/
def recordNameForm (need : Need) (a : AttrSpec) (offset' : Nat) (st : PState) : PState :=
  let b := { st.b with col_attr_name := app need.attr_name st.b.col_attr_name a.attr }
  let b := { b with col_attr_form := app need.attr_form b.col_attr_form a.form }
  { st with unit := { st.unit with offset := offset' }, b := b }

/-- Processing one declared attribute (source lines 384-538): extract the
value (advancing the cursor), record the attribute name and the DECLARED
form, hook `DW_AT_stmt_list`, then project the value by the EXTRACTED form. -/
def processAttr (env : Env) (need : Need) (tag : Nat) (st : PState)
    (a : AttrSpec) : Except Err (PState × FormValue) :=
  match extractValue env
      (if a.form = DW_FORM_implicit_const then a.implicitConstValue else 0)
      (env.info.length + 1) a.form st.unit.offset with
  | none => .error (.cannotParseDwarf ("Failed to parse attribute"))
  | some (fv, offset') =>
    let stA := recordNameForm need a offset' st
    match maybeParseFilenameTable env a fv stA.unit with
    | .error e => .error e
    | .ok u =>
      match projectValue need a fv tag { stA with unit := u } with
      | .error e => .error e
      | .ok st' => .ok (st', fv)

/-- The attribute loop `for (auto attr : abbrev->attributes())`. -/
def processAttrs (env : Env) (need : Need) (tag : Nat) :
    PState → List AttrSpec → Except Err PState
  | st, [] => .ok st
  | st, a :: rest =>
    match processAttr env need tag st a with
    | .error e => .error e
    | .ok (st', _) => processAttrs env need tag st' rest

/-! ## The per-DIE step and the row loop of `parseEntries` -/

/-- The row prologue (source lines 335-347): emit the DIE offset and, when
ancestry is needed, the stack from top (innermost) to bottom into the
ancestor columns, then one entry into the shared ancestry offsets vector. -/
def emitOffsetAncestry (need : Need) (unit : UnitState) (b : Builders) : Builders :=
  let b := { b with col_offset := app need.offset b.col_offset unit.offset }
  if need.ancestor_tags then
    let tags := b.col_ancestor_tags ++ unit.stack.map (fun e => e.tag)
    let doffs :=
      if need.ancestor_offsets then
        b.col_ancestor_dwarf_offsets ++ unit.stack.map (fun e => e.offset)
      else b.col_ancestor_dwarf_offsets
    let b := { b with col_ancestor_tags := tags }
    let b := { b with col_ancestor_dwarf_offsets := doffs }
    { b with col_ancestor_array_offsets := b.col_ancestor_array_offsets ++ [tags.length] }
  else b

/-- The terminator row (source lines 352-363): size from the ULEB width,
tag 0, defaults into the convenience columns, and an empty
attribute-array slot. -/
def emitNullRow (need : Need) (die_offset offset1 : Nat) (b : Builders) : Builders :=
  let b := { b with col_size := app need.size b.col_size ((offset1 - die_offset) % 2 ^ 32) }
  let b := { b with col_tag := app need.tag b.col_tag 0 }
  let b := { b with col_name := app need.name b.col_name ("") }
  let b := { b with col_linkage_name := app need.linkage_name b.col_linkage_name ("") }
  let b := { b with col_decl_file := app need.decl_file b.col_decl_file 0 }
  let b := { b with col_decl_line := app need.decl_line b.col_decl_line 0 }
  { b with col_attr_offsets := app need.attr_name b.col_attr_offsets b.col_attr_name.length }

/-- The row epilogue after the attribute loop (source lines 541-549): size,
the attribute-array slot, and default fills for the convenience columns not
yet satisfied. -/
def emitEpilogue (need : Need) (die_offset : Nat) (st : PState) : Builders :=
  let b := st.b
  let b := { b with col_size := app need.size b.col_size ((st.unit.offset - die_offset) % 2 ^ 32) }
  let b := { b with col_attr_offsets := app need.attr_name b.col_attr_offsets b.col_attr_name.length }
  let b := { b with col_name := app st.need_name b.col_name ("") }
  let b := { b with col_linkage_name := app st.need_linkage_name b.col_linkage_name ("") }
  let b := { b with col_decl_file := app st.need_decl_file b.col_decl_file 0 }
  { b with col_decl_line := app st.need_decl_line b.col_decl_line 0 }

/-- One iteration of the row loop (source lines 334-553): emit offset and
ancestry, read the abbreviation code; code 0 is the sibling-list terminator
(default row, pop the stack, underflow throws), otherwise resolve the
abbreviation, run the attribute loop, emit size / attr offsets / leftover
convenience defaults, and push the DIE if it has children. -/
def parseOneDIE (env : Env) (need : Need) (unit : UnitState) (b : Builders) :
    Except Err (UnitState × Builders) :=
  let die_offset := unit.offset
  let b := emitOffsetAncestry need unit b
  match getULEB env.info unit.offset with
  | none => .error (.cannotParseDwarf ("Failed to parse DIE header"))
  | some (abbrev_code, offset1) =>
    let unit := { unit with offset := offset1 }
    if abbrev_code = 0 then
      let b := emitNullRow need die_offset offset1 b
      match unit.stack with
      | [] => .error (.cannotParseDwarf ("Stack underflow"))
      | _ :: rest => .ok ({ unit with stack := rest }, b)
    else
      match unit.abbrevs.lookup (abbrev_code % 2 ^ 32) with
      | none => .error (.cannotParseDwarf ("Abbrev code in DIE header is out of bounds"))
      | some abb =>
        if abbrev_code ≥ 2 ^ 32 then
          .error (.cannotParseDwarf ("Abbrev code in DIE header is out of bounds"))
        else
          let tag := abb.tag
          let st0 : PState :=
            { unit := unit, b := { b with col_tag := app need.tag b.col_tag tag },
              need_name := need.name,
              need_linkage_name := need.linkage_name, need_decl_file := need.decl_file,
              need_decl_line := need.decl_line }
          match processAttrs env need tag st0 abb.attrs with
          | .error e => .error e
          | .ok st =>
            let b := emitEpilogue need die_offset st
            let unit :=
              if abb.hasChildren then
                { st.unit with stack := StackEntry.mk die_offset tag :: st.unit.stack }
              else st.unit
            .ok (unit, b)

/-- The row loop `while (num_rows < 65536)` with the loop-bottom stack check
(source lines 332-561 and 555-560): the fuel is the remaining row budget,
`rows` the rows emitted so far. After each row: if the unit stack is empty,
require end-of-unit (otherwise throw) and break out. -/
def parseLoop (env : Env) (need : Need) :
    Nat → UnitState → Builders → Nat → Except Err (UnitState × Builders × Nat)
  | 0, unit, b, rows => .ok (unit, b, rows)
  | fuel + 1, unit, b, rows =>
    match parseOneDIE env need unit b with
    | .error e => .error e
    | .ok (unit', b') =>
      if unit'.stack.isEmpty then
        if unit'.eof then .ok (unit', b', rows + 1)
        else .error (.cannotParseDwarf ("Unexpected end of DIE tree"))
      else parseLoop env need fuel unit' b' (rows + 1)

/-! ## Chunk assembly -/

/-- One output column: the wrapping of a builder into the typed columnar
representation (source lines 563-641). Array columns carry their values
column plus the offsets vector they were created with; dictionary-encoded
columns carry their index vector (the tag/attr/form dictionaries are the
immutable process-wide registries); `decl_file` carries the per-unit
filename table dictionary (absent when it was never built) plus positions;
`unit_name` / `unit_offset` are the two-entry-dictionary constant columns
replicated `num_rows` times. -/
inductive Column where
  | u64 (vals : List Nat)
  | u32 (vals : List Nat)
  | lcTag (indices : List Nat)
  | lcStrConst (value : String) (numRows : Nat)
  | lcU64Const (value : Nat) (numRows : Nat)
  | strCol (vals : List String)
  | lcDeclFile (dict : Option (List String)) (positions : List Nat)
  | arrLC (indices : List Nat) (offsets : List Nat)
  | arrU64 (vals : List Nat) (offsets : List Nat)
  | arrStr (vals : List String) (offsets : List Nat)
deriving DecidableEq, Repr

/-- A delivered chunk: the requested columns in request order, plus the row
count (`Chunk(std::move(cols), num_rows)`). -/
structure Chunk where
  cols : List Column
  num_rows : Nat
deriving DecidableEq, Repr

/-- The per-column assembly switch (source lines 569-640), including its
`default:` branch, which throws `LOGICAL_ERROR` on a column index outside
the schema. -/
def buildColumn (unit : UnitState) (b : Builders) (num_rows : Nat) (i : Nat) :
    Except Err Column :=
  if i = COL_OFFSET then .ok (.u64 b.col_offset)
  else if i = COL_SIZE then .ok (.u32 b.col_size)
  else if i = COL_TAG then .ok (.lcTag b.col_tag)
  else if i = COL_UNIT_NAME then .ok (.lcStrConst unit.unit_name num_rows)
  else if i = COL_UNIT_OFFSET then .ok (.lcU64Const unit.unitOffset num_rows)
  else if i = COL_ANCESTOR_TAGS then
    .ok (.arrLC b.col_ancestor_tags b.col_ancestor_array_offsets)
  else if i = COL_ANCESTOR_OFFSETS then
    .ok (.arrU64 b.col_ancestor_dwarf_offsets b.col_ancestor_array_offsets)
  else if i = COL_NAME then .ok (.strCol b.col_name)
  else if i = COL_LINKAGE_NAME then .ok (.strCol b.col_linkage_name)
  else if i = COL_DECL_FILE then .ok (.lcDeclFile unit.filename_table b.col_decl_file)
  else if i = COL_DECL_LINE then .ok (.u32 b.col_decl_line)
  else if i = COL_ATTR_NAME then .ok (.arrLC b.col_attr_name b.col_attr_offsets)
  else if i = COL_ATTR_FORM then .ok (.arrLC b.col_attr_form b.col_attr_offsets)
  else if i = COL_ATTR_INT then .ok (.arrU64 b.col_attr_int b.col_attr_offsets)
  else if i = COL_ATTR_STR then .ok (.arrStr b.col_attr_str b.col_attr_offsets)
  else .error (.logicalError ("Unexpected column index"))

/-- Assembly of all requested columns in request order (source lines
566-641): each name goes through the name-to-index map (unknown throws) and
then through the per-column switch. -/
def assemble (unit : UnitState) (b : Builders) (num_rows : Nat) :
    List String → Except Err (List Column)
  | [] => .ok []
  | name :: rest =>
    match columnNameToIdx name with
    | none => .error (.unknownColumnName name)
    | some i =>
      match buildColumn unit b num_rows i with
      | .error e => .error e
      | .ok col =>
        match assemble unit b num_rows rest with
        | .error e => .error e
        | .ok cols => .ok (col :: cols)

/-- The unit decoder `DWARFBlockInputFormat::parseEntries`: derive the
needed-column set from the requested header names (with the owner-column
propagation rules), drain up to 65536 DIEs from the unit, then materialize
the requested columns. Returns the chunk together with the mutated unit
state. -/
def parseEntries (env : Env) (requested : List String) (unit : UnitState) :
    Except Err (Chunk × UnitState) :=
  match computeNeed requested {} with
  | .error e => .error e
  | .ok n =>
    let need := applyForcing n
    match parseLoop env need 65536 unit {} 0 with
    | .error e => .error e
    | .ok (unit', b, num_rows) =>
      match assemble unit' b num_rows requested with
      | .error e => .error e
      | .ok cols => .ok ({ cols := cols, num_rows := num_rows }, unit')

/-! ## The parallel scheduler and the generator

A transition system over the mutex-protected shared state of
`initializeIfNeeded` (source lines 230-279) and `generate` (source lines
682-718). Units and chunks are abstracted: a scheduler unit carries an id
and the number of chunks its DIE stream still yields (`parseEntries`
always emits at least one row, so every produced chunk is non-empty and is
pushed); the unit is at EOF after its last chunk. Worker identity does not
matter under the mutex, so the workers are kept as a ready count, the list
of units currently being decoded (one per busy worker), and a count of
workers that left the loop. -/

namespace Scheduler

/-- A unit as the scheduler sees it: an id and how many chunks
`parseEntries` still produces from it. -/
structure SUnit where
  uid : Nat
  chunksLeft : Nat
deriving DecidableEq, Repr

/-- The mutex-protected shared state: `units_queue`, `delivery_queue`
(chunk tokens), `units_in_progress`, `is_stopped`, `background_exception`,
plus the worker states. -/
structure SState where
  units_queue : List SUnit
  delivery_queue : List Nat
  units_in_progress : Nat
  is_stopped : Bool
  background_exception : Option Nat
  ready_workers : Nat
  decoding_workers : List SUnit
  done_workers : Nat
deriving DecidableEq, Repr

/-- The initial scheduler state right after `initializeIfNeeded` populated
the unit queue and spawned `n` workers. -/
def schedInit (n : Nat) (units : List SUnit) : SState :=
  { units_queue := units, delivery_queue := [], units_in_progress := 0,
    is_stopped := false, background_exception := none,
    ready_workers := n, decoding_workers := [], done_workers := 0 }

/-- The interleaved transitions of the worker loop (source lines 242-277)
and the consumer (source lines 696-717), each step being one critical
section under the mutex:
* `take`: a worker at the top of its loop sees a non-empty queue, no stop
  flag, and `delivery_queue.size() <= num_threads` (otherwise it waits on
  `wake_up_threads`), pops the front unit and starts decoding it;
* `publish`: a decoding worker finishes `parseEntries`, pushes its chunk
  to the delivery queue, and re-enqueues the unit at the FRONT of the unit
  queue when the unit is not yet at EOF;
* `exitLoop`: a worker whose loop condition fails (empty queue or stop
  flag) leaves the loop;
* `fail`: a decoding worker throws: the exception is stored and the worker
  ends inside its catch block (the source does not decrement
  `units_in_progress` there);
* `consumerChunk`: `generate` pops the front chunk;
* `consumerStop`: `is_stopped` is set (the `generate` scope guard on any
  non-chunk return, or `stopThreads`). -/
inductive Step (n : Nat) : SState → SState → Prop
  | take (s : SState) (u : SUnit) (rest : List SUnit)
      (hq : s.units_queue = u :: rest)
      (hr : 0 < s.ready_workers)
      (hs : s.is_stopped = false)
      (hd : s.delivery_queue.length ≤ n) :
      Step n s { s with
        units_queue := rest
        units_in_progress := s.units_in_progress + 1
        ready_workers := s.ready_workers - 1
        decoding_workers := u :: s.decoding_workers }
  | publish (s : SState) (l₁ l₂ : List SUnit) (u : SUnit)
      (hw : s.decoding_workers = l₁ ++ u :: l₂) :
      Step n s { s with
        decoding_workers := l₁ ++ l₂
        ready_workers := s.ready_workers + 1
        units_in_progress := s.units_in_progress - 1
        delivery_queue := s.delivery_queue ++ [u.uid]
        units_queue :=
          if u.chunksLeft ≤ 1 then s.units_queue
          else { uid := u.uid, chunksLeft := u.chunksLeft - 1 } :: s.units_queue }
  | exitLoop (s : SState)
      (hr : 0 < s.ready_workers)
      (h : s.units_queue = [] ∨ s.is_stopped = true) :
      Step n s { s with
        ready_workers := s.ready_workers - 1
        done_workers := s.done_workers + 1 }
  | fail (s : SState) (l₁ l₂ : List SUnit) (u : SUnit) (e : Nat)
      (hw : s.decoding_workers = l₁ ++ u :: l₂) :
      Step n s { s with
        decoding_workers := l₁ ++ l₂
        done_workers := s.done_workers + 1
        background_exception := some e }
  | consumerChunk (s : SState) (c : Nat) (rest : List Nat)
      (hs : s.is_stopped = false)
      (he : s.background_exception = none)
      (hd : s.delivery_queue = c :: rest) :
      Step n s { s with delivery_queue := rest }
  | consumerStop (s : SState) :
      Step n s { s with is_stopped := true }

/-- Reflexive-transitive reachability along scheduler steps. -/
inductive Reachable (n : Nat) : SState → SState → Prop
  | refl (s : SState) : Reachable n s s
  | tail {s t u : SState} : Reachable n s t → Step n t u → Reachable n s u

/-- What one `generate` call (source lines 686-717) returns. -/
inductive GenOutcome where
  | chunk (c : Nat)
  | eos
  | exn (e : Nat)
  | blocked
deriving DecidableEq, Repr

/-- One pass over the body of the `generate` loop, together with the scope
guard (source lines 687-694): `ok` is set only on the chunk-returning path,
so every other return sets `is_stopped` (and wakes the workers, which has
no effect on the modelled state). The checks happen in source order:
`is_stopped` first, then `background_exception`, then the delivery queue,
then end-of-work; otherwise the call blocks on `deliver_chunk`. -/
def generateOnce (s : SState) : SState × GenOutcome :=
  if s.is_stopped then ({ s with is_stopped := true }, .eos)
  else
    match s.background_exception with
    | some e => ({ s with is_stopped := true }, .exn e)
    | none =>
      match s.delivery_queue with
      | c :: rest => ({ s with delivery_queue := rest }, .chunk c)
      | [] =>
        if s.units_queue.isEmpty && s.units_in_progress == 0 then
          ({ s with is_stopped := true }, .eos)
        else (s, .blocked)

end Scheduler

/-! ## Bounds lemmas for the byte-level primitives -/

theorem getFixed_bounds {bytes : List Nat} {offset n v o' : Nat}
    (h : getFixed bytes offset n = some (v, o')) :
    offset ≤ o' ∧ o' ≤ bytes.length := by
  unfold getFixed at h
  split at h
  · simp only [Option.some.injEq, Prod.mk.injEq] at h
    omega
  · exact absurd h (by simp)

theorem getULEBAux_bounds {bytes : List Nat} :
    ∀ {fuel offset shift acc v o'},
      getULEBAux bytes fuel offset shift acc = some (v, o') →
      offset < o' ∧ o' ≤ bytes.length := by
  intro fuel
  induction fuel with
  | zero => intro offset shift acc v o' h; simp [getULEBAux] at h
  | succ fuel ih =>
    intro offset shift acc v o' h
    unfold getULEBAux at h
    cases hb : getByte bytes offset with
    | none => rw [hb] at h; simp at h
    | some b =>
      rw [hb] at h
      have hlt : offset < bytes.length := by
        have := List.get?_eq_some.mp hb
        exact this.1
      simp only at h
      split at h
      · simp only [Option.some.injEq, Prod.mk.injEq] at h
        omega
      · have := ih h
        omega

theorem getULEB_bounds {bytes : List Nat} {offset v o' : Nat}
    (h : getULEB bytes offset = some (v, o')) :
    offset < o' ∧ o' ≤ bytes.length :=
  getULEBAux_bounds h

theorem getSLEBAux_bounds {bytes : List Nat} :
    ∀ {fuel offset shift acc v o'},
      getSLEBAux bytes fuel offset shift acc = some (v, o') →
      offset < o' ∧ o' ≤ bytes.length := by
  intro fuel
  induction fuel with
  | zero => intro offset shift acc v o' h; simp [getSLEBAux] at h
  | succ fuel ih =>
    intro offset shift acc v o' h
    unfold getSLEBAux at h
    cases hb : getByte bytes offset with
    | none => rw [hb] at h; simp at h
    | some b =>
      rw [hb] at h
      have hlt : offset < bytes.length := by
        have := List.get?_eq_some.mp hb
        exact this.1
      simp only at h
      split at h
      · simp only [Option.some.injEq, Prod.mk.injEq] at h
        omega
      · have := ih h
        omega

theorem getSLEB_bounds {bytes : List Nat} {offset v o' : Nat}
    (h : getSLEB bytes offset = some (v, o')) :
    offset < o' ∧ o' ≤ bytes.length :=
  getSLEBAux_bounds h

theorem getCStrAux_bounds {bytes : List Nat} :
    ∀ {fuel offset acc bs o'},
      getCStrAux bytes fuel offset acc = some (bs, o') →
      offset < o' ∧ o' ≤ bytes.length := by
  intro fuel
  induction fuel with
  | zero => intro offset acc bs o' h; simp [getCStrAux] at h
  | succ fuel ih =>
    intro offset acc bs o' h
    unfold getCStrAux at h
    cases hb : getByte bytes offset with
    | none => rw [hb] at h; simp at h
    | some b =>
      rw [hb] at h
      have hlt : offset < bytes.length := by
        have := List.get?_eq_some.mp hb
        exact this.1
      match b, h with
      | 0, h =>
        simp only [Option.some.injEq, Prod.mk.injEq] at h
        omega
      | b + 1, h =>
        have := ih h
        omega

theorem getCStr_bounds {bytes : List Nat} {offset : Nat} {bs : List Nat} {o' : Nat}
    (h : getCStr bytes offset = some (bs, o')) :
    offset < o' ∧ o' ≤ bytes.length :=
  getCStrAux_bounds h

/-- The extractor only moves the cursor forward and never past the end of
`.debug_info`. -/
theorem extractValue_bounds (env : Env) (icv : Int) :
    ∀ {fuel form offset fv o'},
      offset ≤ env.info.length →
      extractValue env icv fuel form offset = some (fv, o') →
      offset ≤ o' ∧ o' ≤ env.info.length := by
  intro fuel
  induction fuel with
  | zero => intro form offset fv o' _ h; simp [extractValue] at h
  | succ fuel ih =>
    intro form offset fv o' hoff h
    unfold extractValue at h
    split at h
    · simp only [Option.some.injEq, Prod.mk.injEq] at h
      omega
    · simp only [Option.some.injEq, Prod.mk.injEq] at h
      omega
    · rcases Option.map_eq_some'.mp h with ⟨⟨v, o⟩, hg, he⟩
      have := getFixed_bounds hg
      simp only [Prod.mk.injEq] at he
      omega
    · rcases Option.map_eq_some'.mp h with ⟨⟨v, o⟩, hg, he⟩
      have := getULEB_bounds hg
      simp only [Prod.mk.injEq] at he
      omega
    · rcases Option.map_eq_some'.mp h with ⟨⟨v, o⟩, hg, he⟩
      have := getSLEB_bounds hg
      simp only [Prod.mk.injEq] at he
      omega
    · rcases Option.map_eq_some'.mp h with ⟨⟨bs, o⟩, hg, he⟩
      have := getCStr_bounds hg
      simp only [Prod.mk.injEq] at he
      omega
    · cases hg : getFixed env.info offset 4 with
      | none => rw [hg] at h; exact absurd h (by simp)
      | some vo =>
        obtain ⟨v, o⟩ := vo
        rw [hg] at h
        have := getFixed_bounds hg
        simp only [Option.some.injEq, Prod.mk.injEq] at h
        omega
    · cases hg : getFixed env.info offset 4 with
      | none => rw [hg] at h; exact absurd h (by simp)
      | some vo =>
        obtain ⟨v, o⟩ := vo
        rw [hg] at h
        have := getFixed_bounds hg
        simp only [Option.some.injEq, Prod.mk.injEq] at h
        omega
    · rename_i k hk
      cases hg : getFixed env.info offset k with
      | none => rw [hg] at h; exact absurd h (by simp)
      | some vo =>
        obtain ⟨n, o⟩ := vo
        rw [hg] at h
        have := getFixed_bounds hg
        dsimp only at h
        split at h
        · simp only [Option.some.injEq, Prod.mk.injEq] at h
          omega
        · exact absurd h (by simp)
    · cases hg : getULEB env.info offset with
      | none => rw [hg] at h; exact absurd h (by simp)
      | some vo =>
        obtain ⟨n, o⟩ := vo
        rw [hg] at h
        have := getULEB_bounds hg
        dsimp only at h
        split at h
        · simp only [Option.some.injEq, Prod.mk.injEq] at h
          omega
        · exact absurd h (by simp)
    · cases hg : getULEB env.info offset with
      | none => rw [hg] at h; exact absurd h (by simp)
      | some vo =>
        obtain ⟨f, o⟩ := vo
        rw [hg] at h
        have hb := getULEB_bounds hg
        dsimp only at h
        have := ih hb.2 h
        omega
    · exact absurd h (by simp)

/-! ## Effect lemmas for the attribute projection -/

/-- Length of a conditional append. -/
theorem app_length {α : Type} (c : Bool) (l : List α) (x : α) :
    (app c l x).length = l.length + (if c then 1 else 0) := by
  unfold app; split <;> simp

/-- A conditional append extends its list. -/
theorem app_isPre {α : Type} (c : Bool) (l : List α) (x : α) :
    ∃ t, app c l x = l ++ t ∧ ∀ y ∈ t, y = x := by
  unfold app
  split
  · exact ⟨[x], rfl, by simp⟩
  · exact ⟨[], by simp, by simp⟩

/-- What every projection-class step does to the state: the unit cursor,
stack and filename table are untouched, the row-level builders are
untouched, `attr_int` / `attr_str` each gain exactly one entry when needed,
and each convenience column preserves the sum of its length and its
still-needed flag (the one-shot discipline of the source). -/
structure ProjEffect (need : Need) (st st' : PState) : Prop where
  unit_unitOffset : st'.unit.unitOffset = st.unit.unitOffset
  unit_endOffset : st'.unit.endOffset = st.unit.endOffset
  unit_offset : st'.unit.offset = st.unit.offset
  unit_stack : st'.unit.stack = st.unit.stack
  unit_abbrevs : st'.unit.abbrevs = st.unit.abbrevs
  unit_table : st'.unit.filename_table = st.unit.filename_table
  unit_tsize : st'.unit.filename_table_size = st.unit.filename_table_size
  col_offset : st'.b.col_offset = st.b.col_offset
  col_size : st'.b.col_size = st.b.col_size
  col_tag : st'.b.col_tag = st.b.col_tag
  anc_tags : st'.b.col_ancestor_tags = st.b.col_ancestor_tags
  anc_doffs : st'.b.col_ancestor_dwarf_offsets = st.b.col_ancestor_dwarf_offsets
  anc_aoffs : st'.b.col_ancestor_array_offsets = st.b.col_ancestor_array_offsets
  attr_offsets : st'.b.col_attr_offsets = st.b.col_attr_offsets
  attr_name : st'.b.col_attr_name = st.b.col_attr_name
  attr_form : st'.b.col_attr_form = st.b.col_attr_form
  attr_int_len : st'.b.col_attr_int.length
    = st.b.col_attr_int.length + (if need.attr_int then 1 else 0)
  attr_str_len : st'.b.col_attr_str.length
    = st.b.col_attr_str.length + (if need.attr_str then 1 else 0)
  name_conserve : st'.b.col_name.length + (if st'.need_name then 1 else 0)
    = st.b.col_name.length + (if st.need_name then 1 else 0)
  linkage_conserve : st'.b.col_linkage_name.length + (if st'.need_linkage_name then 1 else 0)
    = st.b.col_linkage_name.length + (if st.need_linkage_name then 1 else 0)
  declfile_conserve : st'.b.col_decl_file.length + (if st'.need_decl_file then 1 else 0)
    = st.b.col_decl_file.length + (if st.need_decl_file then 1 else 0)
  declline_conserve : st'.b.col_decl_line.length + (if st'.need_decl_line then 1 else 0)
    = st.b.col_decl_line.length + (if st.need_decl_line then 1 else 0)
  declfile_zero : st.unit.filename_table_size = 0 → st'.b.col_decl_file = st.b.col_decl_file

set_option maxHeartbeats 2000000 in
theorem projectInt_effect (need : Need) (a : AttrSpec) (fv : FormValue) (st : PState) :
    ProjEffect need st (projectInt need a fv st) := by
  unfold projectInt
  split_ifs with h1 h2 h3 h4 h5 h6 <;>
    (constructor <;>
      simp_all [app_length, DW_AT_decl_file, DW_AT_decl_line, DW_AT_call_file] <;>
      try omega)

theorem projectAddr_effect (need : Need) (fv : FormValue) (st : PState) :
    ProjEffect need st (projectAddr need fv st) := by
  unfold projectAddr
  constructor <;> simp_all [app_length] <;> try omega

theorem projectBlock_effect (need : Need) (fv : FormValue) (st : PState) :
    ProjEffect need st (projectBlock need fv st) := by
  unfold projectBlock
  constructor <;> simp_all [app_length] <;> try omega

theorem projectRef_effect (need : Need) (fv : FormValue) (st : PState) :
    ProjEffect need st (projectRef need fv st) := by
  unfold projectRef
  constructor <;> simp_all [app_length] <;> try omega

theorem projectDefault_effect (need : Need) (st : PState) :
    ProjEffect need st (projectDefault need st) := by
  unfold projectDefault
  constructor <;> simp_all [app_length] <;> try omega

theorem projectStr_effect (need : Need) (a : AttrSpec) (fv : FormValue) (tag : Nat)
    (st st' : PState) (h : projectStr need a fv tag st = .ok st') :
    ProjEffect need st st' := by
  unfold projectStr at h
  cases hc : fv.cstr with
  | none => rw [hc] at h; exact absurd h (by simp)
  | some s =>
    rw [hc] at h
    simp only [Except.ok.injEq] at h
    subst h
    split_ifs with h1 h2 h3 h4 <;>
      (constructor <;>
        simp_all [app_length, DW_AT_name, DW_AT_linkage_name, DW_TAG_compile_unit] <;>
        try omega)

theorem projectValue_effect (need : Need) (a : AttrSpec) (fv : FormValue) (tag : Nat)
    (st st' : PState) (h : projectValue need a fv tag st = .ok st') :
    ProjEffect need st st' := by
  unfold projectValue at h
  split_ifs at h
  · simp only [Except.ok.injEq] at h; subst h; exact projectInt_effect need a fv st
  · simp only [Except.ok.injEq] at h; subst h; exact projectAddr_effect need fv st
  · simp only [Except.ok.injEq] at h; subst h; exact projectBlock_effect need fv st
  · exact projectStr_effect need a fv tag st st' h
  · simp only [Except.ok.injEq] at h; subst h; exact projectRef_effect need fv st
  · simp only [Except.ok.injEq] at h; subst h; exact projectDefault_effect need st

/-! ## Effect lemmas for the filename-table hook and one attribute step -/

theorem parseFilenameTable_fields {env : Env} {unit : UnitState} {off : Nat} {u' : UnitState}
    (h : parseFilenameTable env unit off = .ok u') :
    u'.unitOffset = unit.unitOffset ∧ u'.endOffset = unit.endOffset ∧
    u'.offset = unit.offset ∧ u'.stack = unit.stack ∧ u'.abbrevs = unit.abbrevs ∧
    u'.unit_name = unit.unit_name := by
  unfold parseFilenameTable at h
  cases hl : env.line with
  | none => rw [hl] at h; exact absurd h (by simp)
  | some prologues =>
    rw [hl] at h
    dsimp only at h
    cases hp : prologues.lookup off with
    | none => rw [hp] at h; exact absurd h (by simp)
    | some p =>
      rw [hp] at h
      simp only [Except.ok.injEq] at h
      subst h
      simp

theorem maybeParseFilenameTable_not_stmt {env : Env} {a : AttrSpec} {fv : FormValue}
    {u : UnitState} (h : a.attr ≠ DW_AT_stmt_list) :
    maybeParseFilenameTable env a fv u = .ok u := by
  unfold maybeParseFilenameTable
  simp [h]

theorem maybeParseFilenameTable_fields {env : Env} {a : AttrSpec} {fv : FormValue}
    {u u' : UnitState} (h : maybeParseFilenameTable env a fv u = .ok u') :
    u'.unitOffset = u.unitOffset ∧ u'.endOffset = u.endOffset ∧
    u'.offset = u.offset ∧ u'.stack = u.stack ∧ u'.abbrevs = u.abbrevs ∧
    u'.unit_name = u.unit_name := by
  unfold maybeParseFilenameTable at h
  split_ifs at h
  · cases hs : getAsSectionOffset fv with
    | none => rw [hs] at h; simp only [Except.ok.injEq] at h; subst h; exact ⟨rfl, rfl, rfl, rfl, rfl, rfl⟩
    | some off =>
      rw [hs] at h
      exact parseFilenameTable_fields h
  · simp only [Except.ok.injEq] at h; subst h; exact ⟨rfl, rfl, rfl, rfl, rfl, rfl⟩

/-- The cumulative effect of processing one declared attribute. -/
structure AttrEffect (env : Env) (need : Need) (a : AttrSpec) (st st' : PState) : Prop where
  unit_unitOffset : st'.unit.unitOffset = st.unit.unitOffset
  unit_endOffset : st'.unit.endOffset = st.unit.endOffset
  unit_stack : st'.unit.stack = st.unit.stack
  unit_abbrevs : st'.unit.abbrevs = st.unit.abbrevs
  offset_mono : st.unit.offset ≤ env.info.length →
    st.unit.offset ≤ st'.unit.offset ∧ st'.unit.offset ≤ env.info.length
  table_stable : a.attr ≠ DW_AT_stmt_list →
    st'.unit.filename_table = st.unit.filename_table ∧
    st'.unit.filename_table_size = st.unit.filename_table_size
  col_offset : st'.b.col_offset = st.b.col_offset
  col_size : st'.b.col_size = st.b.col_size
  col_tag : st'.b.col_tag = st.b.col_tag
  anc_tags : st'.b.col_ancestor_tags = st.b.col_ancestor_tags
  anc_doffs : st'.b.col_ancestor_dwarf_offsets = st.b.col_ancestor_dwarf_offsets
  anc_aoffs : st'.b.col_ancestor_array_offsets = st.b.col_ancestor_array_offsets
  attr_offsets : st'.b.col_attr_offsets = st.b.col_attr_offsets
  attr_name : st'.b.col_attr_name = app need.attr_name st.b.col_attr_name a.attr
  attr_form : st'.b.col_attr_form = app need.attr_form st.b.col_attr_form a.form
  attr_int_len : st'.b.col_attr_int.length
    = st.b.col_attr_int.length + (if need.attr_int then 1 else 0)
  attr_str_len : st'.b.col_attr_str.length
    = st.b.col_attr_str.length + (if need.attr_str then 1 else 0)
  name_conserve : st'.b.col_name.length + (if st'.need_name then 1 else 0)
    = st.b.col_name.length + (if st.need_name then 1 else 0)
  linkage_conserve : st'.b.col_linkage_name.length + (if st'.need_linkage_name then 1 else 0)
    = st.b.col_linkage_name.length + (if st.need_linkage_name then 1 else 0)
  declfile_conserve : st'.b.col_decl_file.length + (if st'.need_decl_file then 1 else 0)
    = st.b.col_decl_file.length + (if st.need_decl_file then 1 else 0)
  declline_conserve : st'.b.col_decl_line.length + (if st'.need_decl_line then 1 else 0)
    = st.b.col_decl_line.length + (if st.need_decl_line then 1 else 0)
  declfile_zero : a.attr ≠ DW_AT_stmt_list → st.unit.filename_table_size = 0 →
    st'.b.col_decl_file = st.b.col_decl_file

theorem recordNameForm_fields (need : Need) (a : AttrSpec) (offset' : Nat) (st : PState) :
    (recordNameForm need a offset' st).unit.unitOffset = st.unit.unitOffset ∧
    (recordNameForm need a offset' st).unit.endOffset = st.unit.endOffset ∧
    (recordNameForm need a offset' st).unit.offset = offset' ∧
    (recordNameForm need a offset' st).unit.stack = st.unit.stack ∧
    (recordNameForm need a offset' st).unit.abbrevs = st.unit.abbrevs ∧
    (recordNameForm need a offset' st).unit.filename_table = st.unit.filename_table ∧
    (recordNameForm need a offset' st).unit.filename_table_size = st.unit.filename_table_size ∧
    (recordNameForm need a offset' st).b
      = { st.b with
          col_attr_name := app need.attr_name st.b.col_attr_name a.attr,
          col_attr_form := app need.attr_form st.b.col_attr_form a.form } ∧
    (recordNameForm need a offset' st).need_name = st.need_name ∧
    (recordNameForm need a offset' st).need_linkage_name = st.need_linkage_name ∧
    (recordNameForm need a offset' st).need_decl_file = st.need_decl_file ∧
    (recordNameForm need a offset' st).need_decl_line = st.need_decl_line := by
  unfold recordNameForm
  refine ⟨rfl, rfl, rfl, rfl, rfl, rfl, rfl, ?_, rfl, rfl, rfl, rfl⟩
  simp [app]

theorem processAttr_effect {env : Env} {need : Need} {tag : Nat} {st : PState}
    {a : AttrSpec} {st' : PState} {fv : FormValue}
    (h : processAttr env need tag st a = .ok (st', fv)) :
    AttrEffect env need a st st' := by
  unfold processAttr at h
  cases hx : extractValue env
      (if a.form = DW_FORM_implicit_const then a.implicitConstValue else 0)
      (env.info.length + 1) a.form st.unit.offset with
  | none => rw [hx] at h; exact absurd h (by simp)
  | some p =>
    obtain ⟨fv0, offset'⟩ := p
    rw [hx] at h
    dsimp only at h
    cases hm : maybeParseFilenameTable env a fv0 (recordNameForm need a offset' st).unit with
    | error e => rw [hm] at h; exact absurd h (by simp)
    | ok u =>
      rw [hm] at h
      dsimp only at h
      cases hp : projectValue need a fv0 tag
          { recordNameForm need a offset' st with unit := u } with
      | error e => rw [hp] at h; exact absurd h (by simp)
      | ok stP =>
        rw [hp] at h
        simp only [Except.ok.injEq, Prod.mk.injEq] at h
        obtain ⟨h1, h2⟩ := h
        subst h1
        subst h2
        have hrec := recordNameForm_fields need a offset' st
        obtain ⟨r1, r2, r3, r4, r5, r6, r7, r8, r9, r10, r11, r12⟩ := hrec
        have hmf := maybeParseFilenameTable_fields hm
        obtain ⟨m1, m2, m3, m4, m5, m6⟩ := hmf
        have hpe := projectValue_effect need a fv0 tag _ _ hp
        constructor
        case unit_unitOffset => rw [hpe.unit_unitOffset]; dsimp only; rw [m1, r1]
        case unit_endOffset => rw [hpe.unit_endOffset]; dsimp only; rw [m2, r2]
        case unit_stack => rw [hpe.unit_stack]; dsimp only; rw [m4, r4]
        case unit_abbrevs => rw [hpe.unit_abbrevs]; dsimp only; rw [m5, r5]
        case offset_mono =>
          intro hoff
          have hb := extractValue_bounds env
            (if a.form = DW_FORM_implicit_const then a.implicitConstValue else 0) hoff hx
          rw [hpe.unit_offset]
          dsimp only
          rw [m3, r3]
          exact hb
        case table_stable =>
          intro hne
          have hid := @maybeParseFilenameTable_not_stmt env a fv0
            (recordNameForm need a offset' st).unit hne
          rw [hid] at hm
          simp only [Except.ok.injEq] at hm
          subst hm
          constructor
          · rw [hpe.unit_table]; dsimp only; rw [r6]
          · rw [hpe.unit_tsize]; dsimp only; rw [r7]
        case col_offset => rw [hpe.col_offset]; dsimp only; rw [r8]
        case col_size => rw [hpe.col_size]; dsimp only; rw [r8]
        case col_tag => rw [hpe.col_tag]; dsimp only; rw [r8]
        case anc_tags => rw [hpe.anc_tags]; dsimp only; rw [r8]
        case anc_doffs => rw [hpe.anc_doffs]; dsimp only; rw [r8]
        case anc_aoffs => rw [hpe.anc_aoffs]; dsimp only; rw [r8]
        case attr_offsets => rw [hpe.attr_offsets]; dsimp only; rw [r8]
        case attr_name => rw [hpe.attr_name]; dsimp only; rw [r8]
        case attr_form => rw [hpe.attr_form]; dsimp only; rw [r8]
        case attr_int_len => rw [hpe.attr_int_len]; dsimp only; rw [r8]
        case attr_str_len => rw [hpe.attr_str_len]; dsimp only; rw [r8]
        case name_conserve => rw [hpe.name_conserve]; dsimp only; rw [r8, r9]
        case linkage_conserve => rw [hpe.linkage_conserve]; dsimp only; rw [r8, r10]
        case declfile_conserve => rw [hpe.declfile_conserve]; dsimp only; rw [r8, r11]
        case declline_conserve => rw [hpe.declline_conserve]; dsimp only; rw [r8, r12]
        case declfile_zero =>
          intro hne hz
          have hid := @maybeParseFilenameTable_not_stmt env a fv0
            (recordNameForm need a offset' st).unit hne
          rw [hid] at hm
          simp only [Except.ok.injEq] at hm
          subst hm
          have := hpe.declfile_zero (by dsimp only; rw [r7]; exact hz)
          rw [this]
          dsimp only
          rw [r8]

/-! ## Effect of the whole attribute loop -/

/-- The cumulative effect of the attribute loop over a declared attribute
list. -/
structure AttrsEffect (env : Env) (need : Need) (as : List AttrSpec)
    (st st' : PState) : Prop where
  unit_unitOffset : st'.unit.unitOffset = st.unit.unitOffset
  unit_endOffset : st'.unit.endOffset = st.unit.endOffset
  unit_stack : st'.unit.stack = st.unit.stack
  unit_abbrevs : st'.unit.abbrevs = st.unit.abbrevs
  offset_mono : st.unit.offset ≤ env.info.length →
    st.unit.offset ≤ st'.unit.offset ∧ st'.unit.offset ≤ env.info.length
  table_stable : (∀ a ∈ as, a.attr ≠ DW_AT_stmt_list) →
    st'.unit.filename_table = st.unit.filename_table ∧
    st'.unit.filename_table_size = st.unit.filename_table_size
  col_offset : st'.b.col_offset = st.b.col_offset
  col_size : st'.b.col_size = st.b.col_size
  col_tag : st'.b.col_tag = st.b.col_tag
  anc_tags : st'.b.col_ancestor_tags = st.b.col_ancestor_tags
  anc_doffs : st'.b.col_ancestor_dwarf_offsets = st.b.col_ancestor_dwarf_offsets
  anc_aoffs : st'.b.col_ancestor_array_offsets = st.b.col_ancestor_array_offsets
  attr_offsets : st'.b.col_attr_offsets = st.b.col_attr_offsets
  attr_name_len : st'.b.col_attr_name.length
    = st.b.col_attr_name.length + (if need.attr_name then as.length else 0)
  attr_form_len : st'.b.col_attr_form.length
    = st.b.col_attr_form.length + (if need.attr_form then as.length else 0)
  attr_int_len : st'.b.col_attr_int.length
    = st.b.col_attr_int.length + (if need.attr_int then as.length else 0)
  attr_str_len : st'.b.col_attr_str.length
    = st.b.col_attr_str.length + (if need.attr_str then as.length else 0)
  name_conserve : st'.b.col_name.length + (if st'.need_name then 1 else 0)
    = st.b.col_name.length + (if st.need_name then 1 else 0)
  linkage_conserve : st'.b.col_linkage_name.length + (if st'.need_linkage_name then 1 else 0)
    = st.b.col_linkage_name.length + (if st.need_linkage_name then 1 else 0)
  declfile_conserve : st'.b.col_decl_file.length + (if st'.need_decl_file then 1 else 0)
    = st.b.col_decl_file.length + (if st.need_decl_file then 1 else 0)
  declline_conserve : st'.b.col_decl_line.length + (if st'.need_decl_line then 1 else 0)
    = st.b.col_decl_line.length + (if st.need_decl_line then 1 else 0)
  declfile_zero : (∀ a ∈ as, a.attr ≠ DW_AT_stmt_list) →
    st.unit.filename_table_size = 0 → st'.b.col_decl_file = st.b.col_decl_file

theorem attrsEffect_nil (env : Env) (need : Need) (st : PState) :
    AttrsEffect env need [] st st where
  unit_unitOffset := rfl
  unit_endOffset := rfl
  unit_stack := rfl
  unit_abbrevs := rfl
  offset_mono := fun h => ⟨le_rfl, h⟩
  table_stable := fun _ => ⟨rfl, rfl⟩
  col_offset := rfl
  col_size := rfl
  col_tag := rfl
  anc_tags := rfl
  anc_doffs := rfl
  anc_aoffs := rfl
  attr_offsets := rfl
  attr_name_len := by simp
  attr_form_len := by simp
  attr_int_len := by simp
  attr_str_len := by simp
  name_conserve := rfl
  linkage_conserve := rfl
  declfile_conserve := rfl
  declline_conserve := rfl
  declfile_zero := fun _ _ => rfl

theorem attrsEffect_cons {env : Env} {need : Need} {a : AttrSpec} {rest : List AttrSpec}
    {st st1 st' : PState}
    (e1 : AttrEffect env need a st st1)
    (e2 : AttrsEffect env need rest st1 st') :
    AttrsEffect env need (a :: rest) st st' := by
  constructor
  case unit_unitOffset => rw [e2.unit_unitOffset, e1.unit_unitOffset]
  case unit_endOffset => rw [e2.unit_endOffset, e1.unit_endOffset]
  case unit_stack => rw [e2.unit_stack, e1.unit_stack]
  case unit_abbrevs => rw [e2.unit_abbrevs, e1.unit_abbrevs]
  case offset_mono =>
    intro h
    obtain ⟨h1, h2⟩ := e1.offset_mono h
    obtain ⟨h3, h4⟩ := e2.offset_mono h2
    exact ⟨le_trans h1 h3, h4⟩
  case table_stable =>
    intro hall
    have ha := hall a (by simp)
    have hrest : ∀ x ∈ rest, x.attr ≠ DW_AT_stmt_list := fun x hx => hall x (by simp [hx])
    obtain ⟨t1, t2⟩ := e1.table_stable ha
    obtain ⟨t3, t4⟩ := e2.table_stable hrest
    exact ⟨t3.trans t1, t4.trans t2⟩
  case col_offset => rw [e2.col_offset, e1.col_offset]
  case col_size => rw [e2.col_size, e1.col_size]
  case col_tag => rw [e2.col_tag, e1.col_tag]
  case anc_tags => rw [e2.anc_tags, e1.anc_tags]
  case anc_doffs => rw [e2.anc_doffs, e1.anc_doffs]
  case anc_aoffs => rw [e2.anc_aoffs, e1.anc_aoffs]
  case attr_offsets => rw [e2.attr_offsets, e1.attr_offsets]
  case attr_name_len =>
    have h1 := congrArg List.length e1.attr_name
    rw [app_length] at h1
    have h2 := e2.attr_name_len
    rw [h2, h1]
    cases need.attr_name <;> simp <;> omega
  case attr_form_len =>
    have h1 := congrArg List.length e1.attr_form
    rw [app_length] at h1
    have h2 := e2.attr_form_len
    rw [h2, h1]
    cases need.attr_form <;> simp <;> omega
  case attr_int_len =>
    have h1 := e1.attr_int_len
    have h2 := e2.attr_int_len
    rw [h2, h1]
    cases need.attr_int <;> simp <;> omega
  case attr_str_len =>
    have h1 := e1.attr_str_len
    have h2 := e2.attr_str_len
    rw [h2, h1]
    cases need.attr_str <;> simp <;> omega
  case name_conserve => exact e2.name_conserve.trans e1.name_conserve
  case linkage_conserve => exact e2.linkage_conserve.trans e1.linkage_conserve
  case declfile_conserve => exact e2.declfile_conserve.trans e1.declfile_conserve
  case declline_conserve => exact e2.declline_conserve.trans e1.declline_conserve
  case declfile_zero =>
    intro hall hz
    have ha := hall a (by simp)
    have hrest : ∀ x ∈ rest, x.attr ≠ DW_AT_stmt_list := fun x hx => hall x (by simp [hx])
    have hz1 : st1.unit.filename_table_size = 0 := by
      rw [(e1.table_stable ha).2]; exact hz
    exact (e2.declfile_zero hrest hz1).trans (e1.declfile_zero ha hz)

theorem processAttrs_effect {env : Env} {need : Need} {tag : Nat} :
    ∀ {as : List AttrSpec} {st st' : PState},
      processAttrs env need tag st as = .ok st' →
      AttrsEffect env need as st st'
  | [], st, st', h => by
    simp only [processAttrs, Except.ok.injEq] at h
    subst h
    exact attrsEffect_nil env need st
  | a :: rest, st, st', h => by
    unfold processAttrs at h
    cases hp : processAttr env need tag st a with
    | error e => rw [hp] at h; exact absurd h (by simp)
    | ok p =>
      obtain ⟨st1, fv⟩ := p
      rw [hp] at h
      dsimp only at h
      exact attrsEffect_cons (processAttr_effect hp) (processAttrs_effect h)

/-! ## Effect of one row-loop iteration -/

/-- No abbreviation of the table declares a `DW_AT_stmt_list` attribute
(this is the syntactic condition under which no DIE of the unit can carry
one). -/
def noStmtList (abbrevs : List (Nat × Abbrev)) : Prop :=
  ∀ c ab, (c, ab) ∈ abbrevs → ∀ a ∈ ab.attrs, a.attr ≠ DW_AT_stmt_list

theorem emitOffsetAncestry_fields (need : Need) (unit : UnitState) (b : Builders) :
    (emitOffsetAncestry need unit b).col_offset = app need.offset b.col_offset unit.offset ∧
    (emitOffsetAncestry need unit b).col_size = b.col_size ∧
    (emitOffsetAncestry need unit b).col_tag = b.col_tag ∧
    (emitOffsetAncestry need unit b).col_name = b.col_name ∧
    (emitOffsetAncestry need unit b).col_linkage_name = b.col_linkage_name ∧
    (emitOffsetAncestry need unit b).col_decl_file = b.col_decl_file ∧
    (emitOffsetAncestry need unit b).col_decl_line = b.col_decl_line ∧
    (emitOffsetAncestry need unit b).col_attr_name = b.col_attr_name ∧
    (emitOffsetAncestry need unit b).col_attr_form = b.col_attr_form ∧
    (emitOffsetAncestry need unit b).col_attr_int = b.col_attr_int ∧
    (emitOffsetAncestry need unit b).col_attr_str = b.col_attr_str ∧
    (emitOffsetAncestry need unit b).col_attr_offsets = b.col_attr_offsets ∧
    (emitOffsetAncestry need unit b).col_ancestor_tags.length
      = b.col_ancestor_tags.length + (if need.ancestor_tags then unit.stack.length else 0) ∧
    (emitOffsetAncestry need unit b).col_ancestor_dwarf_offsets.length
      = b.col_ancestor_dwarf_offsets.length
        + (if need.ancestor_tags && need.ancestor_offsets then unit.stack.length else 0) ∧
    (emitOffsetAncestry need unit b).col_ancestor_array_offsets
      = app need.ancestor_tags b.col_ancestor_array_offsets
          (emitOffsetAncestry need unit b).col_ancestor_tags.length := by
  unfold emitOffsetAncestry
  split_ifs with h1 h2 <;> simp_all [app]

theorem emitNullRow_fields (need : Need) (die_offset offset1 : Nat) (b : Builders) :
    (emitNullRow need die_offset offset1 b).col_offset = b.col_offset ∧
    (emitNullRow need die_offset offset1 b).col_size
      = app need.size b.col_size ((offset1 - die_offset) % 2 ^ 32) ∧
    (emitNullRow need die_offset offset1 b).col_tag = app need.tag b.col_tag 0 ∧
    (emitNullRow need die_offset offset1 b).col_name = app need.name b.col_name ("") ∧
    (emitNullRow need die_offset offset1 b).col_linkage_name
      = app need.linkage_name b.col_linkage_name ("") ∧
    (emitNullRow need die_offset offset1 b).col_decl_file = app need.decl_file b.col_decl_file 0 ∧
    (emitNullRow need die_offset offset1 b).col_decl_line = app need.decl_line b.col_decl_line 0 ∧
    (emitNullRow need die_offset offset1 b).col_attr_name = b.col_attr_name ∧
    (emitNullRow need die_offset offset1 b).col_attr_form = b.col_attr_form ∧
    (emitNullRow need die_offset offset1 b).col_attr_int = b.col_attr_int ∧
    (emitNullRow need die_offset offset1 b).col_attr_str = b.col_attr_str ∧
    (emitNullRow need die_offset offset1 b).col_attr_offsets
      = app need.attr_name b.col_attr_offsets b.col_attr_name.length ∧
    (emitNullRow need die_offset offset1 b).col_ancestor_tags = b.col_ancestor_tags ∧
    (emitNullRow need die_offset offset1 b).col_ancestor_dwarf_offsets
      = b.col_ancestor_dwarf_offsets ∧
    (emitNullRow need die_offset offset1 b).col_ancestor_array_offsets
      = b.col_ancestor_array_offsets := by
  unfold emitNullRow
  refine ⟨rfl, ?_, ?_, ?_, ?_, ?_, ?_, rfl, rfl, rfl, rfl, ?_, rfl, rfl, rfl⟩ <;> rfl

theorem emitEpilogue_fields (need : Need) (die_offset : Nat) (st : PState) :
    (emitEpilogue need die_offset st).col_offset = st.b.col_offset ∧
    (emitEpilogue need die_offset st).col_size
      = app need.size st.b.col_size ((st.unit.offset - die_offset) % 2 ^ 32) ∧
    (emitEpilogue need die_offset st).col_tag = st.b.col_tag ∧
    (emitEpilogue need die_offset st).col_name = app st.need_name st.b.col_name ("") ∧
    (emitEpilogue need die_offset st).col_linkage_name
      = app st.need_linkage_name st.b.col_linkage_name ("") ∧
    (emitEpilogue need die_offset st).col_decl_file
      = app st.need_decl_file st.b.col_decl_file 0 ∧
    (emitEpilogue need die_offset st).col_decl_line
      = app st.need_decl_line st.b.col_decl_line 0 ∧
    (emitEpilogue need die_offset st).col_attr_name = st.b.col_attr_name ∧
    (emitEpilogue need die_offset st).col_attr_form = st.b.col_attr_form ∧
    (emitEpilogue need die_offset st).col_attr_int = st.b.col_attr_int ∧
    (emitEpilogue need die_offset st).col_attr_str = st.b.col_attr_str ∧
    (emitEpilogue need die_offset st).col_attr_offsets
      = app need.attr_name st.b.col_attr_offsets st.b.col_attr_name.length ∧
    (emitEpilogue need die_offset st).col_ancestor_tags = st.b.col_ancestor_tags ∧
    (emitEpilogue need die_offset st).col_ancestor_dwarf_offsets
      = st.b.col_ancestor_dwarf_offsets ∧
    (emitEpilogue need die_offset st).col_ancestor_array_offsets
      = st.b.col_ancestor_array_offsets := by
  unfold emitEpilogue
  refine ⟨rfl, ?_, rfl, ?_, ?_, ?_, ?_, rfl, rfl, rfl, rfl, ?_, rfl, rfl, rfl⟩ <;> rfl

/-- The effect of one row-loop iteration on the unit state and builders. -/
structure DIEEffect (env : Env) (need : Need) (unit : UnitState) (b : Builders)
    (unit' : UnitState) (b' : Builders) : Prop where
  unit_unitOffset : unit'.unitOffset = unit.unitOffset
  unit_endOffset : unit'.endOffset = unit.endOffset
  unit_abbrevs : unit'.abbrevs = unit.abbrevs
  offset_mono : unit.offset ≤ env.info.length →
    unit.offset < unit'.offset ∧ unit'.offset ≤ env.info.length
  col_offset : b'.col_offset = app need.offset b.col_offset unit.offset
  col_size : b'.col_size = app need.size b.col_size ((unit'.offset - unit.offset) % 2 ^ 32)
  attr_offsets : b'.col_attr_offsets
    = app need.attr_name b.col_attr_offsets b'.col_attr_name.length
  attr_lens : ∃ k, b'.col_attr_name.length = b.col_attr_name.length
        + (if need.attr_name then k else 0)
      ∧ b'.col_attr_form.length = b.col_attr_form.length + (if need.attr_form then k else 0)
      ∧ b'.col_attr_int.length = b.col_attr_int.length + (if need.attr_int then k else 0)
      ∧ b'.col_attr_str.length = b.col_attr_str.length + (if need.attr_str then k else 0)
  declfile_len : b'.col_decl_file.length
    = b.col_decl_file.length + (if need.decl_file then 1 else 0)
  anc_aoffs : b'.col_ancestor_array_offsets
    = app need.ancestor_tags b.col_ancestor_array_offsets b'.col_ancestor_tags.length
  anc_tags_len : b'.col_ancestor_tags.length
    = b.col_ancestor_tags.length + (if need.ancestor_tags then unit.stack.length else 0)
  anc_doffs_len : b'.col_ancestor_dwarf_offsets.length
    = b.col_ancestor_dwarf_offsets.length
      + (if need.ancestor_tags && need.ancestor_offsets then unit.stack.length else 0)
  table_stable : noStmtList unit.abbrevs →
    unit'.filename_table = unit.filename_table ∧
    unit'.filename_table_size = unit.filename_table_size
  declfile_zero : noStmtList unit.abbrevs → unit.filename_table_size = 0 →
    b'.col_decl_file = app need.decl_file b.col_decl_file 0

theorem lookup_mem {α : Type} [BEq α] [LawfulBEq α] {β : Type} :
    ∀ {l : List (α × β)} {c : α} {ab : β}, l.lookup c = some ab → (c, ab) ∈ l
  | [], _, _, h => by simp [List.lookup] at h
  | (k, v) :: rest, c, ab, h => by
    rw [List.lookup] at h
    cases hk : (c == k) with
    | true =>
      rw [hk] at h
      dsimp only at h
      simp only [Option.some.injEq] at h
      subst h
      have : c = k := eq_of_beq hk
      subst this
      exact List.mem_cons_self _ _
    | false =>
      rw [hk] at h
      dsimp only at h
      exact List.mem_cons_of_mem _ (lookup_mem h)

set_option maxHeartbeats 1000000 in
theorem parseOneDIE_effect {env : Env} {need : Need} {unit : UnitState} {b : Builders}
    {unit' : UnitState} {b' : Builders}
    (h : parseOneDIE env need unit b = .ok (unit', b')) :
    DIEEffect env need unit b unit' b' := by
  unfold parseOneDIE at h
  cases hu : getULEB env.info unit.offset with
  | none => rw [hu] at h; exact absurd h (by simp)
  | some p =>
    obtain ⟨code, offset1⟩ := p
    rw [hu] at h
    dsimp only at h
    have hub := getULEB_bounds hu
    by_cases hc : code = 0
    · rw [if_pos hc] at h
      obtain ⟨o1, o2, o3, o4, o5, o6, o7, o8, o9, o10, o11, o12, o13, o14, o15⟩ :=
        emitOffsetAncestry_fields need unit b
      obtain ⟨n1, n2, n3, n4, n5, n6, n7, n8, n9, n10, n11, n12, n13, n14, n15⟩ :=
        emitNullRow_fields need unit.offset offset1 (emitOffsetAncestry need unit b)
      cases hstk : unit.stack with
      | nil => rw [hstk] at h; exact absurd h (by simp)
      | cons top rest =>
        rw [hstk] at h
        simp only [Except.ok.injEq, Prod.mk.injEq] at h
        obtain ⟨h1, h2⟩ := h
        subst h1
        subst h2
        refine ⟨?_, ?_, ?_, ?_, ?_, ?_, ?_, ?_, ?_, ?_, ?_, ?_, ?_, ?_⟩
        · rfl
        · rfl
        · rfl
        · intro _; exact hub
        · rw [n1, o1]
        · rw [n2, o2]
        · rw [n12, n8, o8, o12]
        · exact ⟨0, by rw [n8, o8]; simp, by rw [n9, o9]; simp,
            by rw [n10, o10]; simp, by rw [n11, o11]; simp⟩
        · rw [n6, app_length, o6]
        · rw [n15, n13, o15]
        · rw [n13, o13, hstk]
        · rw [n14, o14, hstk]
        · intro _; exact ⟨rfl, rfl⟩
        · intro _ _; rw [n6, o6]
    · rw [if_neg hc] at h
      cases habb : List.lookup (code % 2 ^ 32) unit.abbrevs with
      | none => rw [habb] at h; exact absurd h (by simp)
      | some abb =>
        rw [habb] at h
        dsimp only at h
        by_cases hbig : code ≥ 2 ^ 32
        · rw [if_pos hbig] at h; exact absurd h (by simp)
        · rw [if_neg hbig] at h
          split at h
          · exact absurd h (by simp)
          · rename_i stf hpa
            simp only [Except.ok.injEq, Prod.mk.injEq] at h
            obtain ⟨h1, h2⟩ := h
            subst h1
            subst h2
            have ae := processAttrs_effect hpa
            obtain ⟨o1, o2, o3, o4, o5, o6, o7, o8, o9, o10, o11, o12, o13, o14, o15⟩ :=
              emitOffsetAncestry_fields need unit b
            obtain ⟨p1, p2, p3, p4, p5, p6, p7, p8, p9, p10, p11, p12, p13, p14, p15⟩ :=
              emitEpilogue_fields need unit.offset stf
            have husame : ∀ w : UnitState, (if abb.hasChildren then
                { stf.unit with stack := StackEntry.mk unit.offset abb.tag :: stf.unit.stack }
                else stf.unit) = w → True := fun _ _ => trivial
            have hstUO : stf.unit.unitOffset = unit.unitOffset := ae.unit_unitOffset
            have hstEO : stf.unit.endOffset = unit.endOffset := ae.unit_endOffset
            have hstAB : stf.unit.abbrevs = unit.abbrevs := ae.unit_abbrevs
            have hcoff : stf.b.col_offset = app need.offset b.col_offset unit.offset := by
              rw [ae.col_offset]; dsimp only; rw [o1]
            have hcsize : stf.b.col_size = b.col_size := by
              rw [ae.col_size]; dsimp only; rw [o2]
            have hcaoffs : stf.b.col_attr_offsets = b.col_attr_offsets := by
              rw [ae.attr_offsets]; dsimp only; rw [o12]
            refine ⟨?_, ?_, ?_, ?_, ?_, ?_, ?_, ?_, ?_, ?_, ?_, ?_, ?_, ?_⟩
            · cases habc : abb.hasChildren <;> exact hstUO
            · cases habc : abb.hasChildren <;> exact hstEO
            · cases habc : abb.hasChildren <;> exact hstAB
            · intro _
              have hmo := ae.offset_mono hub.2
              dsimp only at hmo
              cases habc : abb.hasChildren <;>
                (show unit.offset < stf.unit.offset ∧ stf.unit.offset ≤ env.info.length
                 omega)
            · rw [p1, hcoff]
            · cases habc : abb.hasChildren <;>
                (show _ = app need.size b.col_size ((stf.unit.offset - unit.offset) % 2 ^ 32)
                 rw [p2, hcsize])
            · rw [p12, hcaoffs, p8]
            · refine ⟨abb.attrs.length, ?_, ?_, ?_, ?_⟩
              · rw [p8, ae.attr_name_len]; dsimp only; rw [o8]
              · rw [p9, ae.attr_form_len]; dsimp only; rw [o9]
              · rw [p10, ae.attr_int_len]; dsimp only; rw [o10]
              · rw [p11, ae.attr_str_len]; dsimp only; rw [o11]
            · have hcons := ae.declfile_conserve
              dsimp only at hcons
              rw [p6, app_length]
              rw [o6] at hcons
              omega
            · rw [p15, p13]
              have haa : stf.b.col_ancestor_array_offsets
                  = (emitOffsetAncestry need unit b).col_ancestor_array_offsets := by
                rw [ae.anc_aoffs]
              rw [haa, o15]
              have htags : stf.b.col_ancestor_tags
                  = (emitOffsetAncestry need unit b).col_ancestor_tags := by
                rw [ae.anc_tags]
              rw [htags]
            · have hat := ae.anc_tags
              rw [p13, hat]; dsimp only; rw [o13]
            · have had := ae.anc_doffs
              rw [p14, had]; dsimp only; rw [o14]
            · intro hno
              have hmem := lookup_mem habb
              have hrest : ∀ a ∈ abb.attrs, a.attr ≠ DW_AT_stmt_list :=
                fun a ha => hno (code % 2 ^ 32) abb hmem a ha
              have ht := ae.table_stable hrest
              cases habc : abb.hasChildren <;> exact ht
            · intro hno hz
              have hmem := lookup_mem habb
              have hrest : ∀ a ∈ abb.attrs, a.attr ≠ DW_AT_stmt_list :=
                fun a ha => hno (code % 2 ^ 32) abb hmem a ha
              have hdz := ae.declfile_zero hrest (by dsimp only; exact hz)
              dsimp only at hdz
              rw [o6] at hdz
              have hcons := ae.declfile_conserve
              dsimp only at hcons
              rw [o6, hdz] at hcons
              have hflag : stf.need_decl_file = need.decl_file := by
                by_cases h1 : stf.need_decl_file <;> by_cases h2 : need.decl_file <;>
                  simp [h1, h2] at hcons ⊢
              rw [p6, hdz, hflag]

/-! ## Witness fixtures: small concrete inputs -/

/-- All fifteen columns requested. -/
def needAll : Need :=
  { offset := true, size := true, tag := true, unit_name := true, unit_offset := true,
    ancestor_tags := true, ancestor_offsets := true, name := true, linkage_name := true,
    decl_file := true, decl_line := true, attr_name := true, attr_form := true,
    attr_int := true, attr_str := true }

/-- A `.debug_info` consisting of a single terminator byte. -/
def envTerm : Env := { info := [0], strSection := [], lineStrSection := [], line := none }

/-- A unit whose first DIE byte is the terminator, with an empty stack. -/
def unitTermEmpty : UnitState :=
  { unitOffset := 0, endOffset := 1, offset := 0, stack := [], abbrevs := [] }

/-- The same unit with one open parent on the stack. -/
def unitTermOne : UnitState :=
  { unitOffset := 0, endOffset := 1, offset := 0,
    stack := [StackEntry.mk 5 DW_TAG_compile_unit], abbrevs := [] }

/-! ## Claim C7 -/

/-- Claim C7: when the decoder reads abbreviation code 0 it emits a
terminator row with tag 0, empty `name` and `linkage_name`, `decl_file`
dictionary index 0, `decl_line` 0, and an empty attribute-array slot,
performing no attribute iteration (the four attribute builders are
untouched), and then pops the unit stack; it raises `CannotParseDwarf`
with message "Stack underflow" if and only if the stack is empty at that
pop. -/
theorem claim_C7 (env : Env) (need : Need) (unit : UnitState) (b : Builders)
    (offset1 : Nat) (hu : getULEB env.info unit.offset = some (0, offset1)) :
    (parseOneDIE env need unit b = .error (.cannotParseDwarf ("Stack underflow"))
      ↔ unit.stack = [])
    ∧ (∀ top rest, unit.stack = top :: rest →
        ∃ unit' b', parseOneDIE env need unit b = .ok (unit', b')
          ∧ unit'.stack = rest
          ∧ unit'.offset = offset1
          ∧ b'.col_tag = app need.tag b.col_tag 0
          ∧ b'.col_name = app need.name b.col_name ("")
          ∧ b'.col_linkage_name = app need.linkage_name b.col_linkage_name ("")
          ∧ b'.col_decl_file = app need.decl_file b.col_decl_file 0
          ∧ b'.col_decl_line = app need.decl_line b.col_decl_line 0
          ∧ b'.col_attr_offsets = app need.attr_name b.col_attr_offsets b.col_attr_name.length
          ∧ b'.col_attr_name = b.col_attr_name
          ∧ b'.col_attr_form = b.col_attr_form
          ∧ b'.col_attr_int = b.col_attr_int
          ∧ b'.col_attr_str = b.col_attr_str
          ∧ b'.col_size = app need.size b.col_size ((offset1 - unit.offset) % 2 ^ 32)) := by
  obtain ⟨o1, o2, o3, o4, o5, o6, o7, o8, o9, o10, o11, o12, o13, o14, o15⟩ :=
    emitOffsetAncestry_fields need unit b
  obtain ⟨n1, n2, n3, n4, n5, n6, n7, n8, n9, n10, n11, n12, n13, n14, n15⟩ :=
    emitNullRow_fields need unit.offset offset1 (emitOffsetAncestry need unit b)
  have hbody : parseOneDIE env need unit b =
      (match unit.stack with
       | [] => .error (.cannotParseDwarf ("Stack underflow"))
       | _ :: rest =>
         .ok ({ unit with offset := offset1, stack := rest },
           emitNullRow need unit.offset offset1 (emitOffsetAncestry need unit b))) := by
    unfold parseOneDIE
    rw [hu]
    dsimp only
    rw [if_pos rfl]
  constructor
  · rw [hbody]
    cases hstk : unit.stack with
    | nil => simp
    | cons top rest => simp
  · intro top rest hstk
    rw [hbody, hstk]
    dsimp only
    refine ⟨_, _, rfl, rfl, rfl, ?_, ?_, ?_, ?_, ?_, ?_, ?_, ?_, ?_, ?_, ?_⟩
    · rw [n3, o3]
    · rw [n4, o4]
    · rw [n5, o5]
    · rw [n6, o6]
    · rw [n7, o7]
    · rw [n12, o12, o8]
    · rw [n8, o8]
    · rw [n9, o9]
    · rw [n10, o10]
    · rw [n11, o11]
    · rw [n2, o2]

/-- Witness for C7: at the one-byte terminator input, an empty stack raises
exactly "Stack underflow", and a one-entry stack yields the terminator row
with all the claimed defaults. -/
theorem claim_C7_witness :
    (parseOneDIE envTerm needAll unitTermEmpty {}
      = .error (.cannotParseDwarf ("Stack underflow")))
    ∧ (∃ unit' b', parseOneDIE envTerm needAll unitTermOne {} = .ok (unit', b')
        ∧ unit'.stack = [] ∧ unit'.offset = 1
        ∧ b'.col_tag = [0] ∧ b'.col_name = [""] ∧ b'.col_decl_file = [0]) := by
  constructor
  · exact (claim_C7 envTerm needAll unitTermEmpty {} 1 (by decide)).1.mpr rfl
  · obtain ⟨unit', b', hok, hstk, hoff, htag, hname, _, hdf, _⟩ :=
      (claim_C7 envTerm needAll unitTermOne {} 1 (by decide)).2
        (StackEntry.mk 5 DW_TAG_compile_unit) [] rfl
    exact ⟨unit', b', hok, hstk, hoff, by rw [htag]; rfl, by rw [hname]; rfl, by rw [hdf]; rfl⟩

/-! ## Claim C4 -/

theorem ref_not_int {x : Nat} (hx : x ∈ refClassForms) : x ∉ intClassForms := by
  fin_cases hx <;> decide

theorem ref_not_addr {x : Nat} (hx : x ∈ refClassForms) : x ∉ addrClassForms := by
  fin_cases hx <;> decide

theorem ref_not_block {x : Nat} (hx : x ∈ refClassForms) : x ∉ blockClassForms := by
  fin_cases hx <;> decide

theorem ref_not_str {x : Nat} (hx : x ∈ refClassForms) : x ∉ strClassForms := by
  fin_cases hx <;> decide

/-- A form of the reference class dispatches to the reference projection. -/
theorem projectValue_ref {need : Need} {a : AttrSpec} {fv : FormValue} {tag : Nat}
    {st : PState} (href : fv.form ∈ refClassForms) :
    projectValue need a fv tag st = .ok (projectRef need fv st) := by
  unfold projectValue
  rw [if_neg (ref_not_int href), if_neg (ref_not_addr href), if_neg (ref_not_block href),
    if_neg (ref_not_str href), if_pos href]

/-- The value `getAsReference().value_or(0)` stores for a reference form:
the unit-relative forms are rebased onto the unit's `.debug_info` offset,
the other reference forms carry their value as an absolute offset. -/
theorem getAsReference_refClass (u : UnitState) (fv : FormValue)
    (href : fv.form ∈ refClassForms) :
    (getAsReference u fv).getD 0
      = if fv.form ∈ unitRelativeRefForms then (u.unitOffset + fv.rawU) % 2 ^ 64
        else fv.rawU := by
  unfold getAsReference
  split_ifs with h1 h2 <;> simp_all

/-- An attribute whose extracted form is of the reference class appends the
normalized (`.debug_info`-absolute) target offset to `attr_int` and the
default value to `attr_str`. -/
theorem processAttr_ref_proj (env : Env) (need : Need) (tag : Nat) (st : PState) (a : AttrSpec)
    (st' : PState) (fv : FormValue)
    (h : processAttr env need tag st a = .ok (st', fv))
    (href : fv.form ∈ refClassForms) :
    (need.attr_int = true →
      st'.b.col_attr_int = st.b.col_attr_int
        ++ [if fv.form ∈ unitRelativeRefForms
            then (st.unit.unitOffset + fv.rawU) % 2 ^ 64
            else fv.rawU])
    ∧ (need.attr_str = true → st'.b.col_attr_str = st.b.col_attr_str ++ [""]) := by
  unfold processAttr at h
  cases hx : extractValue env
      (if a.form = DW_FORM_implicit_const then a.implicitConstValue else 0)
      (env.info.length + 1) a.form st.unit.offset with
  | none => rw [hx] at h; exact absurd h (by simp)
  | some p =>
    obtain ⟨fv0, offset'⟩ := p
    rw [hx] at h
    dsimp only at h
    cases hm : maybeParseFilenameTable env a fv0 (recordNameForm need a offset' st).unit with
    | error e => rw [hm] at h; exact absurd h (by simp)
    | ok u =>
      rw [hm] at h
      dsimp only at h
      have hfv0 : fv0 = fv := by
        rcases hpv : projectValue need a fv0 tag
            { recordNameForm need a offset' st with unit := u } with e | stP
        · rw [hpv] at h; exact absurd h (by simp)
        · rw [hpv] at h
          simp only [Except.ok.injEq, Prod.mk.injEq] at h
          exact h.2
      subst hfv0
      rw [projectValue_ref href] at h
      simp only [Except.ok.injEq, Prod.mk.injEq] at h
      obtain ⟨h1, _⟩ := h
      subst h1
      have hm1 := (maybeParseFilenameTable_fields hm).1
      have hru : u.unitOffset = st.unit.unitOffset := by
        rw [hm1, (recordNameForm_fields need a offset' st).1]
      constructor
      · intro hni
        show (projectRef need fv0 _).b.col_attr_int = _
        unfold projectRef
        dsimp only
        rw [getAsReference_refClass]
        · unfold app
          rw [if_pos hni]
          rw [hru]
          have hrb : (recordNameForm need a offset' st).b.col_attr_int
              = st.b.col_attr_int := by
            rw [(recordNameForm_fields need a offset' st).2.2.2.2.2.2.2.1]
          rw [hrb]
        · exact href
      · intro hns
        show (projectRef need fv0 _).b.col_attr_str = _
        unfold projectRef
        dsimp only
        unfold app
        rw [if_pos hns]
        have hrb : (recordNameForm need a offset' st).b.col_attr_str
            = st.b.col_attr_str := by
          rw [(recordNameForm_fields need a offset' st).2.2.2.2.2.2.2.1]
        rw [hrb]

/-- Claim C4: for every attribute whose extracted (runtime) form is a
reference form — `ref_addr`, `ref1`, `ref2`, `ref4`, `ref8`, `ref_udata`,
`ref_sig8`, `ref_sup4`, `ref_sup8`, or `GNU_ref_alt` — the `attr_int`
projection holds the target DIE offset normalized to be absolute relative
to the start of `.debug_info` (the unit-relative wire forms are rebased by
the unit's offset, e.g. a `DW_FORM_ref4` payload 0x10 in a unit starting at
offset 0x1000 yields 0x1010), and `attr_str` gets the default value. -/
theorem claim_C4 (env : Env) (need : Need) (tag : Nat) (st : PState) (a : AttrSpec)
    (st' : PState) (fv : FormValue)
    (h : processAttr env need tag st a = .ok (st', fv))
    (href : fv.form ∈ refClassForms) :
    (need.attr_int = true →
      st'.b.col_attr_int = st.b.col_attr_int
        ++ [if fv.form ∈ unitRelativeRefForms
            then (st.unit.unitOffset + fv.rawU) % 2 ^ 64
            else fv.rawU])
    ∧ (need.attr_str = true → st'.b.col_attr_str = st.b.col_attr_str ++ [""]) :=
  processAttr_ref_proj env need tag st a st' fv h href

/-- An attribute read of a unit starting at `.debug_info` offset 0x1000:
the wire holds a `DW_FORM_ref4` payload 0x10 at the cursor. -/
def envRef4 : Env :=
  { info := [0x10, 0, 0, 0], strSection := [], lineStrSection := [], line := none }

def unitRef4 : UnitState :=
  { unitOffset := 0x1000, endOffset := 4, offset := 0, stack := [], abbrevs := [] }

def stRef4 : PState :=
  { unit := unitRef4, b := {}, need_name := true, need_linkage_name := true,
    need_decl_file := true, need_decl_line := true }

def aRef4 : AttrSpec := { attr := 0x47, form := DW_FORM_ref4 }

set_option maxRecDepth 4000 in
/-- Witness for C4: the `DW_FORM_ref4` payload 0x10 in the unit at offset
0x1000 lands in `attr_int` as 0x1010. -/
theorem claim_C4_witness :
    ∃ st' fv, processAttr envRef4 needAll DW_TAG_subprogram stRef4 aRef4 = .ok (st', fv)
      ∧ st'.b.col_attr_int = [0x1010] := by
  have hkey : (processAttr envRef4 needAll DW_TAG_subprogram stRef4 aRef4).toOption.map
      (fun q => (q.2.form, q.2.rawU)) = some (DW_FORM_ref4, 0x10) := by decide
  cases hpa : processAttr envRef4 needAll DW_TAG_subprogram stRef4 aRef4 with
  | error e => rw [hpa] at hkey; simp [Except.toOption] at hkey
  | ok p =>
    obtain ⟨st', fv⟩ := p
    rw [hpa] at hkey
    simp only [Except.toOption, Option.map_some', Option.some.injEq, Prod.mk.injEq] at hkey
    have href : fv.form ∈ refClassForms := by rw [hkey.1]; decide
    have h := (claim_C4 envRef4 needAll DW_TAG_subprogram stRef4 aRef4 st' fv hpa href).1 rfl
    refine ⟨st', fv, rfl, ?_⟩
    rw [h, hkey.1, hkey.2]
    decide

/-! ## Claim C6 -/

/-- A form of the integer class dispatches to the integer projection. -/
theorem projectValue_int {need : Need} {a : AttrSpec} {fv : FormValue} {tag : Nat}
    {st : PState} (hint : fv.form ∈ intClassForms) :
    projectValue need a fv tag st = .ok (projectInt need a fv st) := by
  unfold projectValue
  rw [if_pos hint]

/-- The integer projection appends the raw value to `attr_int` whatever the
attribute is. -/
theorem projectInt_attr_int (need : Need) (a : AttrSpec) (fv : FormValue) (st : PState) :
    (projectInt need a fv st).b.col_attr_int
      = app need.attr_int st.b.col_attr_int fv.rawU := by
  unfold projectInt
  split_ifs <;> rfl

/-- Claim C6: for every attribute of every decoded DIE, the `attr_form`
column records the form DECLARED in the abbreviation (`attr.Form`), not the
form resolved at extraction time; in particular under `DW_FORM_indirect`
the declared code 0x16 is recorded even when the extracted form differs,
while the `attr_int` value projection follows the extracted form
`val.getForm()` (an integer-class extracted form stores its raw value, a
reference-class extracted form stores the normalized reference). -/
theorem claim_C6 (env : Env) (need : Need) (tag : Nat) (st : PState) (a : AttrSpec)
    (st' : PState) (fv : FormValue)
    (h : processAttr env need tag st a = .ok (st', fv)) :
    (need.attr_form = true → st'.b.col_attr_form = st.b.col_attr_form ++ [a.form])
    ∧ (need.attr_name = true → st'.b.col_attr_name = st.b.col_attr_name ++ [a.attr])
    ∧ (fv.form ∈ intClassForms → need.attr_int = true →
        st'.b.col_attr_int = st.b.col_attr_int ++ [fv.rawU])
    ∧ (fv.form ∈ refClassForms → need.attr_int = true →
        st'.b.col_attr_int = st.b.col_attr_int
          ++ [if fv.form ∈ unitRelativeRefForms
              then (st.unit.unitOffset + fv.rawU) % 2 ^ 64
              else fv.rawU]) := by
  have ae := processAttr_effect h
  refine ⟨?_, ?_, ?_, ?_⟩
  · intro hf
    rw [ae.attr_form]
    unfold app
    rw [if_pos hf]
  · intro hn
    rw [ae.attr_name]
    unfold app
    rw [if_pos hn]
  · intro hint hni
    unfold processAttr at h
    cases hx : extractValue env
        (if a.form = DW_FORM_implicit_const then a.implicitConstValue else 0)
        (env.info.length + 1) a.form st.unit.offset with
    | none => rw [hx] at h; exact absurd h (by simp)
    | some p =>
      obtain ⟨fv0, offset'⟩ := p
      rw [hx] at h
      dsimp only at h
      cases hm : maybeParseFilenameTable env a fv0 (recordNameForm need a offset' st).unit with
      | error e => rw [hm] at h; exact absurd h (by simp)
      | ok u =>
        rw [hm] at h
        dsimp only at h
        have hfv0 : fv0 = fv := by
          rcases hpv : projectValue need a fv0 tag
              { recordNameForm need a offset' st with unit := u } with e | stP
          · rw [hpv] at h; exact absurd h (by simp)
          · rw [hpv] at h
            simp only [Except.ok.injEq, Prod.mk.injEq] at h
            exact h.2
        subst hfv0
        rw [projectValue_int hint] at h
        simp only [Except.ok.injEq, Prod.mk.injEq] at h
        obtain ⟨h1, _⟩ := h
        subst h1
        rw [projectInt_attr_int]
        unfold app
        rw [if_pos hni]
        have hrb : (recordNameForm need a offset' st).b.col_attr_int
            = st.b.col_attr_int := by
          rw [(recordNameForm_fields need a offset' st).2.2.2.2.2.2.2.1]
        show (recordNameForm need a offset' st).b.col_attr_int ++ [fv0.rawU] = _
        rw [hrb]
  · intro href hni
    exact (processAttr_ref_proj env need tag st a st' fv h href).1 hni

/-- A unit whose single attribute is declared `DW_FORM_indirect` and
resolves on the wire to `DW_FORM_data1` with value 4
(`DW_LANG_C_plus_plus`). The cursor stands just past the abbreviation
code. -/
def envInd : Env :=
  { info := List.replicate 11 0 ++ [0x0b, 4], strSection := [], lineStrSection := [], line := none }

def unitInd : UnitState :=
  { unitOffset := 0, endOffset := 13, offset := 11, stack := [], abbrevs := [] }

def stInd : PState :=
  { unit := unitInd, b := {}, need_name := true, need_linkage_name := true,
    need_decl_file := true, need_decl_line := true }

def aInd : AttrSpec := { attr := DW_AT_language, form := DW_FORM_indirect }

set_option maxRecDepth 4000 in
/-- Witness for C6: with a declared `DW_FORM_indirect` resolving to
`DW_FORM_data1`, the recorded form is the indirect code 0x16 while the
value projection follows the resolved integer class (raw value 4). -/
theorem claim_C6_witness :
    ∃ st' fv, processAttr envInd needAll DW_TAG_compile_unit stInd aInd = .ok (st', fv)
      ∧ st'.b.col_attr_form = [DW_FORM_indirect]
      ∧ fv.form = DW_FORM_data1
      ∧ st'.b.col_attr_int = [4] := by
  have hkey : (processAttr envInd needAll DW_TAG_compile_unit stInd aInd).toOption.map
      (fun q => (q.2.form, q.2.rawU)) = some (DW_FORM_data1, 4) := by decide
  cases hpa : processAttr envInd needAll DW_TAG_compile_unit stInd aInd with
  | error e => rw [hpa] at hkey; simp [Except.toOption] at hkey
  | ok p =>
    obtain ⟨st', fv⟩ := p
    rw [hpa] at hkey
    simp only [Except.toOption, Option.map_some', Option.some.injEq, Prod.mk.injEq] at hkey
    have hc := claim_C6 envInd needAll DW_TAG_compile_unit stInd aInd st' fv hpa
    have hint : fv.form ∈ intClassForms := by rw [hkey.1]; decide
    refine ⟨st', fv, rfl, ?_, hkey.1, ?_⟩
    · rw [hc.1 rfl]; rfl
    · rw [hc.2.2.1 hint rfl, hkey.2]; rfl

/-! ## Claim C2 (corrected) -/

/-- An integer-form `DW_AT_decl_file` attribute whose raw value is inside
the filename table, reaching a DIE whose `decl_file` convenience slot is
still unfilled, appends dictionary index `raw + 1` and stringifies through
`filename_table[raw + 1]`. -/
theorem projectInt_declfile {need : Need} {a : AttrSpec} {fv : FormValue} {st : PState}
    (ha : a.attr = DW_AT_decl_file)
    (hflag : st.need_decl_file = true)
    (hraw : fv.rawU < st.unit.filename_table_size) :
    (projectInt need a fv st).b.col_decl_file = st.b.col_decl_file ++ [fv.rawU + 1]
    ∧ (need.attr_str = true → (projectInt need a fv st).b.col_attr_str
        = st.b.col_attr_str ++ [(st.unit.filename_table.getD []).getD (fv.rawU + 1) ("")]) := by
  constructor
  · unfold projectInt
    simp [ha, hflag, hraw, DW_AT_decl_file, DW_AT_decl_line, DW_AT_call_file, app]
  · intro hs
    unfold projectInt
    simp [ha, hflag, hraw, hs, DW_AT_decl_file, DW_AT_decl_line, DW_AT_call_file, app]

/-- The concrete counterexample fixture: a DWARF v5 unit whose single DIE
carries `DW_AT_stmt_list` (section offset 0) and `DW_AT_decl_file` = 0;
three real filenames in the line-table prologue. -/
def abbrevsStmt : List (Nat × Abbrev) :=
  [(1, { tag := DW_TAG_compile_unit, hasChildren := false,
         attrs := [{ attr := DW_AT_stmt_list, form := DW_FORM_sec_offset },
                   { attr := DW_AT_decl_file, form := DW_FORM_data1 }] })]

def envStmt5 : Env :=
  { info := List.replicate 11 0 ++ [1, 0, 0, 0, 0, 0],
    strSection := [], lineStrSection := [],
    line := some [(0, { version := 5, fileNames := [some "a.c", some "b.c", some "c.c"] })] }

def envStmt4 : Env :=
  { info := List.replicate 11 0 ++ [1, 0, 0, 0, 0, 0],
    strSection := [], lineStrSection := [],
    line := some [(0, { version := 4, fileNames := [some "a.c", some "b.c", some "c.c"] })] }

def unitStmt : UnitState :=
  { unitOffset := 0, endOffset := 17, offset := 11, stack := [], abbrevs := abbrevsStmt }

set_option maxRecDepth 4000 in
/-- Counterexample to C2 as stated: under DWARF version 5, a DIE with
`DW_AT_decl_file` = 0 gets `decl_file` dictionary index 1 (pointing at the
first real filename "a.c"), not index 2 as the claim asserts. -/
theorem claim_C2_counterexample :
    (parseEntries envStmt5 ["decl_file"] unitStmt).toOption.map (fun p => p.1.cols)
      = some [Column.lcDeclFile (some ["", "a.c", "b.c", "c.c"]) [1]]
    ∧ (1 : Nat) ≠ 2 :=
  ⟨by decide, by decide⟩

/-- Claim C2 (amended): for the first integer-form `DW_AT_decl_file`
attribute of a DIE whose raw value `raw` is below the unit's
`filename_table_size`, the `decl_file` convenience column is filled with
dictionary index `raw + 1` and the `attr_str` projection (when requested)
is the string `filename_table[raw + 1]`; the filename table built from a
version ≤ 4 prologue reserves index 1 as an extra empty string, so a DIE
with `DW_AT_decl_file` = 0 gets index 1 = the empty string, while under
version ≥ 5 index 1 is already the first real filename, so the same DIE
gets index 1 = the first real filename (not index 2). -/
theorem claim_C2_amended :
    (∀ env need tag st a st' fv,
      processAttr env need tag st a = .ok (st', fv) →
      fv.form ∈ intClassForms →
      a.attr = DW_AT_decl_file →
      st.need_decl_file = true →
      fv.rawU < st.unit.filename_table_size →
      st'.b.col_decl_file = st.b.col_decl_file ++ [fv.rawU + 1]
      ∧ (need.attr_str = true →
          st'.b.col_attr_str = st.b.col_attr_str
            ++ [(st.unit.filename_table.getD []).getD (fv.rawU + 1) ("")]))
    ∧ (∀ env unit off u' L p, (Env.line env) = some L → L.lookup off = some p →
        parseFilenameTable env unit off = .ok u' →
        p.version ≤ 4 →
        (u'.filename_table.getD []).getD 1 ("") = "")
    ∧ (∀ env unit off u' L p e rest, (Env.line env) = some L → L.lookup off = some p →
        parseFilenameTable env unit off = .ok u' →
        5 ≤ p.version → p.fileNames = e :: rest →
        (u'.filename_table.getD []).getD 1 ("") = e.getD ("<error>")) := by
  refine ⟨?_, ?_, ?_⟩
  · intro env need tag st a st' fv h hint ha hflag hraw
    unfold processAttr at h
    cases hx : extractValue env
        (if a.form = DW_FORM_implicit_const then a.implicitConstValue else 0)
        (env.info.length + 1) a.form st.unit.offset with
    | none => rw [hx] at h; exact absurd h (by simp)
    | some p =>
      obtain ⟨fv0, offset'⟩ := p
      rw [hx] at h
      dsimp only at h
      have hnot : a.attr ≠ DW_AT_stmt_list := by rw [ha]; decide
      rw [maybeParseFilenameTable_not_stmt hnot] at h
      dsimp only at h
      have hfv0 : fv0 = fv := by
        rcases hpv : projectValue need a fv0 tag
            { recordNameForm need a offset' st with
              unit := (recordNameForm need a offset' st).unit } with e | stP
        · rw [hpv] at h; exact absurd h (by simp)
        · rw [hpv] at h
          simp only [Except.ok.injEq, Prod.mk.injEq] at h
          exact h.2
      subst hfv0
      rw [projectValue_int hint] at h
      simp only [Except.ok.injEq, Prod.mk.injEq] at h
      obtain ⟨h1, _⟩ := h
      subst h1
      obtain ⟨r1, r2, r3, r4, r5, r6, r7, r8, r9, r10, r11, r12⟩ :=
        recordNameForm_fields need a offset' st
      have hflag2 : ({ recordNameForm need a offset' st with
          unit := (recordNameForm need a offset' st).unit } : PState).need_decl_file = true := by
        dsimp only
        rw [r11]
        exact hflag
      have hraw2 : fv0.rawU < ({ recordNameForm need a offset' st with
          unit := (recordNameForm need a offset' st).unit } : PState).unit.filename_table_size := by
        dsimp only
        rw [r7]
        exact hraw
      obtain ⟨hd1, hd2⟩ := projectInt_declfile ha hflag2 hraw2
      constructor
      · rw [hd1]
        dsimp only
        rw [r8]
      · intro hs
        rw [hd2 hs]
        dsimp only
        rw [r8, r6]
  · intro env unit off u' L p hL hp h hv
    unfold parseFilenameTable at h
    rw [hL] at h
    dsimp only at h
    rw [hp] at h
    dsimp only at h
    simp only [Except.ok.injEq] at h
    subst h
    simp [if_pos hv]
  · intro env unit off u' L p e rest hL hp h hv hf
    unfold parseFilenameTable at h
    rw [hL] at h
    dsimp only at h
    rw [hp] at h
    dsimp only at h
    simp only [Except.ok.injEq] at h
    subst h
    have : ¬ p.version ≤ 4 := by omega
    simp [if_neg this, hf]

/-- A cursor standing on a one-byte `DW_FORM_data1` = 0 payload, in a unit
whose v5-style filename table is already built. -/
def unitDF : UnitState :=
  { unitOffset := 0, endOffset := 1, offset := 0, stack := [], abbrevs := [],
    filename_table := some ["", "a.c", "b.c", "c.c"], filename_table_size := 3 }

def envDF : Env := { info := [0], strSection := [], lineStrSection := [], line := none }

def stDF : PState :=
  { unit := unitDF, b := {}, need_name := true, need_linkage_name := true,
    need_decl_file := true, need_decl_line := true }

def aDF : AttrSpec := { attr := DW_AT_decl_file, form := DW_FORM_data1 }

/-- The filename tables the two prologue versions produce for the
counterexample fixture. -/
def uF4 : UnitState :=
  { unitOffset := 0, endOffset := 17, offset := 11, stack := [], abbrevs := abbrevsStmt,
    filename_table := some ["", "", "a.c", "b.c", "c.c"], filename_table_size := 4 }

def uF5 : UnitState :=
  { unitOffset := 0, endOffset := 17, offset := 11, stack := [], abbrevs := abbrevsStmt,
    filename_table := some ["", "a.c", "b.c", "c.c"], filename_table_size := 3 }

/-- An `Except` whose `toOption` is `some` is that `ok`. -/
theorem toOption_ok {ε α : Type} {e : Except ε α} {a : α} (h : e.toOption = some a) :
    e = .ok a := by
  cases e with
  | error x => simp [Except.toOption] at h
  | ok x => simp [Except.toOption] at h; rw [h]

set_option maxRecDepth 4000 in
/-- Witness for the amended C2: `DW_AT_decl_file` = 0 against a v5 table
fills index 1 and stringifies to "a.c"; the v4 prologue reserves index 1 as
empty while the v5 prologue puts the first real filename there. -/
theorem claim_C2_witness :
    (∃ st' fv, processAttr envDF needAll DW_TAG_subprogram stDF aDF = .ok (st', fv)
      ∧ st'.b.col_decl_file = [1] ∧ st'.b.col_attr_str = ["a.c"])
    ∧ (∃ u', parseFilenameTable envStmt4 unitStmt 0 = .ok u'
        ∧ (u'.filename_table.getD []).getD 1 ("") = "")
    ∧ (∃ u', parseFilenameTable envStmt5 unitStmt 0 = .ok u'
        ∧ (u'.filename_table.getD []).getD 1 ("") = "a.c") := by
  obtain ⟨c1, c2, c3⟩ := claim_C2_amended
  refine ⟨?_, ?_, ?_⟩
  · have hkey : (processAttr envDF needAll DW_TAG_subprogram stDF aDF).toOption.map
        (fun q => (q.2.form, q.2.rawU)) = some (DW_FORM_data1, 0) := by decide
    cases hpa : processAttr envDF needAll DW_TAG_subprogram stDF aDF with
    | error e => rw [hpa] at hkey; simp [Except.toOption] at hkey
    | ok p =>
      obtain ⟨st', fv⟩ := p
      rw [hpa] at hkey
      simp only [Except.toOption, Option.map_some', Option.some.injEq, Prod.mk.injEq] at hkey
      have hint : fv.form ∈ intClassForms := by rw [hkey.1]; decide
      obtain ⟨hd1, hd2⟩ := c1 envDF needAll DW_TAG_subprogram stDF aDF st' fv hpa hint
        rfl rfl (by rw [hkey.2]; decide)
      refine ⟨st', fv, rfl, ?_, ?_⟩
      · rw [hd1, hkey.2]
        decide
      · rw [hd2 rfl, hkey.2]
        decide
  · have hft : parseFilenameTable envStmt4 unitStmt 0 = .ok uF4 :=
      toOption_ok (by decide)
    exact ⟨uF4, hft, c2 envStmt4 unitStmt 0 uF4
      [(0, { version := 4, fileNames := [some "a.c", some "b.c", some "c.c"] })]
      { version := 4, fileNames := [some "a.c", some "b.c", some "c.c"] }
      rfl (by decide) hft (by decide)⟩
  · have hft : parseFilenameTable envStmt5 unitStmt 0 = .ok uF5 :=
      toOption_ok (by decide)
    exact ⟨uF5, hft, c3 envStmt5 unitStmt 0 uF5
      [(0, { version := 5, fileNames := [some "a.c", some "b.c", some "c.c"] })]
      { version := 5, fileNames := [some "a.c", some "b.c", some "c.c"] }
      (some "a.c") [some "b.c", some "c.c"]
      rfl (by decide) hft (by decide) rfl⟩

/-! ## Lemmas about the needed-column computation and chunk assembly -/

theorem computeNeed_mono (get : Need → Bool)
    (hmono : ∀ n j, get n = true → get (setNeed n j) = true) :
    ∀ (req : List String) (n n' : Need), computeNeed req n = .ok n' →
      get n = true → get n' = true := by
  intro req
  induction req with
  | nil =>
    intro n n' h hg
    simp only [computeNeed, Except.ok.injEq] at h
    subst h
    exact hg
  | cons x rest ih =>
    intro n n' h hg
    rw [computeNeed] at h
    cases hx : columnNameToIdx x with
    | none => rw [hx] at h; exact absurd h (by simp)
    | some j =>
      rw [hx] at h
      exact ih _ _ h (hmono n j hg)

theorem computeNeed_field (get : Need → Bool) (i : Nat)
    (hset : ∀ n, get (setNeed n i) = true)
    (hmono : ∀ n j, get n = true → get (setNeed n j) = true) :
    ∀ (req : List String) (n n' : Need), computeNeed req n = .ok n' →
      ∀ name ∈ req, columnNameToIdx name = some i → get n' = true := by
  intro req
  induction req with
  | nil => intro n n' _ name hmem; simp at hmem
  | cons x rest ih =>
    intro n n' h name hmem hidx
    rw [computeNeed] at h
    cases hx : columnNameToIdx x with
    | none => rw [hx] at h; exact absurd h (by simp)
    | some j =>
      rw [hx] at h
      rcases List.mem_cons.mp hmem with heq | hmem2
      · subst heq
        rw [hidx] at hx
        injection hx with hji
        subst hji
        exact computeNeed_mono get hmono rest _ _ h (hset n)
      · exact ih _ _ h name hmem2 hidx

theorem computeNeed_ok :
    ∀ (req : List String) (n : Need), (∀ name ∈ req, (columnNameToIdx name).isSome = true) →
      ∃ n', computeNeed req n = .ok n' := by
  intro req
  induction req with
  | nil => intro n _; exact ⟨n, rfl⟩
  | cons x rest ih =>
    intro n hall
    have hx := hall x (by simp)
    cases hidx : columnNameToIdx x with
    | none => rw [hidx] at hx; simp at hx
    | some j =>
      obtain ⟨n', hn'⟩ := ih (setNeed n j) (fun name hm => hall name (by simp [hm]))
      refine ⟨n', ?_⟩
      rw [computeNeed, hidx]
      exact hn'

set_option maxHeartbeats 1000000 in
theorem applyForcing_fields (n : Need) :
    (applyForcing n).offset = n.offset ∧
    (applyForcing n).size = n.size ∧
    (applyForcing n).tag = n.tag ∧
    (applyForcing n).name = n.name ∧
    (applyForcing n).linkage_name = n.linkage_name ∧
    (applyForcing n).decl_file = n.decl_file ∧
    (applyForcing n).decl_line = n.decl_line ∧
    (applyForcing n).attr_name = (n.attr_name || n.attr_form || n.attr_int || n.attr_str) ∧
    (applyForcing n).attr_form = n.attr_form ∧
    (applyForcing n).attr_int = n.attr_int ∧
    (applyForcing n).attr_str = n.attr_str ∧
    (applyForcing n).ancestor_tags = (n.ancestor_tags || n.ancestor_offsets) ∧
    (applyForcing n).ancestor_offsets = n.ancestor_offsets := by
  rcases n with ⟨o, sz, t, un, uo, anct, anco, nm, ln, df, dl, an, af, ai, ast⟩
  unfold applyForcing
  cases af <;> cases ai <;> cases ast <;> cases anco <;>
    simp only [Bool.or_false, Bool.or_true, Bool.false_or, Bool.true_or] <;>
    exact ⟨rfl, rfl, rfl, rfl, rfl, rfl, rfl, rfl, rfl, rfl, rfl, rfl, rfl⟩

/-- Every schema index builds a column; the `LOGICAL_ERROR` default branch
is unreachable for indices inside the schema. -/
theorem buildColumn_ok (unit : UnitState) (b : Builders) (n i : Nat) (hi : i < COL_COUNT) :
    ∃ col, buildColumn unit b n i = .ok col := by
  unfold COL_COUNT at hi
  interval_cases i <;> exact ⟨_, rfl⟩

theorem columnNameToIdx_lt {name : String} {i : Nat} (h : columnNameToIdx name = some i) :
    i < COL_COUNT := by
  unfold COL_COUNT
  unfold columnNameToIdx at h
  by_cases h0 : name = "offset"
  · rw [if_pos h0] at h; injection h with h; subst h; decide
  rw [if_neg h0] at h
  by_cases h1 : name = "size"
  · rw [if_pos h1] at h; injection h with h; subst h; decide
  rw [if_neg h1] at h
  by_cases h2 : name = "tag"
  · rw [if_pos h2] at h; injection h with h; subst h; decide
  rw [if_neg h2] at h
  by_cases h3 : name = "unit_name"
  · rw [if_pos h3] at h; injection h with h; subst h; decide
  rw [if_neg h3] at h
  by_cases h4 : name = "unit_offset"
  · rw [if_pos h4] at h; injection h with h; subst h; decide
  rw [if_neg h4] at h
  by_cases h5 : name = "ancestor_tags"
  · rw [if_pos h5] at h; injection h with h; subst h; decide
  rw [if_neg h5] at h
  by_cases h6 : name = "ancestor_offsets"
  · rw [if_pos h6] at h; injection h with h; subst h; decide
  rw [if_neg h6] at h
  by_cases h7 : name = "name"
  · rw [if_pos h7] at h; injection h with h; subst h; decide
  rw [if_neg h7] at h
  by_cases h8 : name = "linkage_name"
  · rw [if_pos h8] at h; injection h with h; subst h; decide
  rw [if_neg h8] at h
  by_cases h9 : name = "decl_file"
  · rw [if_pos h9] at h; injection h with h; subst h; decide
  rw [if_neg h9] at h
  by_cases h10 : name = "decl_line"
  · rw [if_pos h10] at h; injection h with h; subst h; decide
  rw [if_neg h10] at h
  by_cases h11 : name = "attr_name"
  · rw [if_pos h11] at h; injection h with h; subst h; decide
  rw [if_neg h11] at h
  by_cases h12 : name = "attr_form"
  · rw [if_pos h12] at h; injection h with h; subst h; decide
  rw [if_neg h12] at h
  by_cases h13 : name = "attr_int"
  · rw [if_pos h13] at h; injection h with h; subst h; decide
  rw [if_neg h13] at h
  by_cases h14 : name = "attr_str"
  · rw [if_pos h14] at h; injection h with h; subst h; decide
  rw [if_neg h14] at h
  exact (Option.noConfusion h)

theorem assemble_ok :
    ∀ (req : List String) (unit : UnitState) (b : Builders) (n : Nat),
      (∀ name ∈ req, (columnNameToIdx name).isSome = true) →
      ∃ cols, assemble unit b n req = .ok cols := by
  intro req
  induction req with
  | nil => intro unit b n _; exact ⟨[], rfl⟩
  | cons x rest ih =>
    intro unit b n hall
    have hx := hall x (by simp)
    cases hidx : columnNameToIdx x with
    | none => rw [hidx] at hx; simp at hx
    | some i =>
      have hlt : i < COL_COUNT := columnNameToIdx_lt hidx
      obtain ⟨col, hcol⟩ := buildColumn_ok unit b n i hlt
      obtain ⟨cols, hcols⟩ := ih unit b n (fun name hm => hall name (by simp [hm]))
      refine ⟨col :: cols, ?_⟩
      rw [assemble]
      simp only [hidx, hcol, hcols]

theorem assemble_get :
    ∀ {req : List String} {unit : UnitState} {b : Builders} {n : Nat} {cols : List Column},
      assemble unit b n req = .ok cols →
      cols.length = req.length ∧
      ∀ k name, req.get? k = some name →
        ∃ i col, columnNameToIdx name = some i ∧ buildColumn unit b n i = .ok col
          ∧ cols.get? k = some col := by
  intro req
  induction req with
  | nil =>
    intro unit b n cols h
    simp only [assemble, Except.ok.injEq] at h
    subst h
    exact ⟨rfl, by intro k name hk; simp at hk⟩
  | cons x rest ih =>
    intro unit b n cols h
    rw [assemble] at h
    cases hidx : columnNameToIdx x with
    | none => rw [hidx] at h; exact absurd h (by simp)
    | some i =>
      rw [hidx] at h
      dsimp only at h
      cases hbc : buildColumn unit b n i with
      | error e => rw [hbc] at h; exact absurd h (by simp)
      | ok col =>
        rw [hbc] at h
        cases has : assemble unit b n rest with
        | error e => rw [has] at h; exact absurd h (by simp)
        | ok cs =>
          rw [has] at h
          simp only [Except.ok.injEq] at h
          subst h
          obtain ⟨hlen, hget⟩ := ih has
          constructor
          · simp [hlen]
          · intro k name hk
            cases k with
            | zero =>
              simp only [List.get?] at hk
              injection hk with hk
              subst hk
              exact ⟨i, col, hidx, hbc, rfl⟩
            | succ k' =>
              simp only [List.get?] at hk ⊢
              exact hget k' name hk

/-! ## Loop-level lemmas about `parseLoop` -/

/-- Frame facts of the row loop: the unit identity fields survive, and the
row counter grows by at most the fuel. -/
theorem parseLoop_frame {env : Env} {need : Need} :
    ∀ {fuel : Nat} {unit : UnitState} {b : Builders} {rows : Nat}
      {unit' : UnitState} {b' : Builders} {rows' : Nat},
      parseLoop env need fuel unit b rows = .ok (unit', b', rows') →
      unit'.unitOffset = unit.unitOffset ∧ unit'.endOffset = unit.endOffset ∧
      unit'.abbrevs = unit.abbrevs ∧ rows ≤ rows' ∧ rows' ≤ rows + fuel := by
  intro fuel
  induction fuel with
  | zero =>
    intro unit b rows unit' b' rows' h
    simp only [parseLoop, Except.ok.injEq, Prod.mk.injEq] at h
    obtain ⟨h1, h2, h3⟩ := h
    subst h1; subst h2; subst h3
    exact ⟨rfl, rfl, rfl, Nat.le_refl _, Nat.le_refl _⟩
  | succ fuel ih =>
    intro unit b rows unit' b' rows' h
    rw [parseLoop] at h
    cases hd : parseOneDIE env need unit b with
    | error e => rw [hd] at h; exact absurd h (by simp)
    | ok p =>
      obtain ⟨u1, b1⟩ := p
      rw [hd] at h
      dsimp only at h
      have de := parseOneDIE_effect hd
      by_cases hs : u1.stack.isEmpty = true
      · rw [if_pos hs] at h
        by_cases he : u1.eof = true
        · rw [if_pos he] at h
          simp only [Except.ok.injEq, Prod.mk.injEq] at h
          obtain ⟨h1, h2, h3⟩ := h
          subst h1; subst h2; subst h3
          exact ⟨de.unit_unitOffset, de.unit_endOffset, de.unit_abbrevs,
            Nat.le_succ _, by omega⟩
        · rw [if_neg he] at h; exact absurd h (by simp)
      · rw [if_neg hs] at h
        obtain ⟨i1, i2, i3, i4, i5⟩ := ih h
        exact ⟨by rw [i1, de.unit_unitOffset], by rw [i2, de.unit_endOffset],
          by rw [i3, de.unit_abbrevs], by omega, by omega⟩

/-- Under a `DW_AT_stmt_list`-free abbreviation table and an unbuilt
filename table, the loop leaves the table unbuilt and appends one
`decl_file` zero per row (when requested). -/
theorem parseLoop_declfile {env : Env} {need : Need} :
    ∀ {fuel : Nat} {unit : UnitState} {b : Builders} {rows : Nat}
      {unit' : UnitState} {b' : Builders} {rows' : Nat},
      parseLoop env need fuel unit b rows = .ok (unit', b', rows') →
      noStmtList unit.abbrevs → unit.filename_table_size = 0 →
      unit'.filename_table = unit.filename_table ∧
      unit'.filename_table_size = 0 ∧
      b'.col_decl_file = b.col_decl_file
        ++ (if need.decl_file then List.replicate (rows' - rows) 0 else []) := by
  intro fuel
  induction fuel with
  | zero =>
    intro unit b rows unit' b' rows' h hno hz
    simp only [parseLoop, Except.ok.injEq, Prod.mk.injEq] at h
    obtain ⟨h1, h2, h3⟩ := h
    subst h1; subst h2; subst h3
    refine ⟨rfl, hz, ?_⟩
    cases need.decl_file <;> simp
  | succ fuel ih =>
    intro unit b rows unit' b' rows' h hno hz
    rw [parseLoop] at h
    cases hd : parseOneDIE env need unit b with
    | error e => rw [hd] at h; exact absurd h (by simp)
    | ok p =>
      obtain ⟨u1, b1⟩ := p
      rw [hd] at h
      dsimp only at h
      have de := parseOneDIE_effect hd
      obtain ⟨ht1, ht2⟩ := de.table_stable hno
      have hz1 : u1.filename_table_size = 0 := by rw [ht2]; exact hz
      have hdz := de.declfile_zero hno hz
      have hno1 : noStmtList u1.abbrevs := by rw [de.unit_abbrevs]; exact hno
      by_cases hs : u1.stack.isEmpty = true
      · rw [if_pos hs] at h
        by_cases he : u1.eof = true
        · rw [if_pos he] at h
          simp only [Except.ok.injEq, Prod.mk.injEq] at h
          obtain ⟨h1, h2, h3⟩ := h
          subst h1; subst h2; subst h3
          refine ⟨ht1, hz1, ?_⟩
          rw [hdz]
          cases hn : need.decl_file <;> simp [app, hn]
        · rw [if_neg he] at h; exact absurd h (by simp)
      · rw [if_neg hs] at h
        obtain ⟨i1, i2, i3⟩ := ih h hno1 hz1
        have hge := (parseLoop_frame h).2.2.2.1
        refine ⟨by rw [i1, ht1], i2, ?_⟩
        rw [i3, hdz]
        cases hn : need.decl_file
        · simp [app, hn]
        · simp only [app, hn, if_true, List.append_assoc, List.singleton_append]
          have hrepl : (0 : Nat) :: List.replicate (rows' - (rows + 1)) 0
              = List.replicate (rows' - rows) 0 := by
            have : rows' - rows = (rows' - (rows + 1)) + 1 := by omega
            rw [this, List.replicate_succ]
          rw [hrepl]

/-! ## From requested names to `need` flags -/

/-- `setNeed` never clears a flag: every field of `need` is monotone
under `need[i] = true`. -/
theorem setNeed_fields (m : Need) (j : Nat) :
    (m.offset = true → (setNeed m j).offset = true) ∧
    (m.size = true → (setNeed m j).size = true) ∧
    (m.tag = true → (setNeed m j).tag = true) ∧
    (m.unit_name = true → (setNeed m j).unit_name = true) ∧
    (m.unit_offset = true → (setNeed m j).unit_offset = true) ∧
    (m.ancestor_tags = true → (setNeed m j).ancestor_tags = true) ∧
    (m.ancestor_offsets = true → (setNeed m j).ancestor_offsets = true) ∧
    (m.name = true → (setNeed m j).name = true) ∧
    (m.linkage_name = true → (setNeed m j).linkage_name = true) ∧
    (m.decl_file = true → (setNeed m j).decl_file = true) ∧
    (m.decl_line = true → (setNeed m j).decl_line = true) ∧
    (m.attr_name = true → (setNeed m j).attr_name = true) ∧
    (m.attr_form = true → (setNeed m j).attr_form = true) ∧
    (m.attr_int = true → (setNeed m j).attr_int = true) ∧
    (m.attr_str = true → (setNeed m j).attr_str = true) := by
  unfold setNeed
  by_cases h0 : j = COL_OFFSET
  · rw [if_pos h0]
    exact ⟨fun _ => rfl, id, id, id, id, id, id, id, id, id, id, id, id, id, id⟩
  rw [if_neg h0]
  by_cases h1 : j = COL_SIZE
  · rw [if_pos h1]
    exact ⟨id, fun _ => rfl, id, id, id, id, id, id, id, id, id, id, id, id, id⟩
  rw [if_neg h1]
  by_cases h2 : j = COL_TAG
  · rw [if_pos h2]
    exact ⟨id, id, fun _ => rfl, id, id, id, id, id, id, id, id, id, id, id, id⟩
  rw [if_neg h2]
  by_cases h3 : j = COL_UNIT_NAME
  · rw [if_pos h3]
    exact ⟨id, id, id, fun _ => rfl, id, id, id, id, id, id, id, id, id, id, id⟩
  rw [if_neg h3]
  by_cases h4 : j = COL_UNIT_OFFSET
  · rw [if_pos h4]
    exact ⟨id, id, id, id, fun _ => rfl, id, id, id, id, id, id, id, id, id, id⟩
  rw [if_neg h4]
  by_cases h5 : j = COL_ANCESTOR_TAGS
  · rw [if_pos h5]
    exact ⟨id, id, id, id, id, fun _ => rfl, id, id, id, id, id, id, id, id, id⟩
  rw [if_neg h5]
  by_cases h6 : j = COL_ANCESTOR_OFFSETS
  · rw [if_pos h6]
    exact ⟨id, id, id, id, id, id, fun _ => rfl, id, id, id, id, id, id, id, id⟩
  rw [if_neg h6]
  by_cases h7 : j = COL_NAME
  · rw [if_pos h7]
    exact ⟨id, id, id, id, id, id, id, fun _ => rfl, id, id, id, id, id, id, id⟩
  rw [if_neg h7]
  by_cases h8 : j = COL_LINKAGE_NAME
  · rw [if_pos h8]
    exact ⟨id, id, id, id, id, id, id, id, fun _ => rfl, id, id, id, id, id, id⟩
  rw [if_neg h8]
  by_cases h9 : j = COL_DECL_FILE
  · rw [if_pos h9]
    exact ⟨id, id, id, id, id, id, id, id, id, fun _ => rfl, id, id, id, id, id⟩
  rw [if_neg h9]
  by_cases h10 : j = COL_DECL_LINE
  · rw [if_pos h10]
    exact ⟨id, id, id, id, id, id, id, id, id, id, fun _ => rfl, id, id, id, id⟩
  rw [if_neg h10]
  by_cases h11 : j = COL_ATTR_NAME
  · rw [if_pos h11]
    exact ⟨id, id, id, id, id, id, id, id, id, id, id, fun _ => rfl, id, id, id⟩
  rw [if_neg h11]
  by_cases h12 : j = COL_ATTR_FORM
  · rw [if_pos h12]
    exact ⟨id, id, id, id, id, id, id, id, id, id, id, id, fun _ => rfl, id, id⟩
  rw [if_neg h12]
  by_cases h13 : j = COL_ATTR_INT
  · rw [if_pos h13]
    exact ⟨id, id, id, id, id, id, id, id, id, id, id, id, id, fun _ => rfl, id⟩
  rw [if_neg h13]
  by_cases h14 : j = COL_ATTR_STR
  · rw [if_pos h14]
    exact ⟨id, id, id, id, id, id, id, id, id, id, id, id, id, id, fun _ => rfl⟩
  rw [if_neg h14]
  exact ⟨id, id, id, id, id, id, id, id, id, id, id, id, id, id, id⟩


theorem computeNeed_mem_offset {req : List String} {n : Need}
    (h : computeNeed req {} = .ok n) (hm : "offset" ∈ req) : n.offset = true := by
  have hmono : ∀ (m : Need) (j : Nat), m.offset = true → (setNeed m j).offset = true :=
    fun m j hm2 => (setNeed_fields m j).1 hm2
  exact computeNeed_field (fun m => m.offset) COL_OFFSET (fun _ => rfl) hmono
    req {} n h "offset" hm (by decide)

theorem computeNeed_mem_size {req : List String} {n : Need}
    (h : computeNeed req {} = .ok n) (hm : "size" ∈ req) : n.size = true := by
  have hmono : ∀ (m : Need) (j : Nat), m.size = true → (setNeed m j).size = true :=
    fun m j hm2 => (setNeed_fields m j).2.1 hm2
  exact computeNeed_field (fun m => m.size) COL_SIZE (fun _ => rfl) hmono
    req {} n h "size" hm (by decide)

theorem computeNeed_mem_decl_file {req : List String} {n : Need}
    (h : computeNeed req {} = .ok n) (hm : "decl_file" ∈ req) : n.decl_file = true := by
  have hmono : ∀ (m : Need) (j : Nat), m.decl_file = true → (setNeed m j).decl_file = true :=
    fun m j hm2 => (setNeed_fields m j).2.2.2.2.2.2.2.2.2.1 hm2
  exact computeNeed_field (fun m => m.decl_file) COL_DECL_FILE (fun _ => rfl) hmono
    req {} n h "decl_file" hm (by decide)

theorem computeNeed_mem_attr_name {req : List String} {n : Need}
    (h : computeNeed req {} = .ok n) (hm : "attr_name" ∈ req) : n.attr_name = true := by
  have hmono : ∀ (m : Need) (j : Nat), m.attr_name = true → (setNeed m j).attr_name = true :=
    fun m j hm2 => (setNeed_fields m j).2.2.2.2.2.2.2.2.2.2.2.1 hm2
  exact computeNeed_field (fun m => m.attr_name) COL_ATTR_NAME (fun _ => rfl) hmono
    req {} n h "attr_name" hm (by decide)

theorem computeNeed_mem_attr_form {req : List String} {n : Need}
    (h : computeNeed req {} = .ok n) (hm : "attr_form" ∈ req) : n.attr_form = true := by
  have hmono : ∀ (m : Need) (j : Nat), m.attr_form = true → (setNeed m j).attr_form = true :=
    fun m j hm2 => (setNeed_fields m j).2.2.2.2.2.2.2.2.2.2.2.2.1 hm2
  exact computeNeed_field (fun m => m.attr_form) COL_ATTR_FORM (fun _ => rfl) hmono
    req {} n h "attr_form" hm (by decide)

theorem computeNeed_mem_attr_int {req : List String} {n : Need}
    (h : computeNeed req {} = .ok n) (hm : "attr_int" ∈ req) : n.attr_int = true := by
  have hmono : ∀ (m : Need) (j : Nat), m.attr_int = true → (setNeed m j).attr_int = true :=
    fun m j hm2 => (setNeed_fields m j).2.2.2.2.2.2.2.2.2.2.2.2.2.1 hm2
  exact computeNeed_field (fun m => m.attr_int) COL_ATTR_INT (fun _ => rfl) hmono
    req {} n h "attr_int" hm (by decide)

theorem computeNeed_mem_attr_str {req : List String} {n : Need}
    (h : computeNeed req {} = .ok n) (hm : "attr_str" ∈ req) : n.attr_str = true := by
  have hmono : ∀ (m : Need) (j : Nat), m.attr_str = true → (setNeed m j).attr_str = true :=
    fun m j hm2 => (setNeed_fields m j).2.2.2.2.2.2.2.2.2.2.2.2.2.2 hm2
  exact computeNeed_field (fun m => m.attr_str) COL_ATTR_STR (fun _ => rfl) hmono
    req {} n h "attr_str" hm (by decide)

theorem computeNeed_mem_anc_tags {req : List String} {n : Need}
    (h : computeNeed req {} = .ok n) (hm : "ancestor_tags" ∈ req) :
    n.ancestor_tags = true := by
  have hmono : ∀ (m : Need) (j : Nat), m.ancestor_tags = true → (setNeed m j).ancestor_tags = true :=
    fun m j hm2 => (setNeed_fields m j).2.2.2.2.2.1 hm2
  exact computeNeed_field (fun m => m.ancestor_tags) COL_ANCESTOR_TAGS (fun _ => rfl) hmono
    req {} n h "ancestor_tags" hm (by decide)

theorem computeNeed_mem_anc_offsets {req : List String} {n : Need}
    (h : computeNeed req {} = .ok n) (hm : "ancestor_offsets" ∈ req) :
    n.ancestor_offsets = true := by
  have hmono : ∀ (m : Need) (j : Nat), m.ancestor_offsets = true → (setNeed m j).ancestor_offsets = true :=
    fun m j hm2 => (setNeed_fields m j).2.2.2.2.2.2.1 hm2
  exact computeNeed_field (fun m => m.ancestor_offsets) COL_ANCESTOR_OFFSETS (fun _ => rfl)
    hmono req {} n h "ancestor_offsets" hm (by decide)

/-! ## The offset/size chain of the row loop -/

/-- Consecutive differences: `diffs offs last` maps each offset to the next
offset (or `last` after the final one) minus itself — the shape the `size`
column takes. -/
def diffs : List Nat → Nat → List Nat
  | [], _ => []
  | o :: rest, last => (rest.headD last - o) :: diffs rest last

theorem diffs_append : ∀ (offs : List Nat) (c last : Nat),
    diffs (offs ++ [c]) last = diffs offs c ++ [last - c]
  | [], c, last => rfl
  | o :: rest, c, last => by
    rw [List.cons_append, diffs, diffs, diffs_append rest c last]
    cases rest with
    | nil => rfl
    | cons r rs => rfl

theorem diffs_length : ∀ (offs : List Nat) (last : Nat),
    (diffs offs last).length = offs.length
  | [], _ => rfl
  | _ :: rest, last => by rw [diffs, List.length_cons, List.length_cons, diffs_length rest last]

theorem diffs_get : ∀ (offs : List Nat) (last i : Nat), i < offs.length →
    (diffs offs last).get? i
      = some ((if i + 1 < offs.length then offs.getD (i + 1) 0 else last) - offs.getD i 0)
  | [], _, i, hi => by simp at hi
  | o :: rest, last, 0, _ => by
    cases rest with
    | nil => simp [diffs]
    | cons r rs => simp [diffs]
  | o :: rest, last, i + 1, hi => by
    rw [diffs]
    have hx := diffs_get rest last i (by simpa using hi)
    simp only [List.get?, List.length_cons]
    rw [hx]
    have hc : i + 1 + 1 < rest.length + 1 ↔ i + 1 < rest.length := by omega
    simp only [List.getD]
    by_cases h2 : i + 1 < rest.length
    · rw [if_pos h2, if_pos (hc.mpr h2)]
      rfl
    · rw [if_neg h2, if_neg (fun hh => h2 (hc.mp hh))]
      rfl

/-- The running offset/size chain invariant of the row loop: the `size`
column is the consecutive-difference list of the `offset` column closed by
the cursor, the offsets are strictly increasing and below the cursor, and
each iteration appends exactly one row. -/
theorem parseLoop_chain {env : Env} {need : Need}
    (ho : need.offset = true) (hbl : env.info.length < 2 ^ 32) :
    ∀ {fuel : Nat} {unit : UnitState} {b : Builders} {rows : Nat}
      {unit' : UnitState} {b' : Builders} {rows' : Nat},
      parseLoop env need fuel unit b rows = .ok (unit', b', rows') →
      unit.offset ≤ env.info.length →
      (need.size = true → b.col_size = diffs b.col_offset unit.offset) →
      (∀ x ∈ b.col_offset, x < unit.offset) →
      List.Pairwise (· < ·) b.col_offset →
      (unit.offset ≤ unit'.offset ∧ unit'.offset ≤ env.info.length) ∧
      (need.size = true → b'.col_size = diffs b'.col_offset unit'.offset) ∧
      (∀ x ∈ b'.col_offset, x < unit'.offset) ∧
      List.Pairwise (· < ·) b'.col_offset ∧
      b'.col_offset.length = b.col_offset.length + (rows' - rows) ∧
      (∀ x ∈ b'.col_offset, x ∈ b.col_offset ∨ unit.offset ≤ x) := by
  intro fuel
  induction fuel with
  | zero =>
    intro unit b rows unit' b' rows' h hle hds hlt hpw
    simp only [parseLoop, Except.ok.injEq, Prod.mk.injEq] at h
    obtain ⟨h1, h2, h3⟩ := h
    subst h1; subst h2; subst h3
    exact ⟨⟨Nat.le_refl _, hle⟩, hds, hlt, hpw, by omega, fun x hx => Or.inl hx⟩
  | succ fuel ih =>
    intro unit b rows unit' b' rows' h hle hds hlt hpw
    rw [parseLoop] at h
    cases hd : parseOneDIE env need unit b with
    | error e => rw [hd] at h; exact absurd h (by simp)
    | ok p =>
      obtain ⟨u1, b1⟩ := p
      rw [hd] at h
      dsimp only at h
      have de := parseOneDIE_effect hd
      have hmono := de.offset_mono hle
      have hoff1 : b1.col_offset = b.col_offset ++ [unit.offset] := by
        rw [de.col_offset]
        unfold app
        rw [if_pos ho]
      have hds1 : need.size = true → b1.col_size = diffs b1.col_offset u1.offset := by
        intro hszt
        have hsz1 : b1.col_size = b.col_size ++ [u1.offset - unit.offset] := by
          rw [de.col_size]
          unfold app
          rw [if_pos hszt]
          have : (u1.offset - unit.offset) % 2 ^ 32 = u1.offset - unit.offset :=
            Nat.mod_eq_of_lt (by omega)
          rw [this]
        rw [hsz1, hoff1, diffs_append, hds hszt]
      have hlt1 : ∀ x ∈ b1.col_offset, x < u1.offset := by
        intro x hx
        rw [hoff1] at hx
        rcases List.mem_append.mp hx with hx1 | hx1
        · have := hlt x hx1; omega
        · have : x = unit.offset := List.mem_singleton.mp hx1
          omega
      have hpw1 : List.Pairwise (· < ·) b1.col_offset := by
        rw [hoff1]
        rw [List.pairwise_append]
        exact ⟨hpw, List.pairwise_singleton _ _, by
          intro a ha y hy
          have : y = unit.offset := List.mem_singleton.mp hy
          rw [this]
          exact hlt a ha⟩
      by_cases hst : u1.stack.isEmpty = true
      · rw [if_pos hst] at h
        by_cases he : u1.eof = true
        · rw [if_pos he] at h
          simp only [Except.ok.injEq, Prod.mk.injEq] at h
          obtain ⟨h1, h2, h3⟩ := h
          subst h1; subst h2; subst h3
          refine ⟨⟨by omega, hmono.2⟩, hds1, hlt1, hpw1, ?_, ?_⟩
          · rw [hoff1]; simp
          · intro x hx
            rw [hoff1] at hx
            rcases List.mem_append.mp hx with hx1 | hx1
            · exact Or.inl hx1
            · exact Or.inr (by rw [List.mem_singleton.mp hx1])
        · rw [if_neg he] at h; exact absurd h (by simp)
      · rw [if_neg hst] at h
        obtain ⟨⟨j1, j2⟩, j3, j4, j5, j6, j7⟩ := ih h hmono.2 hds1 hlt1 hpw1
        have hlen1 : b1.col_offset.length = b.col_offset.length + 1 := by
          rw [hoff1]; simp
        have hfr := (parseLoop_frame h).2.2.2.1
        refine ⟨⟨by omega, j2⟩, j3, j4, j5, by omega, ?_⟩
        intro x hx
        rcases j7 x hx with hx1 | hx1
        · rw [hoff1] at hx1
          rcases List.mem_append.mp hx1 with hx2 | hx2
          · exact Or.inl hx2
          · exact Or.inr (by rw [List.mem_singleton.mp hx2])
        · exact Or.inr (by omega)

/-- The `size` column sums to the cursor displacement of the loop. -/
theorem parseLoop_sizesum {env : Env} {need : Need}
    (hsz : need.size = true) (hbl : env.info.length < 2 ^ 32) :
    ∀ {fuel : Nat} {unit : UnitState} {b : Builders} {rows : Nat}
      {unit' : UnitState} {b' : Builders} {rows' : Nat},
      parseLoop env need fuel unit b rows = .ok (unit', b', rows') →
      unit.offset ≤ env.info.length →
      (unit.offset ≤ unit'.offset ∧ unit'.offset ≤ env.info.length) ∧
      b'.col_size.sum = b.col_size.sum + (unit'.offset - unit.offset) := by
  intro fuel
  induction fuel with
  | zero =>
    intro unit b rows unit' b' rows' h hle
    simp only [parseLoop, Except.ok.injEq, Prod.mk.injEq] at h
    obtain ⟨h1, h2, h3⟩ := h
    subst h1; subst h2; subst h3
    exact ⟨⟨Nat.le_refl _, hle⟩, by omega⟩
  | succ fuel ih =>
    intro unit b rows unit' b' rows' h hle
    rw [parseLoop] at h
    cases hd : parseOneDIE env need unit b with
    | error e => rw [hd] at h; exact absurd h (by simp)
    | ok p =>
      obtain ⟨u1, b1⟩ := p
      rw [hd] at h
      dsimp only at h
      have de := parseOneDIE_effect hd
      have hmono := de.offset_mono hle
      have hsum1 : b1.col_size.sum = b.col_size.sum + (u1.offset - unit.offset) := by
        rw [de.col_size]
        unfold app
        rw [if_pos hsz]
        have : (u1.offset - unit.offset) % 2 ^ 32 = u1.offset - unit.offset :=
          Nat.mod_eq_of_lt (by omega)
        rw [this, List.sum_append]
        simp
      by_cases hst : u1.stack.isEmpty = true
      · rw [if_pos hst] at h
        by_cases he : u1.eof = true
        · rw [if_pos he] at h
          simp only [Except.ok.injEq, Prod.mk.injEq] at h
          obtain ⟨h1, h2, h3⟩ := h
          subst h1; subst h2; subst h3
          exact ⟨⟨by omega, hmono.2⟩, by omega⟩
        · rw [if_neg he] at h; exact absurd h (by simp)
      · rw [if_neg hst] at h
        obtain ⟨⟨j1, j2⟩, j3⟩ := ih h hmono.2
        exact ⟨⟨by omega, j2⟩, by omega⟩

/-- The loop stops either because it spent the whole row budget or because
the unit stack emptied exactly at end-of-unit. -/
theorem parseLoop_stop {env : Env} {need : Need} :
    ∀ {fuel : Nat} {unit : UnitState} {b : Builders} {rows : Nat}
      {unit' : UnitState} {b' : Builders} {rows' : Nat},
      parseLoop env need fuel unit b rows = .ok (unit', b', rows') →
      rows' = rows + fuel ∨ (unit'.stack = [] ∧ unit'.offset = unit'.endOffset) := by
  intro fuel
  induction fuel with
  | zero =>
    intro unit b rows unit' b' rows' h
    simp only [parseLoop, Except.ok.injEq, Prod.mk.injEq] at h
    omega
  | succ fuel ih =>
    intro unit b rows unit' b' rows' h
    rw [parseLoop] at h
    cases hd : parseOneDIE env need unit b with
    | error e => rw [hd] at h; exact absurd h (by simp)
    | ok p =>
      obtain ⟨u1, b1⟩ := p
      rw [hd] at h
      dsimp only at h
      by_cases hst : u1.stack.isEmpty = true
      · rw [if_pos hst] at h
        by_cases he : u1.eof = true
        · rw [if_pos he] at h
          simp only [Except.ok.injEq, Prod.mk.injEq] at h
          obtain ⟨h1, h2, h3⟩ := h
          subst h1; subst h2; subst h3
          refine Or.inr ⟨List.isEmpty_iff.mp hst, ?_⟩
          rw [UnitState.eof] at he
          exact beq_iff_eq.mp he
        · rw [if_neg he] at h; exact absurd h (by simp)
      · rw [if_neg hst] at h
        rcases ih h with h1 | h1
        · exact Or.inl (by omega)
        · exact Or.inr h1

/-! ## The shared offsets vectors of the array columns -/

theorem getLastD_concat {l : List Nat} {x : Nat} : (l ++ [x]).getLastD 0 = x := by
  rw [List.getLastD_eq_getLast?, List.getLast?_concat]
  rfl

/-- The attribute-array invariant of the row loop: with `attr_name` owning
the shared offsets vector, the `attr_form`/`attr_int`/`attr_str` builders
keep the same length as `attr_name` at every row boundary, and the shared
offsets vector is the nondecreasing list of running `attr_name` lengths,
one entry per row, ending at the current length. -/
theorem parseLoop_attrarrays {env : Env} {need : Need} (hn : need.attr_name = true) :
    ∀ {fuel : Nat} {unit : UnitState} {b : Builders} {rows : Nat}
      {unit' : UnitState} {b' : Builders} {rows' : Nat},
      parseLoop env need fuel unit b rows = .ok (unit', b', rows') →
      (need.attr_form = true → b.col_attr_form.length = b.col_attr_name.length) →
      (need.attr_int = true → b.col_attr_int.length = b.col_attr_name.length) →
      (need.attr_str = true → b.col_attr_str.length = b.col_attr_name.length) →
      (∀ x ∈ b.col_attr_offsets, x ≤ b.col_attr_name.length) →
      List.Pairwise (· ≤ ·) b.col_attr_offsets →
      b.col_attr_offsets.getLastD 0 = b.col_attr_name.length →
      (need.attr_form = true → b'.col_attr_form.length = b'.col_attr_name.length) ∧
      (need.attr_int = true → b'.col_attr_int.length = b'.col_attr_name.length) ∧
      (need.attr_str = true → b'.col_attr_str.length = b'.col_attr_name.length) ∧
      (∀ x ∈ b'.col_attr_offsets, x ≤ b'.col_attr_name.length) ∧
      List.Pairwise (· ≤ ·) b'.col_attr_offsets ∧
      b'.col_attr_offsets.getLastD 0 = b'.col_attr_name.length ∧
      b'.col_attr_offsets.length = b.col_attr_offsets.length + (rows' - rows) := by
  intro fuel
  induction fuel with
  | zero =>
    intro unit b rows unit' b' rows' h hf hi hs hub hpw hlast
    simp only [parseLoop, Except.ok.injEq, Prod.mk.injEq] at h
    obtain ⟨h1, h2, h3⟩ := h
    subst h1; subst h2; subst h3
    exact ⟨hf, hi, hs, hub, hpw, hlast, by omega⟩
  | succ fuel ih =>
    intro unit b rows unit' b' rows' h hf hi hs hub hpw hlast
    rw [parseLoop] at h
    cases hd : parseOneDIE env need unit b with
    | error e => rw [hd] at h; exact absurd h (by simp)
    | ok p =>
      obtain ⟨u1, b1⟩ := p
      rw [hd] at h
      dsimp only at h
      have de := parseOneDIE_effect hd
      obtain ⟨k, hk1, hk2, hk3, hk4⟩ := de.attr_lens
      rw [hn] at hk1
      rw [if_pos rfl] at hk1
      have hgrow : b.col_attr_name.length ≤ b1.col_attr_name.length := by omega
      have hf1 : need.attr_form = true → b1.col_attr_form.length = b1.col_attr_name.length := by
        intro hc
        rw [hc] at hk2
        rw [if_pos rfl] at hk2
        rw [hk2, hf hc, hk1]
      have hi1 : need.attr_int = true → b1.col_attr_int.length = b1.col_attr_name.length := by
        intro hc
        rw [hc] at hk3
        rw [if_pos rfl] at hk3
        rw [hk3, hi hc, hk1]
      have hs1 : need.attr_str = true → b1.col_attr_str.length = b1.col_attr_name.length := by
        intro hc
        rw [hc] at hk4
        rw [if_pos rfl] at hk4
        rw [hk4, hs hc, hk1]
      have hoffs1 : b1.col_attr_offsets = b.col_attr_offsets ++ [b1.col_attr_name.length] := by
        rw [de.attr_offsets]
        unfold app
        rw [if_pos hn]
      have hub1 : ∀ x ∈ b1.col_attr_offsets, x ≤ b1.col_attr_name.length := by
        intro x hx
        rw [hoffs1] at hx
        rcases List.mem_append.mp hx with hx1 | hx1
        · exact Nat.le_trans (hub x hx1) hgrow
        · rw [List.mem_singleton.mp hx1]
      have hpw1 : List.Pairwise (· ≤ ·) b1.col_attr_offsets := by
        rw [hoffs1, List.pairwise_append]
        refine ⟨hpw, List.pairwise_singleton _ _, ?_⟩
        intro a ha y hy
        rw [List.mem_singleton.mp hy]
        exact Nat.le_trans (hub a ha) hgrow
      have hlast1 : b1.col_attr_offsets.getLastD 0 = b1.col_attr_name.length := by
        rw [hoffs1, getLastD_concat]
      by_cases hst : u1.stack.isEmpty = true
      · rw [if_pos hst] at h
        by_cases he : u1.eof = true
        · rw [if_pos he] at h
          simp only [Except.ok.injEq, Prod.mk.injEq] at h
          obtain ⟨h1, h2, h3⟩ := h
          subst h1; subst h2; subst h3
          refine ⟨hf1, hi1, hs1, hub1, hpw1, hlast1, ?_⟩
          rw [hoffs1]; simp
        · rw [if_neg he] at h; exact absurd h (by simp)
      · rw [if_neg hst] at h
        obtain ⟨j1, j2, j3, j4, j5, j6, j7⟩ := ih h hf1 hi1 hs1 hub1 hpw1 hlast1
        have hfr := (parseLoop_frame h).2.2.2.1
        have hlen1 : b1.col_attr_offsets.length = b.col_attr_offsets.length + 1 := by
          rw [hoffs1]; simp
        exact ⟨j1, j2, j3, j4, j5, j6, by omega⟩

/-- The ancestry-array invariant of the row loop: with `ancestor_tags`
owning the shared offsets vector, `ancestor_offsets` keeps the same length
as `ancestor_tags` at every row boundary, and the shared offsets vector is
the nondecreasing list of running `ancestor_tags` lengths, one entry per
row, ending at the current length. -/
theorem parseLoop_ancarrays {env : Env} {need : Need} (hn : need.ancestor_tags = true) :
    ∀ {fuel : Nat} {unit : UnitState} {b : Builders} {rows : Nat}
      {unit' : UnitState} {b' : Builders} {rows' : Nat},
      parseLoop env need fuel unit b rows = .ok (unit', b', rows') →
      (need.ancestor_offsets = true →
        b.col_ancestor_dwarf_offsets.length = b.col_ancestor_tags.length) →
      (∀ x ∈ b.col_ancestor_array_offsets, x ≤ b.col_ancestor_tags.length) →
      List.Pairwise (· ≤ ·) b.col_ancestor_array_offsets →
      b.col_ancestor_array_offsets.getLastD 0 = b.col_ancestor_tags.length →
      (need.ancestor_offsets = true →
        b'.col_ancestor_dwarf_offsets.length = b'.col_ancestor_tags.length) ∧
      (∀ x ∈ b'.col_ancestor_array_offsets, x ≤ b'.col_ancestor_tags.length) ∧
      List.Pairwise (· ≤ ·) b'.col_ancestor_array_offsets ∧
      b'.col_ancestor_array_offsets.getLastD 0 = b'.col_ancestor_tags.length ∧
      b'.col_ancestor_array_offsets.length
        = b.col_ancestor_array_offsets.length + (rows' - rows) := by
  intro fuel
  induction fuel with
  | zero =>
    intro unit b rows unit' b' rows' h hdo hub hpw hlast
    simp only [parseLoop, Except.ok.injEq, Prod.mk.injEq] at h
    obtain ⟨h1, h2, h3⟩ := h
    subst h1; subst h2; subst h3
    exact ⟨hdo, hub, hpw, hlast, by omega⟩
  | succ fuel ih =>
    intro unit b rows unit' b' rows' h hdo hub hpw hlast
    rw [parseLoop] at h
    cases hd : parseOneDIE env need unit b with
    | error e => rw [hd] at h; exact absurd h (by simp)
    | ok p =>
      obtain ⟨u1, b1⟩ := p
      rw [hd] at h
      dsimp only at h
      have de := parseOneDIE_effect hd
      have htl := de.anc_tags_len
      rw [hn] at htl
      rw [if_pos rfl] at htl
      have hgrow : b.col_ancestor_tags.length ≤ b1.col_ancestor_tags.length := by omega
      have hdo1 : need.ancestor_offsets = true →
          b1.col_ancestor_dwarf_offsets.length = b1.col_ancestor_tags.length := by
        intro hc
        have hdl := de.anc_doffs_len
        rw [hn, hc, Bool.and_self] at hdl
        rw [if_pos rfl] at hdl
        rw [hdl, hdo hc, htl]
      have hoffs1 : b1.col_ancestor_array_offsets
          = b.col_ancestor_array_offsets ++ [b1.col_ancestor_tags.length] := by
        rw [de.anc_aoffs]
        unfold app
        rw [if_pos hn]
      have hub1 : ∀ x ∈ b1.col_ancestor_array_offsets, x ≤ b1.col_ancestor_tags.length := by
        intro x hx
        rw [hoffs1] at hx
        rcases List.mem_append.mp hx with hx1 | hx1
        · exact Nat.le_trans (hub x hx1) hgrow
        · rw [List.mem_singleton.mp hx1]
      have hpw1 : List.Pairwise (· ≤ ·) b1.col_ancestor_array_offsets := by
        rw [hoffs1, List.pairwise_append]
        refine ⟨hpw, List.pairwise_singleton _ _, ?_⟩
        intro a ha y hy
        rw [List.mem_singleton.mp hy]
        exact Nat.le_trans (hub a ha) hgrow
      have hlast1 : b1.col_ancestor_array_offsets.getLastD 0 = b1.col_ancestor_tags.length := by
        rw [hoffs1, getLastD_concat]
      by_cases hst : u1.stack.isEmpty = true
      · rw [if_pos hst] at h
        by_cases he : u1.eof = true
        · rw [if_pos he] at h
          simp only [Except.ok.injEq, Prod.mk.injEq] at h
          obtain ⟨h1, h2, h3⟩ := h
          subst h1; subst h2; subst h3
          refine ⟨hdo1, hub1, hpw1, hlast1, ?_⟩
          rw [hoffs1]; simp
        · rw [if_neg he] at h; exact absurd h (by simp)
      · rw [if_neg hst] at h
        obtain ⟨j1, j2, j3, j4, j5⟩ := ih h hdo1 hub1 hpw1 hlast1
        have hfr := (parseLoop_frame h).2.2.2.1
        have hlen1 : b1.col_ancestor_array_offsets.length
            = b.col_ancestor_array_offsets.length + 1 := by
          rw [hoffs1]; simp
        exact ⟨j1, j2, j3, j4, by omega⟩

/-! ## `parseEntries` inversion and column extraction -/

/-- Inversion of a successful `parseEntries` into its three phases. -/
theorem parseEntries_inv {env : Env} {requested : List String} {unit : UnitState}
    {chunk : Chunk} {unit' : UnitState}
    (h : parseEntries env requested unit = .ok (chunk, unit')) :
    ∃ n b num_rows, computeNeed requested {} = .ok n ∧
      parseLoop env (applyForcing n) 65536 unit {} 0 = .ok (unit', b, num_rows) ∧
      assemble unit' b num_rows requested = .ok chunk.cols ∧
      chunk.num_rows = num_rows := by
  unfold parseEntries at h
  cases hn : computeNeed requested {} with
  | error e => rw [hn] at h; exact absurd h (by simp)
  | ok n =>
    rw [hn] at h
    dsimp only at h
    cases hl : parseLoop env (applyForcing n) 65536 unit {} 0 with
    | error e => rw [hl] at h; exact absurd h (by simp)
    | ok p =>
      obtain ⟨u1, b1, r1⟩ := p
      rw [hl] at h
      dsimp only at h
      cases ha : assemble u1 b1 r1 requested with
      | error e => rw [ha] at h; exact absurd h (by simp)
      | ok cols =>
        rw [ha] at h
        simp only [Except.ok.injEq, Prod.mk.injEq] at h
        obtain ⟨h1, h2⟩ := h
        subst h2
        refine ⟨n, b1, r1, rfl, hl, ?_, ?_⟩
        · rw [← h1]
          exact ha
        · rw [← h1]

/-- The column a successful `assemble` places at a request position. -/
theorem assemble_col {req : List String} {unit : UnitState} {b : Builders} {n : Nat}
    {cols : List Column} (h : assemble unit b n req = .ok cols)
    {k : Nat} {name : String} (hk : req.get? k = some name) {i : Nat}
    (hidx : columnNameToIdx name = some i) {col : Column}
    (hbuild : buildColumn unit b n i = .ok col) :
    cols.get? k = some col := by
  obtain ⟨-, hget⟩ := assemble_get h
  obtain ⟨i2, col2, hidx2, hb2, hc2⟩ := hget k name hk
  rw [hidx] at hidx2
  injection hidx2 with hii
  subst hii
  rw [hbuild] at hb2
  injection hb2 with hcc
  subst hcc
  exact hc2

/-! ## The per-unit chunk sequence -/

/-- The per-unit view of the worker loop (source lines 260-270): decode one
chunk from the unit; a unit not yet at EOF goes back to the front of the
queue and is decoded again. `drainUnit` follows one unit to EOF, collecting
its chunks in order; the fuel bounds the number of chunks, `none` standing
for a decode error or an unfinished run. -/
def drainUnit (env : Env) (requested : List String) :
    Nat → UnitState → Option (List Chunk × UnitState)
  | 0, _ => none
  | fuel + 1, unit =>
    match parseEntries env requested unit with
    | .error _ => none
    | .ok (c, u1) =>
      if u1.eof then some ([c], u1)
      else
        match drainUnit env requested fuel u1 with
        | none => none
        | some (cs, uF) => some (c :: cs, uF)

/-- The `size` column a chunk holds at request position `k` (empty when no
`u32` column stands there). -/
def sizeAt (c : Chunk) (k : Nat) : List Nat :=
  match c.cols.get? k with
  | some (Column.u32 v) => v
  | _ => []

/-- Cursor monotonicity of the row loop. -/
theorem parseLoop_cursor {env : Env} {need : Need} :
    ∀ {fuel : Nat} {unit : UnitState} {b : Builders} {rows : Nat}
      {unit' : UnitState} {b' : Builders} {rows' : Nat},
      parseLoop env need fuel unit b rows = .ok (unit', b', rows') →
      unit.offset ≤ env.info.length →
      unit.offset ≤ unit'.offset ∧ unit'.offset ≤ env.info.length := by
  intro fuel
  induction fuel with
  | zero =>
    intro unit b rows unit' b' rows' h hle
    simp only [parseLoop, Except.ok.injEq, Prod.mk.injEq] at h
    obtain ⟨h1, h2, h3⟩ := h
    subst h1; subst h2; subst h3
    exact ⟨Nat.le_refl _, hle⟩
  | succ fuel ih =>
    intro unit b rows unit' b' rows' h hle
    rw [parseLoop] at h
    cases hd : parseOneDIE env need unit b with
    | error e => rw [hd] at h; exact absurd h (by simp)
    | ok p =>
      obtain ⟨u1, b1⟩ := p
      rw [hd] at h
      dsimp only at h
      have hmono := (parseOneDIE_effect hd).offset_mono hle
      by_cases hst : u1.stack.isEmpty = true
      · rw [if_pos hst] at h
        by_cases he : u1.eof = true
        · rw [if_pos he] at h
          simp only [Except.ok.injEq, Prod.mk.injEq] at h
          obtain ⟨h1, h2, h3⟩ := h
          subst h1; subst h2; subst h3
          exact ⟨by omega, hmono.2⟩
        · rw [if_neg he] at h; exact absurd h (by simp)
      · rw [if_neg hst] at h
        obtain ⟨j1, j2⟩ := ih h hmono.2
        exact ⟨by omega, j2⟩

/-- Over a whole drained unit the chunk cursors advance from the first DIE
to the unit end, and the `size` columns sum chunk by chunk to the cursor
displacement. -/
theorem drainUnit_sum {env : Env} {requested : List String}
    (hbl : env.info.length < 2 ^ 32) :
    ∀ {fuel : Nat} {unit : UnitState} {chunks : List Chunk} {uF : UnitState},
      drainUnit env requested fuel unit = some (chunks, uF) →
      unit.offset ≤ env.info.length →
      uF.offset = uF.endOffset ∧ uF.endOffset = unit.endOffset ∧
      unit.offset ≤ uF.offset ∧
      ∀ ks, requested.get? ks = some "size" →
        (chunks.map (fun c => (sizeAt c ks).sum)).sum = uF.offset - unit.offset := by
  intro fuel
  induction fuel with
  | zero => intro unit chunks uF h _; simp [drainUnit] at h
  | succ fuel ih =>
    intro unit chunks uF h hle
    rw [drainUnit] at h
    cases hp : parseEntries env requested unit with
    | error e => rw [hp] at h; exact absurd h (by simp)
    | ok p =>
      obtain ⟨c, u1⟩ := p
      rw [hp] at h
      dsimp only at h
      obtain ⟨n, b, num_rows, hn, hloop, hasm, hnr⟩ := parseEntries_inv hp
      have hcur := parseLoop_cursor hloop hle
      have hend := (parseLoop_frame hloop).2.1
      have hsz : ∀ ks, requested.get? ks = some "size" →
          (sizeAt c ks).sum = u1.offset - unit.offset := by
        intro ks hks
        have hmem : "size" ∈ requested := List.get?_mem hks
        have hneed : (applyForcing n).size = true := by
          rw [(applyForcing_fields n).2.1]
          exact computeNeed_mem_size hn hmem
        obtain ⟨-, hsum⟩ := parseLoop_sizesum hneed hbl hloop hle
        have hbc : buildColumn u1 b num_rows COL_SIZE = .ok (Column.u32 b.col_size) := rfl
        have hc2 : c.cols.get? ks = some (Column.u32 b.col_size) :=
          assemble_col hasm hks (by decide) hbc
        unfold sizeAt
        rw [hc2]
        simpa using hsum
      by_cases he : u1.eof = true
      · rw [if_pos he] at h
        simp only [Option.some.injEq, Prod.mk.injEq] at h
        obtain ⟨h1, h2⟩ := h
        subst h1; subst h2
        rw [UnitState.eof] at he
        have heq : u1.offset = u1.endOffset := beq_iff_eq.mp he
        refine ⟨heq, hend, hcur.1, ?_⟩
        intro ks hks
        simp only [List.map_cons, List.map_nil, List.sum_cons, List.sum_nil]
        rw [hsz ks hks]
        omega
      · rw [if_neg he] at h
        cases hdr : drainUnit env requested fuel u1 with
        | none => rw [hdr] at h; exact absurd h (by simp)
        | some q =>
          obtain ⟨cs, uF2⟩ := q
          rw [hdr] at h
          dsimp only at h
          simp only [Option.some.injEq, Prod.mk.injEq] at h
          obtain ⟨h1, h2⟩ := h
          subst h1; subst h2
          obtain ⟨i1, i2, i3, i4⟩ := ih hdr hcur.2
          refine ⟨i1, by rw [i2, hend], by omega, ?_⟩
          intro ks hks
          simp only [List.map_cons, List.sum_cons]
          rw [hsz ks hks, i4 ks hks]
          omega

/-! ## Claim C1 -/

/-- Claim C1: for every unit in which no DIE can carry a `DW_AT_stmt_list`
attribute (no abbreviation declares one) and whose filename table was never
built, decoding a chunk with the `decl_file` column requested succeeds —
the `LOGICAL_ERROR` branch at chunk assembly is unreachable — and the
`decl_file` value of every row is dictionary index 0 against an absent
dictionary (the empty string). -/
theorem claim_C1 (env : Env) (requested : List String) (unit : UnitState)
    (n : Need) (unit' : UnitState) (b : Builders) (num_rows : Nat)
    (hno : noStmtList unit.abbrevs)
    (htab : unit.filename_table = none)
    (hsz : unit.filename_table_size = 0)
    (hvalid : ∀ name ∈ requested, (columnNameToIdx name).isSome = true)
    (hn : computeNeed requested {} = .ok n)
    (hloop : parseLoop env (applyForcing n) 65536 unit {} 0 = .ok (unit', b, num_rows)) :
    ∃ chunk, parseEntries env requested unit = .ok (chunk, unit')
      ∧ chunk.num_rows = num_rows
      ∧ ∀ k, requested.get? k = some "decl_file" →
          chunk.cols.get? k = some (Column.lcDeclFile none (List.replicate num_rows 0)) := by
  obtain ⟨cols, hcols⟩ := assemble_ok requested unit' b num_rows hvalid
  refine ⟨{ cols := cols, num_rows := num_rows }, ?_, rfl, ?_⟩
  · unfold parseEntries
    rw [hn]
    dsimp only
    rw [hloop]
    dsimp only
    rw [hcols]
  · intro k hk
    obtain ⟨ht1, ht2, hdf⟩ := parseLoop_declfile hloop hno hsz
    have hmem : "decl_file" ∈ requested := List.get?_mem hk
    have hneed : (applyForcing n).decl_file = true := by
      rw [(applyForcing_fields n).2.2.2.2.2.1]
      exact computeNeed_mem_decl_file hn hmem
    have hbcol : b.col_decl_file = List.replicate num_rows 0 := by
      rw [hdf, hneed]
      simp
    have hbuild : buildColumn unit' b num_rows COL_DECL_FILE
        = .ok (Column.lcDeclFile unit'.filename_table b.col_decl_file) := rfl
    have hc := assemble_col hcols hk (by decide) hbuild
    calc cols.get? k
        = some (Column.lcDeclFile unit'.filename_table b.col_decl_file) := hc
      _ = some (Column.lcDeclFile none (List.replicate num_rows 0)) := by
          rw [ht1, htab, hbcol]

/-- The unit state `unitTermOne` reaches after its single terminator row. -/
def unitDone : UnitState :=
  { unitOffset := 0, endOffset := 1, offset := 1, stack := [], abbrevs := [] }

set_option maxRecDepth 8000 in
/-- Witness for C1: the one-terminator unit with no abbreviations decodes
with `decl_file` requested into one row whose `decl_file` is index 0
against an absent dictionary. -/
theorem claim_C1_witness :
    ∃ chunk, parseEntries envTerm ["decl_file"] unitTermOne = .ok (chunk, unitDone)
      ∧ chunk.num_rows = 1
      ∧ chunk.cols.get? 0 = some (Column.lcDeclFile none (List.replicate 1 0)) := by
  obtain ⟨chunk, h1, h2, h3⟩ := claim_C1 envTerm ["decl_file"] unitTermOne
    { decl_file := true } unitDone { col_decl_file := [0] } 1
    (fun c ab hmem => absurd hmem (List.not_mem_nil _))
    rfl rfl (by decide) (toOption_ok (by decide)) (toOption_ok (by decide))
  exact ⟨chunk, h1, h2, h3 0 rfl⟩

/-! ## Claim C5 -/

/-- Claim C5: for every row of every chunk, the `size` column equals
`next_offset − offset`, where `next_offset` is the next row's offset in the
same chunk or, for the chunk's last row, the cursor the unit reached — the
unit's `end_offset` whenever the chunk stopped before the row cap;
consequently one chunk's `size` values sum to the chunk's cursor
displacement, and the sum of `size` over all chunks of a drained unit
equals `unit.end_offset − unit.offset` (the unit's first DIE offset). -/
theorem claim_C5 (env : Env) (requested : List String) (hbl : env.info.length < 2 ^ 32) :
    (∀ unit chunk unit', parseEntries env requested unit = .ok (chunk, unit') →
      unit.offset ≤ env.info.length →
      unit'.endOffset = unit.endOffset ∧
      (chunk.num_rows < 65536 → unit'.offset = unit.endOffset) ∧
      (∀ ko ks, requested.get? ko = some "offset" → requested.get? ks = some "size" →
        ∃ offs szs, chunk.cols.get? ko = some (Column.u64 offs)
          ∧ chunk.cols.get? ks = some (Column.u32 szs)
          ∧ offs.length = chunk.num_rows
          ∧ szs.length = offs.length
          ∧ (∀ i, i < offs.length → szs.get? i
              = some ((if i + 1 < offs.length then offs.getD (i + 1) 0 else unit'.offset)
                  - offs.getD i 0))) ∧
      (∀ ks, requested.get? ks = some "size" →
        ∃ szs, chunk.cols.get? ks = some (Column.u32 szs)
          ∧ szs.sum = unit'.offset - unit.offset))
    ∧ (∀ fuel unit chunks uF, drainUnit env requested fuel unit = some (chunks, uF) →
        unit.offset ≤ env.info.length →
        uF.offset = unit.endOffset ∧
        ∀ ks, requested.get? ks = some "size" →
          (chunks.map (fun c => (sizeAt c ks).sum)).sum
            = unit.endOffset - unit.offset) := by
  constructor
  · intro unit chunk unit' hok hle
    obtain ⟨n, b, num_rows, hn, hloop, hasm, hnr⟩ := parseEntries_inv hok
    have hend := (parseLoop_frame hloop).2.1
    refine ⟨hend, ?_, ?_, ?_⟩
    · intro hlt
      rcases parseLoop_stop hloop with hcap | hstop
      · rw [hnr] at hlt; omega
      · rw [hstop.2, hend]
    · intro ko ks hko hks
      have ho : (applyForcing n).offset = true := by
        rw [(applyForcing_fields n).1]
        exact computeNeed_mem_offset hn (List.get?_mem hko)
      have hs : (applyForcing n).size = true := by
        rw [(applyForcing_fields n).2.1]
        exact computeNeed_mem_size hn (List.get?_mem hks)
      obtain ⟨hb, hds, hmlt, hpw, hlen, hlow⟩ :=
        parseLoop_chain ho hbl hloop hle (fun _ => rfl)
          (fun x hx => absurd hx (List.not_mem_nil _)) List.Pairwise.nil
      have hco : chunk.cols.get? ko = some (Column.u64 b.col_offset) :=
        assemble_col hasm hko (by decide)
          (rfl : buildColumn unit' b num_rows COL_OFFSET = .ok (Column.u64 b.col_offset))
      have hcs : chunk.cols.get? ks = some (Column.u32 b.col_size) :=
        assemble_col hasm hks (by decide)
          (rfl : buildColumn unit' b num_rows COL_SIZE = .ok (Column.u32 b.col_size))
      refine ⟨b.col_offset, b.col_size, hco, hcs, by rw [hnr]; simpa using hlen, ?_, ?_⟩
      · rw [hds hs, diffs_length]
      · intro i hi
        rw [hds hs]
        exact diffs_get b.col_offset unit'.offset i hi
    · intro ks hks
      have hs : (applyForcing n).size = true := by
        rw [(applyForcing_fields n).2.1]
        exact computeNeed_mem_size hn (List.get?_mem hks)
      obtain ⟨-, hsum⟩ := parseLoop_sizesum hs hbl hloop hle
      have hcs : chunk.cols.get? ks = some (Column.u32 b.col_size) :=
        assemble_col hasm hks (by decide)
          (rfl : buildColumn unit' b num_rows COL_SIZE = .ok (Column.u32 b.col_size))
      exact ⟨b.col_size, hcs, by simpa using hsum⟩
  · intro fuel unit chunks uF hdr hle
    obtain ⟨e1, e2, e3, e4⟩ := drainUnit_sum hbl hdr hle
    refine ⟨by rw [e1, e2], ?_⟩
    intro ks hks
    rw [e4 ks hks, e1, e2]

set_option maxRecDepth 8000 in
/-- Witness for C5: the one-terminator unit's single chunk has `size` [1]
summing to the cursor displacement 1, and draining it in one chunk sums to
`end_offset − first_offset` = 1. -/
theorem claim_C5_witness :
    (∃ szs chunk, parseEntries envTerm ["offset", "size"] unitTermOne = .ok (chunk, unitDone)
      ∧ chunk.cols.get? 1 = some (Column.u32 szs)
      ∧ szs.sum = unitDone.offset - unitTermOne.offset)
    ∧ (∃ chunks uF, drainUnit envTerm ["offset", "size"] 1 unitTermOne = some (chunks, uF)
      ∧ (chunks.map (fun c => (sizeAt c 1).sum)).sum
          = unitTermOne.endOffset - unitTermOne.offset) := by
  have hok : parseEntries envTerm ["offset", "size"] unitTermOne
      = .ok ({ cols := [Column.u64 [0], Column.u32 [1]], num_rows := 1 }, unitDone) :=
    toOption_ok (by decide)
  have hdr : drainUnit envTerm ["offset", "size"] 1 unitTermOne
      = some ([{ cols := [Column.u64 [0], Column.u32 [1]], num_rows := 1 }], unitDone) := by
    decide
  have hmain := claim_C5 envTerm ["offset", "size"] (by decide)
  obtain ⟨e1, e2, e3, e4⟩ := hmain.1 unitTermOne
    { cols := [Column.u64 [0], Column.u32 [1]], num_rows := 1 } unitDone hok (by decide)
  obtain ⟨szs, k1, k2⟩ := e4 1 rfl
  obtain ⟨g1, g2⟩ := hmain.2 1 unitTermOne
    [{ cols := [Column.u64 [0], Column.u32 [1]], num_rows := 1 }] unitDone hdr (by decide)
  exact ⟨⟨szs, _, hok, k1, k2⟩, ⟨_, _, hdr, g2 1 rfl⟩⟩

/-! ## Claim C8 -/

/-- Claim C8: in every emitted chunk the four array columns `attr_name`,
`attr_form`, `attr_int`, `attr_str` are built over one shared offsets
vector (the same `aoffs` term), and whenever requested their value columns
all end at the offsets vector's closing entry — so the inner lengths agree
at every row; `ancestor_tags` and `ancestor_offsets` likewise share one
offsets vector. This holds for every requested subset because requesting
any of `attr_form` / `attr_int` / `attr_str` forces `attr_name` on, and
requesting `ancestor_offsets` forces `ancestor_tags` on. -/
theorem claim_C8 (env : Env) (requested : List String) (unit : UnitState)
    (chunk : Chunk) (unit' : UnitState)
    (hok : parseEntries env requested unit = .ok (chunk, unit')) :
    (∃ aoffs names forms ints strs,
      (∀ k, requested.get? k = some "attr_name" →
        chunk.cols.get? k = some (Column.arrLC names aoffs)) ∧
      (∀ k, requested.get? k = some "attr_form" →
        chunk.cols.get? k = some (Column.arrLC forms aoffs)) ∧
      (∀ k, requested.get? k = some "attr_int" →
        chunk.cols.get? k = some (Column.arrU64 ints aoffs)) ∧
      (∀ k, requested.get? k = some "attr_str" →
        chunk.cols.get? k = some (Column.arrStr strs aoffs)) ∧
      (("attr_name" ∈ requested ∨ "attr_form" ∈ requested ∨ "attr_int" ∈ requested
          ∨ "attr_str" ∈ requested) →
        aoffs.length = chunk.num_rows ∧ List.Pairwise (· ≤ ·) aoffs ∧
        aoffs.getLastD 0 = names.length ∧
        ("attr_form" ∈ requested → forms.length = names.length) ∧
        ("attr_int" ∈ requested → ints.length = names.length) ∧
        ("attr_str" ∈ requested → strs.length = names.length)))
    ∧ (∃ anoffs atags adoffs,
      (∀ k, requested.get? k = some "ancestor_tags" →
        chunk.cols.get? k = some (Column.arrLC atags anoffs)) ∧
      (∀ k, requested.get? k = some "ancestor_offsets" →
        chunk.cols.get? k = some (Column.arrU64 adoffs anoffs)) ∧
      (("ancestor_tags" ∈ requested ∨ "ancestor_offsets" ∈ requested) →
        anoffs.length = chunk.num_rows ∧ List.Pairwise (· ≤ ·) anoffs ∧
        anoffs.getLastD 0 = atags.length ∧
        ("ancestor_offsets" ∈ requested → adoffs.length = atags.length)))
    ∧ (∀ m : Need,
      ((m.attr_form || m.attr_int || m.attr_str) = true → (applyForcing m).attr_name = true)
      ∧ (m.ancestor_offsets = true → (applyForcing m).ancestor_tags = true)) := by
  obtain ⟨n, b, num_rows, hn, hloop, hasm, hnr⟩ := parseEntries_inv hok
  refine ⟨?_, ?_, ?_⟩
  · refine ⟨b.col_attr_offsets, b.col_attr_name, b.col_attr_form, b.col_attr_int,
      b.col_attr_str, ?_, ?_, ?_, ?_, ?_⟩
    · intro k hk
      exact assemble_col hasm hk (by decide)
        (rfl : buildColumn unit' b num_rows COL_ATTR_NAME
          = .ok (Column.arrLC b.col_attr_name b.col_attr_offsets))
    · intro k hk
      exact assemble_col hasm hk (by decide)
        (rfl : buildColumn unit' b num_rows COL_ATTR_FORM
          = .ok (Column.arrLC b.col_attr_form b.col_attr_offsets))
    · intro k hk
      exact assemble_col hasm hk (by decide)
        (rfl : buildColumn unit' b num_rows COL_ATTR_INT
          = .ok (Column.arrU64 b.col_attr_int b.col_attr_offsets))
    · intro k hk
      exact assemble_col hasm hk (by decide)
        (rfl : buildColumn unit' b num_rows COL_ATTR_STR
          = .ok (Column.arrStr b.col_attr_str b.col_attr_offsets))
    · intro hmem4
      have hname : (applyForcing n).attr_name = true := by
        rw [(applyForcing_fields n).2.2.2.2.2.2.2.1]
        rcases hmem4 with h | h | h | h
        · rw [computeNeed_mem_attr_name hn h]; simp
        · rw [computeNeed_mem_attr_form hn h]; simp
        · rw [computeNeed_mem_attr_int hn h]; simp
        · rw [computeNeed_mem_attr_str hn h]; simp
      obtain ⟨j1, j2, j3, j4, j5, j6, j7⟩ :=
        parseLoop_attrarrays hname hloop (fun _ => rfl) (fun _ => rfl) (fun _ => rfl)
          (fun x hx => absurd hx (List.not_mem_nil _)) List.Pairwise.nil rfl
      refine ⟨by rw [hnr]; simpa using j7, j5, j6, ?_, ?_, ?_⟩
      · intro h
        refine j1 ?_
        rw [(applyForcing_fields n).2.2.2.2.2.2.2.2.1]
        exact computeNeed_mem_attr_form hn h
      · intro h
        refine j2 ?_
        rw [(applyForcing_fields n).2.2.2.2.2.2.2.2.2.1]
        exact computeNeed_mem_attr_int hn h
      · intro h
        refine j3 ?_
        rw [(applyForcing_fields n).2.2.2.2.2.2.2.2.2.2.1]
        exact computeNeed_mem_attr_str hn h
  · refine ⟨b.col_ancestor_array_offsets, b.col_ancestor_tags,
      b.col_ancestor_dwarf_offsets, ?_, ?_, ?_⟩
    · intro k hk
      exact assemble_col hasm hk (by decide)
        (rfl : buildColumn unit' b num_rows COL_ANCESTOR_TAGS
          = .ok (Column.arrLC b.col_ancestor_tags b.col_ancestor_array_offsets))
    · intro k hk
      exact assemble_col hasm hk (by decide)
        (rfl : buildColumn unit' b num_rows COL_ANCESTOR_OFFSETS
          = .ok (Column.arrU64 b.col_ancestor_dwarf_offsets b.col_ancestor_array_offsets))
    · intro hmem2
      have hanc : (applyForcing n).ancestor_tags = true := by
        rw [(applyForcing_fields n).2.2.2.2.2.2.2.2.2.2.2.1]
        rcases hmem2 with h | h
        · rw [computeNeed_mem_anc_tags hn h]; simp
        · rw [computeNeed_mem_anc_offsets hn h]; simp
      obtain ⟨j1, j2, j3, j4, j5⟩ :=
        parseLoop_ancarrays hanc hloop (fun _ => rfl)
          (fun x hx => absurd hx (List.not_mem_nil _)) List.Pairwise.nil rfl
      refine ⟨by rw [hnr]; simpa using j5, j3, j4, ?_⟩
      intro h
      refine j1 ?_
      rw [(applyForcing_fields n).2.2.2.2.2.2.2.2.2.2.2.2]
      exact computeNeed_mem_anc_offsets hn h
  · intro m
    constructor
    · intro hm
      rw [(applyForcing_fields m).2.2.2.2.2.2.2.1]
      simp only [Bool.or_eq_true] at hm ⊢
      tauto
    · intro hm
      rw [(applyForcing_fields m).2.2.2.2.2.2.2.2.2.2.2.1, hm]
      simp

set_option maxRecDepth 8000 in
/-- Witness for C8: decoding the terminator unit with all six array columns
requested, the four attribute arrays carry one shared offsets vector and
equal value-column lengths, with one offsets entry for the single row. -/
theorem claim_C8_witness :
    ∃ chunk, parseEntries envTerm
        ["attr_name", "attr_form", "attr_int", "attr_str", "ancestor_tags", "ancestor_offsets"]
        unitTermOne = .ok (chunk, unitDone)
      ∧ ∃ aoffs names forms ints strs,
          chunk.cols.get? 0 = some (Column.arrLC names aoffs)
          ∧ chunk.cols.get? 1 = some (Column.arrLC forms aoffs)
          ∧ chunk.cols.get? 2 = some (Column.arrU64 ints aoffs)
          ∧ chunk.cols.get? 3 = some (Column.arrStr strs aoffs)
          ∧ forms.length = names.length
          ∧ aoffs.length = chunk.num_rows := by
  have hok : parseEntries envTerm
      ["attr_name", "attr_form", "attr_int", "attr_str", "ancestor_tags", "ancestor_offsets"]
      unitTermOne
      = .ok (Chunk.mk [Column.arrLC [] [0], Column.arrLC [] [0], Column.arrU64 [] [0],
          Column.arrStr [] [0], Column.arrLC [17] [1], Column.arrU64 [5] [1]] 1, unitDone) :=
    toOption_ok (by decide)
  obtain ⟨⟨aoffs, names, forms, ints, strs, p1, p2, p3, p4, p5⟩, -, -⟩ :=
    claim_C8 envTerm
      ["attr_name", "attr_form", "attr_int", "attr_str", "ancestor_tags", "ancestor_offsets"]
      unitTermOne _ unitDone hok
  obtain ⟨q1, q2, q3, q4, q5, q6⟩ := p5 (Or.inl (by decide))
  exact ⟨_, hok, aoffs, names, forms, ints, strs,
    p1 0 rfl, p2 1 rfl, p3 2 rfl, p4 3 rfl, q4 (by decide), q1⟩

/-! ## Claim C9 -/

/-- Claim C9: every `parseEntries` call produces a chunk of at most 65536
rows; a chunk that stops before the row cap stops because the unit stack
emptied exactly at end-of-unit; the row offsets of a chunk are strictly
monotone and confined between the unit's entry cursor and exit cursor, so
the offsets of two successive chunks of one unit are strictly monotone
across the chunks; and a decoding worker whose unit still has chunks left
re-enqueues it at the FRONT of the unit queue when publishing. -/
theorem claim_C9 (env : Env) (requested : List String) (hbl : env.info.length < 2 ^ 32) :
    (∀ unit chunk unit', parseEntries env requested unit = .ok (chunk, unit') →
      unit.offset ≤ env.info.length →
      chunk.num_rows ≤ 65536 ∧
      (chunk.num_rows < 65536 → unit'.stack = [] ∧ unit'.offset = unit.endOffset) ∧
      (∀ k, requested.get? k = some "offset" →
        ∃ offs, chunk.cols.get? k = some (Column.u64 offs)
          ∧ offs.length = chunk.num_rows
          ∧ List.Pairwise (· < ·) offs
          ∧ ∀ x ∈ offs, unit.offset ≤ x ∧ x < unit'.offset))
    ∧ (∀ unit c₁ u₁ c₂ u₂, parseEntries env requested unit = .ok (c₁, u₁) →
        parseEntries env requested u₁ = .ok (c₂, u₂) →
        unit.offset ≤ env.info.length →
        ∀ k, requested.get? k = some "offset" →
          ∃ offs₁ offs₂, c₁.cols.get? k = some (Column.u64 offs₁)
            ∧ c₂.cols.get? k = some (Column.u64 offs₂)
            ∧ List.Pairwise (· < ·) (offs₁ ++ offs₂))
    ∧ (∀ (nw : Nat) (s : Scheduler.SState) (u : Scheduler.SUnit) (l₂ : List Scheduler.SUnit),
        s.decoding_workers = u :: l₂ → 1 < u.chunksLeft →
        Scheduler.Step nw s { s with
          decoding_workers := l₂
          ready_workers := s.ready_workers + 1
          units_in_progress := s.units_in_progress - 1
          delivery_queue := s.delivery_queue ++ [u.uid]
          units_queue := Scheduler.SUnit.mk u.uid (u.chunksLeft - 1) :: s.units_queue }) := by
  refine ⟨?_, ?_, ?_⟩
  · intro unit chunk unit' hok hle
    obtain ⟨n, b, num_rows, hn, hloop, hasm, hnr⟩ := parseEntries_inv hok
    have hfr := parseLoop_frame hloop
    refine ⟨by omega, ?_, ?_⟩
    · intro hlt
      rcases parseLoop_stop hloop with hcap | hstop
      · rw [hnr] at hlt; omega
      · exact ⟨hstop.1, by rw [hstop.2, hfr.2.1]⟩
    · intro k hk
      have ho : (applyForcing n).offset = true := by
        rw [(applyForcing_fields n).1]
        exact computeNeed_mem_offset hn (List.get?_mem hk)
      obtain ⟨hb, hds, hmlt, hpw, hlen, hlow⟩ :=
        parseLoop_chain ho hbl hloop hle (fun _ => rfl)
          (fun x hx => absurd hx (List.not_mem_nil _)) List.Pairwise.nil
      have hco : chunk.cols.get? k = some (Column.u64 b.col_offset) :=
        assemble_col hasm hk (by decide)
          (rfl : buildColumn unit' b num_rows COL_OFFSET = .ok (Column.u64 b.col_offset))
      refine ⟨b.col_offset, hco, by rw [hnr]; simpa using hlen, hpw, ?_⟩
      intro x hx
      rcases hlow x hx with hx1 | hx1
      · exact absurd hx1 (List.not_mem_nil _)
      · exact ⟨hx1, hmlt x hx⟩
  · intro unit c₁ u₁ c₂ u₂ hok1 hok2 hle k hk
    obtain ⟨n1, b1, r1, hn1, hloop1, hasm1, hnr1⟩ := parseEntries_inv hok1
    obtain ⟨n2, b2, r2, hn2, hloop2, hasm2, hnr2⟩ := parseEntries_inv hok2
    have ho1 : (applyForcing n1).offset = true := by
      rw [(applyForcing_fields n1).1]
      exact computeNeed_mem_offset hn1 (List.get?_mem hk)
    have ho2 : (applyForcing n2).offset = true := by
      rw [(applyForcing_fields n2).1]
      exact computeNeed_mem_offset hn2 (List.get?_mem hk)
    obtain ⟨hbb1, hds1, hmlt1, hpw1, hlen1, hlow1⟩ :=
      parseLoop_chain ho1 hbl hloop1 hle (fun _ => rfl)
        (fun x hx => absurd hx (List.not_mem_nil _)) List.Pairwise.nil
    obtain ⟨hbb2, hds2, hmlt2, hpw2, hlen2, hlow2⟩ :=
      parseLoop_chain ho2 hbl hloop2 hbb1.2 (fun _ => rfl)
        (fun x hx => absurd hx (List.not_mem_nil _)) List.Pairwise.nil
    have hco1 : c₁.cols.get? k = some (Column.u64 b1.col_offset) :=
      assemble_col hasm1 hk (by decide)
        (rfl : buildColumn u₁ b1 r1 COL_OFFSET = .ok (Column.u64 b1.col_offset))
    have hco2 : c₂.cols.get? k = some (Column.u64 b2.col_offset) :=
      assemble_col hasm2 hk (by decide)
        (rfl : buildColumn u₂ b2 r2 COL_OFFSET = .ok (Column.u64 b2.col_offset))
    refine ⟨b1.col_offset, b2.col_offset, hco1, hco2, ?_⟩
    rw [List.pairwise_append]
    refine ⟨hpw1, hpw2, ?_⟩
    intro a ha y hy
    have ha1 := hmlt1 a ha
    rcases hlow2 y hy with hy1 | hy1
    · exact absurd hy1 (List.not_mem_nil _)
    · omega
  · intro nw s u l₂ hw hcl
    have h := @Scheduler.Step.publish nw s [] l₂ u (by rw [hw]; rfl)
    have hif : (if u.chunksLeft ≤ 1 then s.units_queue
        else { uid := u.uid, chunksLeft := u.chunksLeft - 1 } :: s.units_queue)
        = Scheduler.SUnit.mk u.uid (u.chunksLeft - 1) :: s.units_queue :=
      if_neg (by omega)
    rw [hif] at h
    rw [List.nil_append] at h
    exact h

set_option maxRecDepth 8000 in
/-- Witness for C9: the terminator unit's chunk respects the row cap with
strictly monotone offsets, and a concrete publish step re-enqueues a
two-chunk unit at the front of the queue with one chunk left. -/
theorem claim_C9_witness :
    (∃ chunk, parseEntries envTerm ["offset"] unitTermOne = .ok (chunk, unitDone)
      ∧ chunk.num_rows ≤ 65536
      ∧ ∃ offs, chunk.cols.get? 0 = some (Column.u64 offs) ∧ List.Pairwise (· < ·) offs)
    ∧ Scheduler.Step 2 (Scheduler.SState.mk [] [] 1 false none 0 [Scheduler.SUnit.mk 7 2] 0)
        (Scheduler.SState.mk [Scheduler.SUnit.mk 7 1] [7] 0 false none 1 [] 0) := by
  have hok : parseEntries envTerm ["offset"] unitTermOne
      = .ok (Chunk.mk [Column.u64 [0]] 1, unitDone) := toOption_ok (by decide)
  have hmain := claim_C9 envTerm ["offset"] (by decide)
  obtain ⟨e1, e2, e3⟩ := hmain.1 unitTermOne _ unitDone hok (by decide)
  obtain ⟨offs, f1, f2, f3, f4⟩ := e3 0 rfl
  refine ⟨⟨_, hok, e1, offs, f1, f3⟩, ?_⟩
  exact hmain.2.2 2 (Scheduler.SState.mk [] [] 1 false none 0 [Scheduler.SUnit.mk 7 2] 0)
    (Scheduler.SUnit.mk 7 2) [] rfl (by decide)

/-! ## Claim C3 (corrected) -/

/-- The scheduler invariant behind the corrected back-pressure bound: the
`n` workers are conserved across the three worker states, and the
undelivered chunks plus the in-flight decodes never exceed `2·n`. -/
def SchedInv (n : Nat) (s : Scheduler.SState) : Prop :=
  s.ready_workers + s.decoding_workers.length + s.done_workers = n ∧
  s.delivery_queue.length + s.decoding_workers.length ≤ 2 * n

theorem schedInv_init (n : Nat) (units : List Scheduler.SUnit) :
    SchedInv n (Scheduler.schedInit n units) := by
  constructor <;> simp [Scheduler.schedInit]

theorem schedInv_step {n : Nat} {s t : Scheduler.SState}
    (hinv : SchedInv n s) (hstep : Scheduler.Step n s t) : SchedInv n t := by
  obtain ⟨hw, hd⟩ := hinv
  cases hstep with
  | take u rest hq hr hs hdq =>
    refine ⟨?_, ?_⟩ <;> dsimp only <;> simp only [List.length_cons] <;> omega
  | publish l₁ l₂ u hwk =>
    have hlen : s.decoding_workers.length = l₁.length + l₂.length + 1 := by
      rw [hwk]; simp only [List.length_append, List.length_cons]; omega
    refine ⟨?_, ?_⟩ <;> dsimp only <;>
      simp only [List.length_append, List.length_cons, List.length_nil] <;> omega
  | exitLoop hr h =>
    refine ⟨?_, ?_⟩ <;> dsimp only <;> omega
  | fail l₁ l₂ u e hwk =>
    have hlen : s.decoding_workers.length = l₁.length + l₂.length + 1 := by
      rw [hwk]; simp only [List.length_append, List.length_cons]; omega
    refine ⟨?_, ?_⟩ <;> dsimp only <;> simp only [List.length_append] <;> omega
  | consumerChunk c rest hs he hdq =>
    have hlen : s.delivery_queue.length = rest.length + 1 := by
      rw [hdq]; simp
    refine ⟨?_, ?_⟩ <;> dsimp only <;> omega
  | consumerStop =>
    exact ⟨hw, hd⟩

theorem schedInv_reachable {n : Nat} {s t : Scheduler.SState}
    (h : Scheduler.Reachable n s t) (hinv : SchedInv n s) : SchedInv n t := by
  induction h with
  | refl => exact hinv
  | tail hr hs ih => exact schedInv_step ih hs

/-- Claim C3 (amended): in every reachable state of the scheduler with a
worker pool of size `n`, the delivery queue holds at most `2·n` undelivered
chunks — not `n + 1` as the claim states. A worker checks the back-pressure
bound `delivery_queue.size() ≤ n` only when it TAKES a unit; each of the up
to `n` workers admitted while the queue was still at `n` can publish one
more chunk, so the tight reachable bound is `2·n`. -/
theorem claim_C3_amended (n : Nat) (units : List Scheduler.SUnit) (s : Scheduler.SState)
    (h : Scheduler.Reachable n (Scheduler.schedInit n units) s) :
    s.delivery_queue.length ≤ 2 * n := by
  have hinv := schedInv_reachable h (schedInv_init n units)
  obtain ⟨h1, h2⟩ := hinv
  omega

/-- Witness for the amended C3: at the freshly initialized scheduler the
bound `2·n` holds. -/
theorem claim_C3_witness :
    (Scheduler.schedInit 2 [Scheduler.SUnit.mk 1 2]).delivery_queue.length ≤ 2 * 2 :=
  claim_C3_amended 2 [Scheduler.SUnit.mk 1 2] _ (Scheduler.Reachable.refl _)

/-- Counterexample to C3 as stated: with a pool of N = 2 workers and two
two-chunk units, the interleaving take·take·publish·take·publish·take·
publish·publish reaches a state whose delivery queue holds 4 > N + 1 = 3
undelivered chunks — the back-pressure check happens only when a worker
takes a unit, so both workers can still publish after the queue reached
N. -/
theorem claim_C3_counterexample :
    ∃ s : Scheduler.SState,
      Scheduler.Reachable 2
        (Scheduler.schedInit 2 [Scheduler.SUnit.mk 1 2, Scheduler.SUnit.mk 2 2]) s
      ∧ 2 + 1 < s.delivery_queue.length := by
  refine ⟨Scheduler.SState.mk [] [1, 2, 1, 2] 0 false none 2 [] 0, ?_, by decide⟩
  have t1 : Scheduler.Step 2
      (Scheduler.schedInit 2 [Scheduler.SUnit.mk 1 2, Scheduler.SUnit.mk 2 2])
      (Scheduler.SState.mk [Scheduler.SUnit.mk 2 2] [] 1 false none 1
        [Scheduler.SUnit.mk 1 2] 0) :=
    Scheduler.Step.take _ (Scheduler.SUnit.mk 1 2) [Scheduler.SUnit.mk 2 2]
      rfl (by decide) rfl (by decide)
  have t2 : Scheduler.Step 2
      (Scheduler.SState.mk [Scheduler.SUnit.mk 2 2] [] 1 false none 1
        [Scheduler.SUnit.mk 1 2] 0)
      (Scheduler.SState.mk [] [] 2 false none 0
        [Scheduler.SUnit.mk 2 2, Scheduler.SUnit.mk 1 2] 0) :=
    Scheduler.Step.take _ (Scheduler.SUnit.mk 2 2) [] rfl (by decide) rfl (by decide)
  have t3 : Scheduler.Step 2
      (Scheduler.SState.mk [] [] 2 false none 0
        [Scheduler.SUnit.mk 2 2, Scheduler.SUnit.mk 1 2] 0)
      (Scheduler.SState.mk [Scheduler.SUnit.mk 1 1] [1] 1 false none 1
        [Scheduler.SUnit.mk 2 2] 0) :=
    Scheduler.Step.publish _ [Scheduler.SUnit.mk 2 2] [] (Scheduler.SUnit.mk 1 2) rfl
  have t4 : Scheduler.Step 2
      (Scheduler.SState.mk [Scheduler.SUnit.mk 1 1] [1] 1 false none 1
        [Scheduler.SUnit.mk 2 2] 0)
      (Scheduler.SState.mk [] [1] 2 false none 0
        [Scheduler.SUnit.mk 1 1, Scheduler.SUnit.mk 2 2] 0) :=
    Scheduler.Step.take _ (Scheduler.SUnit.mk 1 1) [] rfl (by decide) rfl (by decide)
  have t5 : Scheduler.Step 2
      (Scheduler.SState.mk [] [1] 2 false none 0
        [Scheduler.SUnit.mk 1 1, Scheduler.SUnit.mk 2 2] 0)
      (Scheduler.SState.mk [Scheduler.SUnit.mk 2 1] [1, 2] 1 false none 1
        [Scheduler.SUnit.mk 1 1] 0) :=
    Scheduler.Step.publish _ [Scheduler.SUnit.mk 1 1] [] (Scheduler.SUnit.mk 2 2) rfl
  have t6 : Scheduler.Step 2
      (Scheduler.SState.mk [Scheduler.SUnit.mk 2 1] [1, 2] 1 false none 1
        [Scheduler.SUnit.mk 1 1] 0)
      (Scheduler.SState.mk [] [1, 2] 2 false none 0
        [Scheduler.SUnit.mk 2 1, Scheduler.SUnit.mk 1 1] 0) :=
    Scheduler.Step.take _ (Scheduler.SUnit.mk 2 1) [] rfl (by decide) rfl (by decide)
  have t7 : Scheduler.Step 2
      (Scheduler.SState.mk [] [1, 2] 2 false none 0
        [Scheduler.SUnit.mk 2 1, Scheduler.SUnit.mk 1 1] 0)
      (Scheduler.SState.mk [] [1, 2, 1] 1 false none 1
        [Scheduler.SUnit.mk 2 1] 0) :=
    Scheduler.Step.publish _ [Scheduler.SUnit.mk 2 1] [] (Scheduler.SUnit.mk 1 1) rfl
  have t8 : Scheduler.Step 2
      (Scheduler.SState.mk [] [1, 2, 1] 1 false none 1
        [Scheduler.SUnit.mk 2 1] 0)
      (Scheduler.SState.mk [] [1, 2, 1, 2] 0 false none 2 [] 0) :=
    Scheduler.Step.publish _ [] [] (Scheduler.SUnit.mk 2 1) rfl
  exact Scheduler.Reachable.tail (Scheduler.Reachable.tail (Scheduler.Reachable.tail
    (Scheduler.Reachable.tail (Scheduler.Reachable.tail (Scheduler.Reachable.tail
      (Scheduler.Reachable.tail (Scheduler.Reachable.tail (Scheduler.Reachable.refl _)
        t1) t2) t3) t4) t5) t6) t7) t8

/-! ## Claim C10 -/

/-- Claim C10: any `generate` pass that returns — end-of-stream, an
already-set stop flag, or a background exception — without producing a
chunk sets `is_stopped` through its scope guard; once `is_stopped` is set,
every later pass returns end-of-stream immediately even when undelivered
chunks remain in the delivery queue, so a background exception is surfaced
to the consumer at most once; only a chunk-returning pass leaves
`is_stopped` (and so the worker pool) as it was, and such a pass happens
only while the format is not stopped. -/
theorem claim_C10 (s : Scheduler.SState) :
    (∀ s' out, Scheduler.generateOnce s = (s', out) →
      out ≠ Scheduler.GenOutcome.blocked →
      (∀ c, out ≠ Scheduler.GenOutcome.chunk c) →
      s'.is_stopped = true) ∧
    (s.is_stopped = true →
      Scheduler.generateOnce s = ({ s with is_stopped := true }, Scheduler.GenOutcome.eos)) ∧
    (∀ s' e, Scheduler.generateOnce s = (s', Scheduler.GenOutcome.exn e) →
      s'.is_stopped = true ∧ (Scheduler.generateOnce s').2 = Scheduler.GenOutcome.eos) ∧
    (∀ s' c, Scheduler.generateOnce s = (s', Scheduler.GenOutcome.chunk c) →
      s'.is_stopped = s.is_stopped ∧ s.is_stopped = false) := by
  refine ⟨?_, ?_, ?_, ?_⟩
  · intro s' out h hnb hnc
    unfold Scheduler.generateOnce at h
    by_cases hst : s.is_stopped = true
    · rw [if_pos hst] at h
      injection h with h1 h2
      rw [← h1]
    · rw [if_neg hst] at h
      cases hbe : s.background_exception with
      | some e =>
        rw [hbe] at h
        injection h with h1 h2
        rw [← h1]
      | none =>
        rw [hbe] at h
        dsimp only at h
        cases hdq : s.delivery_queue with
        | cons c rest =>
          rw [hdq] at h
          injection h with h1 h2
          exact absurd h2.symm (hnc c)
        | nil =>
          rw [hdq] at h
          dsimp only at h
          by_cases hidle : (s.units_queue.isEmpty && s.units_in_progress == 0) = true
          · rw [if_pos hidle] at h
            injection h with h1 h2
            rw [← h1]
          · rw [if_neg hidle] at h
            injection h with h1 h2
            exact absurd h2.symm hnb
  · intro hst
    unfold Scheduler.generateOnce
    rw [if_pos hst]
  · intro s' e h
    unfold Scheduler.generateOnce at h
    by_cases hst : s.is_stopped = true
    · rw [if_pos hst] at h
      injection h with h1 h2
      exact absurd h2.symm (by simp)
    · rw [if_neg hst] at h
      cases hbe : s.background_exception with
      | some e2 =>
        rw [hbe] at h
        injection h with h1 h2
        have hstop : s'.is_stopped = true := by rw [← h1]
        refine ⟨hstop, ?_⟩
        unfold Scheduler.generateOnce
        rw [if_pos hstop]
      | none =>
        rw [hbe] at h
        dsimp only at h
        cases hdq : s.delivery_queue with
        | cons c rest =>
          rw [hdq] at h
          injection h with h1 h2
          exact absurd h2.symm (by simp)
        | nil =>
          rw [hdq] at h
          dsimp only at h
          by_cases hidle : (s.units_queue.isEmpty && s.units_in_progress == 0) = true
          · rw [if_pos hidle] at h
            injection h with h1 h2
            exact absurd h2.symm (by simp)
          · rw [if_neg hidle] at h
            injection h with h1 h2
            exact absurd h2.symm (by simp)
  · intro s' c h
    unfold Scheduler.generateOnce at h
    by_cases hst : s.is_stopped = true
    · rw [if_pos hst] at h
      injection h with h1 h2
      exact absurd h2.symm (by simp)
    · rw [if_neg hst] at h
      cases hbe : s.background_exception with
      | some e2 =>
        rw [hbe] at h
        injection h with h1 h2
        exact absurd h2.symm (by simp)
      | none =>
        rw [hbe] at h
        dsimp only at h
        cases hdq : s.delivery_queue with
        | cons c2 rest =>
          rw [hdq] at h
          injection h with h1 h2
          refine ⟨by rw [← h1], by simpa using hst⟩
        | nil =>
          rw [hdq] at h
          dsimp only at h
          by_cases hidle : (s.units_queue.isEmpty && s.units_in_progress == 0) = true
          · rw [if_pos hidle] at h
            injection h with h1 h2
            exact absurd h2.symm (by simp)
          · rw [if_neg hidle] at h
            injection h with h1 h2
            exact absurd h2.symm (by simp)

/-- Witness for C10: a stopped state with an undelivered chunk still yields
end-of-stream, and a pending background exception is surfaced once, with
the following pass already end-of-stream. -/
theorem claim_C10_witness :
    (Scheduler.generateOnce (Scheduler.SState.mk [] [5] 0 true none 0 [] 0)).2
        = Scheduler.GenOutcome.eos
    ∧ ∃ s', Scheduler.generateOnce (Scheduler.SState.mk [] [] 0 false (some 9) 0 [] 0)
        = (s', Scheduler.GenOutcome.exn 9)
      ∧ s'.is_stopped = true
      ∧ (Scheduler.generateOnce s').2 = Scheduler.GenOutcome.eos := by
  constructor
  · rw [(claim_C10 (Scheduler.SState.mk [] [5] 0 true none 0 [] 0)).2.1 rfl]
  · have h : Scheduler.generateOnce (Scheduler.SState.mk [] [] 0 false (some 9) 0 [] 0)
        = (Scheduler.SState.mk [] [] 0 true (some 9) 0 [] 0, Scheduler.GenOutcome.exn 9) := by
      decide
    obtain ⟨h1, h2⟩ :=
      (claim_C10 (Scheduler.SState.mk [] [] 0 false (some 9) 0 [] 0)).2.2.1 _ 9 h
    exact ⟨_, h, h1, h2⟩

end DWARFBlockInputFormat
